import Mathlib

/-! Format String / Print String Formatted blueprint nodes

A shallow embedding of `K2Node_FormatString.cpp` and
`K2Node_SiriusPrintStringFormatted.cpp`.

Pins are records; the address of a pin object is its `Id`, so a C++ pointer
comparison `A == B` is `A.Id == B.Id`.  Arrays (`TArray`) are lists.  A
failed `check` (as in `FindPinChecked`) and a dereference of a null pointer
make an operation return `none`.

The host editor types that the nodes use but do not define (names, pin
types, the graph schema constants) are kept as small records with the
fields the two files read or write.
-/

/-! ## Host types -/

/-- `FName`: `Str` is what `ToString()` returns. The editor is case
preserving, so a name shows the spelling it was built from, but
`operator==` ignores ASCII case. The constructor from a string is
`FName.FromString` below. -/
structure FName where
  Str : String
deriving DecidableEq, Repr

namespace FName

/-- The comparison key of a name: its characters in lower case. -/
def ComparisonKey (n : FName) : List Char := n.Str.data.map Char.toLower

/-- `FName::operator==`: case-insensitive. -/
def Equals (a b : FName) : Bool := a.ComparisonKey == b.ComparisonKey

/-- `FName::ToString()`: the case-preserved spelling. -/
def ToString (n : FName) : String := n.Str

end FName

/-- `NAME_None`. -/
def NAME_None : FName := ⟨"None"⟩

/-- The number a list of decimal digits stands for, after the digits
that stand for `a`. -/
def DigitsValue (a : Nat) (cs : List Char) : Nat :=
  cs.foldl (fun a c => 10 * a + (c.toNat - 48)) a

/-- The digits after an underscore that the engine splits off a name as
its number (`ParseNumber`): at least one and at most ten decimal digits, no
leading zero unless it is the only digit, and a value below `MAX_int32`. -/
def FName.IsSplitNumber (Digits : List Char) : Bool :=
  !Digits.isEmpty && Digits.all Char.isDigit && decide (Digits.length ≤ 10)
    && (Digits.length == 1 || Digits.head? != some '0')
    && decide (DigitsValue 0 Digits < 2147483647)

/-- `FName(const TCHAR*)`, the constructor of the engine. The empty string
gives `NAME_None`. A trailing `_` and number are split off the name; when
nothing is left of the name, as for `_1`, the result is `NAME_None` too.
Every other string gives a name that keeps its spelling (`ToString` puts a
number that was split off back). -/
def FName.FromString (Name : String) : FName :=
  if Name.data.isEmpty then NAME_None
  else if Name.data.head? == some '_' && FName.IsSplitNumber Name.data.tail then NAME_None
  else ⟨Name⟩

/-- `EEdGraphPinDirection`. (`EGPD_MAX` is the count sentinel, which the
engine passes to `FindPin` for "any direction"; no pin carries it. In
`FindPin` below it is the `none` direction.) -/
inductive EEdGraphPinDirection where
  | EGPD_Input
  | EGPD_Output
deriving DecidableEq, Repr

open EEdGraphPinDirection

/-- `EPinContainerType`. -/
inductive EPinContainerType where
  | None
  | Array
  | Set
  | Map
deriving DecidableEq, Repr

/-- `FEdGraphTerminalType`, the value type of a map pin. -/
structure FEdGraphTerminalType where
  TerminalCategory : FName := NAME_None
  TerminalSubCategory : FName := NAME_None
  TerminalSubCategoryObject : Option Nat := none
  bTerminalIsConst : Bool := false
  bTerminalIsWeakPointer : Bool := false
deriving DecidableEq, Repr

/-- `FEdGraphTerminalType::operator==`. -/
def FEdGraphTerminalType.Equals (a b : FEdGraphTerminalType) : Bool :=
  a.TerminalCategory.Equals b.TerminalCategory
    && a.TerminalSubCategory.Equals b.TerminalSubCategory
    && a.TerminalSubCategoryObject == b.TerminalSubCategoryObject
    && a.bTerminalIsConst == b.bTerminalIsConst
    && a.bTerminalIsWeakPointer == b.bTerminalIsWeakPointer

/-- `FEdGraphPinType`, with the six fields of the constructor the nodes
call. `PinSubCategoryObject` is a weak object pointer: `none` is the null
pointer, for which `IsValid()` is false. -/
structure FEdGraphPinType where
  PinCategory : FName
  PinSubCategory : FName := NAME_None
  PinSubCategoryObject : Option Nat := none
  ContainerType : EPinContainerType := EPinContainerType.None
  bIsReference : Bool := false
  PinValueType : FEdGraphTerminalType := {}
deriving DecidableEq, Repr

/-- `FEdGraphPinType::operator==`: field by field, names by `FName`
equality. -/
def FEdGraphPinType.Equals (a b : FEdGraphPinType) : Bool :=
  a.PinCategory.Equals b.PinCategory
    && a.PinSubCategory.Equals b.PinSubCategory
    && a.PinSubCategoryObject == b.PinSubCategoryObject
    && a.PinValueType.Equals b.PinValueType
    && a.ContainerType == b.ContainerType
    && a.bIsReference == b.bIsReference

/-- A pointer to a pin of another node, as stored in `LinkedTo`: the
address of that pin and the pin type read through it. -/
structure PinLink where
  Id : Nat
  PinType : FEdGraphPinType
deriving DecidableEq, Repr

/-- `UEdGraphPin`. -/
structure UEdGraphPin where
  Id : Nat
  PinName : FName
  Direction : EEdGraphPinDirection
  PinType : FEdGraphPinType
  DefaultValue : String := ""
  DefaultTextValue : String := ""
  LinkedTo : List PinLink := []
  bAdvancedView : Bool := false
deriving DecidableEq, Repr

/-- The graph that owns the node: the number of `NotifyGraphChanged`
calls it has received. -/
structure UEdGraph where
  NotifyGraphChangedCalls : Nat := 0
deriving DecidableEq, Repr

/-- The blueprint that owns the graph. -/
structure UBlueprint where
  bBeingCompiled : Bool := false
  MarkedAsModified : Nat := 0
  BroadcastChangedCalls : Nat := 0
  MarkedAsStructurallyModified : Nat := 0
deriving DecidableEq, Repr

/-! ### `UEdGraphSchema_K2` constants -/

namespace UEdGraphSchema_K2
def PC_Exec : FName := ⟨"exec"⟩
def PC_Boolean : FName := ⟨"bool"⟩
def PC_Byte : FName := ⟨"byte"⟩
def PC_Int : FName := ⟨"int"⟩
def PC_Int64 : FName := ⟨"int64"⟩
def PC_Float : FName := ⟨"float"⟩
def PC_Real : FName := ⟨"real"⟩
def PC_Name : FName := ⟨"name"⟩
def PC_Object : FName := ⟨"object"⟩
def PC_String : FName := ⟨"string"⟩
def PC_Text : FName := ⟨"text"⟩
def PC_Struct : FName := ⟨"struct"⟩
def PC_Wildcard : FName := ⟨"wildcard"⟩
def PN_Execute : FName := ⟨"execute"⟩
def PN_Then : FName := ⟨"then"⟩
end UEdGraphSchema_K2

open UEdGraphSchema_K2

/-- `UEdGraphNode::FindPin(Name, Direction)`: the first pin whose name
equals `PinName` as an `FName` and, when a direction is given, whose
direction is that one. -/
def FindPin (Pins : List UEdGraphPin) (PinName : FName)
    (Direction : Option EEdGraphPinDirection) : Option UEdGraphPin :=
  Pins.find? (fun Pin => Pin.PinName.Equals PinName
    && (Direction.isNone || Direction == some Pin.Direction))

/-- The largest pin address in a list, at least `k`. -/
def MaxPinId (k : Nat) (Pins : List UEdGraphPin) : Nat :=
  Pins.foldr (fun Pin m => max Pin.Id m) k

/-- The static `WildcardPinType` of `SynchronizeArgumentPinType`:
`FEdGraphPinType(PC_Wildcard, NAME_None, nullptr, None, false, {})`. -/
def WildcardPinType : FEdGraphPinType :=
  { PinCategory := PC_Wildcard, PinSubCategory := NAME_None, PinSubCategoryObject := none,
    ContainerType := EPinContainerType.None, bIsReference := false, PinValueType := {} }

/-- The addresses and names of the pins, in array order. -/
def PinSummary (Pins : List UEdGraphPin) : List (Nat × String) :=
  Pins.map (fun Pin => (Pin.Id, Pin.PinName.ToString))

/-! ### Code shared by the two nodes -/

/-- A write through a pin pointer: `f` applied to the pin object at
address `Pin`. -/
def ModifyPin (Pins : List UEdGraphPin) (Pin : Nat) (f : UEdGraphPin → UEdGraphPin) :
    List UEdGraphPin :=
  Pins.map (fun P => if P.Id == Pin then f P else P)

/-- `Pin->PinType = NewType` on the pin object at address `Pin`. -/
def SetPinType (Pins : List UEdGraphPin) (Pin : Nat) (NewType : FEdGraphPinType) :
    List UEdGraphPin :=
  Pins.map (fun P => if P.Id == Pin then { P with PinType := NewType } else P)

/-- The type `SynchronizeArgumentPinType` leaves on an argument pin, and
`bPinTypeChanged`: the wildcard type for a pin without links, the type of
`LinkedTo[0]` otherwise, assigned only when it differs (`operator!=`) from
the current type. -/
def SynchronizedPinType (PinObject : UEdGraphPin) : FEdGraphPinType × Bool :=
  match PinObject.LinkedTo with
  | [] =>
    if !PinObject.PinType.Equals WildcardPinType then (WildcardPinType, true)
    else (PinObject.PinType, false)
  | ArgumentSourcePin :: _ =>
    if !PinObject.PinType.Equals ArgumentSourcePin.PinType then (ArgumentSourcePin.PinType, true)
    else (PinObject.PinType, false)

/-- The notifications at the end of `SynchronizeArgumentPinType`, sent
when `bPinTypeChanged` is set: `NotifyGraphChanged`, and unless the
blueprint is being compiled `MarkBlueprintAsModified` and
`BroadcastChanged`. -/
def NotifyPinTypeChanged (Graph : UEdGraph) (Blueprint : UBlueprint) : UEdGraph × UBlueprint :=
  let Graph := { Graph with NotifyGraphChangedCalls := Graph.NotifyGraphChangedCalls + 1 }
  if !Blueprint.bBeingCompiled then
    (Graph, { Blueprint with MarkedAsModified := Blueprint.MarkedAsModified + 1,
                             BroadcastChangedCalls := Blueprint.BroadcastChangedCalls + 1 })
  else (Graph, Blueprint)

/-! ### The compiler and the nodes it spawns -/

/-- `UEdGraphNode::FindPinChecked(Name)`: `FindPin` followed by a
`check`; `none` is the failed check. -/
def FindPinChecked (Pins : List UEdGraphPin) (PinName : FName) : Option UEdGraphPin :=
  FindPin Pins PinName none

/-- `TrySetDefaultValue(Pin, Value)`. -/
def TrySetDefaultValue (Pins : List UEdGraphPin) (Pin : UEdGraphPin) (Value : String) :
    List UEdGraphPin :=
  ModifyPin Pins Pin.Id (fun P => { P with DefaultValue := Value })

/-- `UEdGraphSchema_K2::TrySetDefaultText(Pin, Text)`: nothing happens to a
pin that is not of the category text; a text pin takes the text and loses
its default string. (What else the schema does for a text pin, the
validation of the text and the notification of its node, is left out: the
function is called on no text pin below.) -/
def TrySetDefaultText (Pins : List UEdGraphPin) (Pin : UEdGraphPin) (Text : String) :
    List UEdGraphPin :=
  ModifyPin Pins Pin.Id (fun P =>
    if P.PinType.PinCategory.Equals PC_Text then
      { P with DefaultTextValue := Text, DefaultValue := "" }
    else P)

/-- `A->MakeLinkTo(B)`, the side of `A`: `B` is added to the links of
`A` unless it is there already. `Pins` is the pin array of the node of
`A`. -/
def MakeLinkTo (Pins : List UEdGraphPin) (A B : UEdGraphPin) : List UEdGraphPin :=
  ModifyPin Pins A.Id (fun P =>
    if P.LinkedTo.any (fun L => L.Id == B.Id) then P
    else { P with LinkedTo := P.LinkedTo ++ [{ Id := B.Id, PinType := B.PinType }] })

/-- `MovePinLinksToIntermediate(Source, Target)`, the side of the
intermediate pin: it receives the links and the default values of
`Source`. -/
def MovePinLinksToIntermediate_Target (TargetPins : List UEdGraphPin)
    (Source Target : UEdGraphPin) : List UEdGraphPin :=
  ModifyPin TargetPins Target.Id (fun P =>
    { P with LinkedTo := P.LinkedTo ++ Source.LinkedTo,
             DefaultValue := Source.DefaultValue,
             DefaultTextValue := Source.DefaultTextValue })

/-- `MovePinLinksToIntermediate(Source, Target)`, the side of the source
pin: all its links are broken. -/
def MovePinLinksToIntermediate_Source (SourcePins : List UEdGraphPin) (Source : UEdGraphPin) :
    List UEdGraphPin :=
  ModifyPin SourcePins Source.Id (fun P => { P with LinkedTo := [] })

/-- The function libraries the node refers to. -/
inductive UClass where
  | USiriusStringLibrary
  | UKismetMathLibrary
  | UKismetStringLibrary
  | UKismetTextLibrary
deriving DecidableEq, Repr

/-- A reflected function: the class that declares it, its name, and the
names of its parameters. -/
structure UFunction where
  OwnerClass : UClass
  Name : FName
  Parameters : List FName
deriving DecidableEq, Repr

/-- `Class->FindFunctionByName(Name)` over the reflected functions
`Functions`; `none` is `nullptr`. -/
def FindFunctionByName (Functions : List UFunction) (Class : UClass) (Name : FName) :
    Option UFunction :=
  Functions.find? (fun F => F.OwnerClass == Class && F.Name.Equals Name)

/-- The functions the node names with `GET_MEMBER_NAME_CHECKED(Class,
Function)`, each in the class it is checked against, with the parameter
the node looks up on the call node. -/
def EngineFunctions : List UFunction :=
  [ { OwnerClass := UClass.USiriusStringLibrary, Name := ⟨"Format"⟩,
      Parameters := [⟨"InPattern"⟩, ⟨"InArgs"⟩] },
    { OwnerClass := UClass.UKismetMathLibrary, Name := ⟨"Conv_ByteToInt"⟩,
      Parameters := [⟨"InByte"⟩] },
    { OwnerClass := UClass.UKismetStringLibrary, Name := ⟨"Conv_BoolToString"⟩,
      Parameters := [⟨"InBool"⟩] },
    { OwnerClass := UClass.UKismetStringLibrary, Name := ⟨"Conv_NameToString"⟩,
      Parameters := [⟨"InName"⟩] },
    { OwnerClass := UClass.UKismetTextLibrary, Name := ⟨"Conv_TextToString"⟩,
      Parameters := [⟨"InText"⟩] },
    { OwnerClass := UClass.UKismetStringLibrary, Name := ⟨"Conv_ObjectToString"⟩,
      Parameters := [⟨"InObj"⟩] } ]

/-- `FKismetCompilerContext`: the address of the next pin object it
allocates for an intermediate node, and the errors of its message log. -/
structure FKismetCompilerContext where
  NextPinId : Nat
  MessageLog : List String := []
deriving DecidableEq, Repr

/-- A new pin object of an intermediate node. -/
def FKismetCompilerContext.NewPin (Context : FKismetCompilerContext) (PinName : FName)
    (Direction : EEdGraphPinDirection) (PinCategory : FName) :
    UEdGraphPin × FKismetCompilerContext :=
  ({ Id := Context.NextPinId, PinName := PinName, Direction := Direction,
     PinType := { PinCategory := PinCategory } },
   { Context with NextPinId := Context.NextPinId + 1 })

/-- New input pins of an intermediate node, one per name. -/
def FKismetCompilerContext.NewInputPins :
    FKismetCompilerContext → List FName → List UEdGraphPin × FKismetCompilerContext
  | Context, [] => ([], Context)
  | Context, PinName :: rest =>
    let (Pin, Context) := Context.NewPin PinName EGPD_Input PC_Wildcard
    let (Pins, Context) := Context.NewInputPins rest
    (Pin :: Pins, Context)

/-- `UK2Node_CallFunction`. -/
structure UK2Node_CallFunction where
  FunctionReference : Option UFunction := none
  Pins : List UEdGraphPin := []
deriving DecidableEq, Repr

namespace UK2Node_CallFunction

/-- `SetFromFunction(Function)`: nothing is set for a null function. -/
def SetFromFunction (Node : UK2Node_CallFunction) (Function : Option UFunction) :
    UK2Node_CallFunction :=
  match Function with
  | some F => { Node with FunctionReference := some F }
  | none => Node

/-- `AllocateDefaultPins`: an input per parameter of the function and the
`ReturnValue` output; no pin when the node has no function. (The hidden
`self` pin and the execution pins of an impure function are left out.) -/
def AllocateDefaultPins (Context : FKismetCompilerContext) (Node : UK2Node_CallFunction) :
    UK2Node_CallFunction × FKismetCompilerContext :=
  match Node.FunctionReference with
  | none => (Node, Context)
  | some F =>
    let (Inputs, Context) := Context.NewInputPins F.Parameters
    let (ReturnValue, Context) := Context.NewPin ⟨"ReturnValue"⟩ EGPD_Output PC_Wildcard
    ({ Node with Pins := Node.Pins ++ Inputs ++ [ReturnValue] }, Context)

/-- `GetReturnValuePin`. -/
def GetReturnValuePin (Node : UK2Node_CallFunction) : Option UEdGraphPin :=
  FindPin Node.Pins ⟨"ReturnValue"⟩ none

end UK2Node_CallFunction

/-- `FString::Printf(TEXT("[%d]"), Index)`, which is also the name
`UK2Node_MakeArray` gives its input number `Index`. -/
def ArrayPinName (Index : Nat) : FName :=
  ⟨String.mk ('[' :: Nat.toDigits 10 Index ++ [']'])⟩

/-- `UK2Node_MakeArray`. -/
structure UK2Node_MakeArray where
  NumInputs : Nat := 1
  Pins : List UEdGraphPin := []
deriving DecidableEq, Repr

namespace UK2Node_MakeArray

/-- `AllocateDefaultPins`: the `Array` output and the input `[0]`. -/
def AllocateDefaultPins (Context : FKismetCompilerContext) (Node : UK2Node_MakeArray) :
    UK2Node_MakeArray × FKismetCompilerContext :=
  let (Output, Context) := Context.NewPin ⟨"Array"⟩ EGPD_Output PC_Wildcard
  let Output := { Output with PinType := { Output.PinType with ContainerType := EPinContainerType.Array } }
  let (Inputs, Context) := Context.NewInputPins ((List.range Node.NumInputs).map ArrayPinName)
  ({ Node with Pins := Node.Pins ++ Output :: Inputs }, Context)

/-- `GetOutputPin`. -/
def GetOutputPin (Node : UK2Node_MakeArray) : Option UEdGraphPin :=
  FindPin Node.Pins ⟨"Array"⟩ none

/-- `AddInputPin`: one more input, named after the next index. -/
def AddInputPin (Context : FKismetCompilerContext) (Node : UK2Node_MakeArray) :
    UK2Node_MakeArray × FKismetCompilerContext :=
  let (Pin, Context) := Context.NewPin (ArrayPinName Node.NumInputs) EGPD_Input PC_Wildcard
  ({ Node with NumInputs := Node.NumInputs + 1, Pins := Node.Pins ++ [Pin] }, Context)

/-- `PinConnectionListChanged(Pin)`: the node takes the element type of
the pin its changed pin is linked to; pins and links stay. -/
def PinConnectionListChanged (Node : UK2Node_MakeArray) (ChangedPin : UEdGraphPin) :
    UK2Node_MakeArray :=
  match ChangedPin.LinkedTo with
  | [] => Node
  | L :: _ =>
    { Node with Pins := Node.Pins.map (fun P =>
        { P with PinType := { L.PinType with ContainerType := P.PinType.ContainerType } }) }

/-- The input pins of the node. -/
def Inputs (Node : UK2Node_MakeArray) : List UEdGraphPin :=
  Node.Pins.filter (fun P => P.Direction == EGPD_Input)

end UK2Node_MakeArray

/-- `UK2Node_MakeStruct`. -/
structure UK2Node_MakeStruct where
  StructType : Option FName := none
  bMadeAfterOverridePinRemoval : Bool := false
  Pins : List UEdGraphPin := []
deriving DecidableEq, Repr

/-- Modelled from the spec: the struct `FSiriusStringFormatArgument` is
declared in a header that is not part of the sources at hand; these are the
members that `ExpandNode` names, the argument name, the kind of value, and
one value per kind. -/
def FSiriusStringFormatArgument_Members : List (FName × FName) :=
  [ (⟨"ArgumentName"⟩, PC_String),
    (⟨"ArgumentValueType"⟩, PC_Byte),
    (⟨"ArgumentValue"⟩, PC_String),
    (⟨"ArgumentValueInt"⟩, PC_Int),
    (⟨"ArgumentValueInt64"⟩, PC_Int64),
    (⟨"ArgumentValueFloat"⟩, PC_Float) ]

namespace UK2Node_MakeStruct

/-- The input pins of a make-struct node, one per member. -/
def MemberPins : FKismetCompilerContext → List (FName × FName) →
    List UEdGraphPin × FKismetCompilerContext
  | Context, [] => ([], Context)
  | Context, (MemberName, PinCategory) :: rest =>
    let (Pin, Context) := Context.NewPin MemberName EGPD_Input PinCategory
    let (Pins, Context) := MemberPins Context rest
    (Pin :: Pins, Context)

/-- `AllocateDefaultPins` for `FSiriusStringFormatArgument`: the struct
output, then an input per member. -/
def AllocateDefaultPins (Context : FKismetCompilerContext) (Node : UK2Node_MakeStruct) :
    UK2Node_MakeStruct × FKismetCompilerContext :=
  let (Output, Context) := Context.NewPin ⟨"SiriusStringFormatArgument"⟩ EGPD_Output PC_Struct
  let (Inputs, Context) := MemberPins Context FSiriusStringFormatArgument_Members
  ({ Node with Pins := Node.Pins ++ Output :: Inputs }, Context)

end UK2Node_MakeStruct

/-! ## `UK2Node_FormatString` -/

namespace UK2Node_FormatString

/-- The node: its pin array, the `PinNames` property, the cached
format pin pointer (`none` is `nullptr`), and its graph and blueprint. -/
structure Node where
  Pins : List UEdGraphPin := []
  PinNames : List FName := []
  CachedFormatPin : Option Nat := none
  Graph : UEdGraph := {}
  Blueprint : UBlueprint := {}
deriving DecidableEq, Repr

/-- The address `CreatePin` gives the next pin object: one that no pin of
the node (nor the cached pointer) has. -/
def NewPinId (s : Node) : Nat :=
  MaxPinId (s.CachedFormatPin.getD 0) s.Pins + 1

/-- `CreatePin(Direction, Category, Name)`: appends a new pin of the
given category to `Pins` and returns it. -/
def CreatePin (s : Node) (Direction : EEdGraphPinDirection) (PinCategory : FName)
    (PinName : FName) : UEdGraphPin × Node :=
  let Pin : UEdGraphPin :=
    { Id := NewPinId s, PinName := PinName, Direction := Direction,
      PinType := { PinCategory := PinCategory } }
  (Pin, { s with Pins := s.Pins ++ [Pin] })

/-- `AllocateDefaultPins`: the `Format` input (cached), the `Result`
output, and one wildcard input per entry of `PinNames`. -/
def AllocateDefaultPins (s : Node) : Node :=
  let (FormatPin, s) := CreatePin s EGPD_Input PC_String ⟨"Format"⟩
  let s := { s with CachedFormatPin := some FormatPin.Id }
  let s := (CreatePin s EGPD_Output PC_String ⟨"Result"⟩).2
  s.PinNames.foldl (fun s PinName => (CreatePin s EGPD_Input PC_Wildcard PinName).2) s

/-- `GetFormatPin`: the cached pointer, looked up by name
(`FindPinChecked(TEXT("Format"))`) and cached when it is still null. -/
def GetFormatPin (s : Node) : Option (Nat × Node) :=
  match s.CachedFormatPin with
  | some FormatPin => some (FormatPin, s)
  | none =>
    match FindPin s.Pins ⟨"Format"⟩ none with
    | some Pin => some (Pin.Id, { s with CachedFormatPin := some Pin.Id })
    | none => none

/-- The guard `Pin != FormatPin && Pin->Direction == EGPD_Input` of
`PinDefaultValueChanged`, `IsConnectionDisallowed` and
`SynchronizeArgumentPinType`: an input pin other than the format pin. -/
def IsArgumentPin (FormatPin : Nat) (Pin : UEdGraphPin) : Bool :=
  Pin.Id != FormatPin && Pin.Direction == EGPD_Input

/-- The test of the loop in `FindArgumentPin`. -/
def IsArgumentPinNamed (FormatPin : Nat) (InPinName : FName) (Pin : UEdGraphPin) : Bool :=
  Pin.Id != FormatPin && Pin.Direction != EGPD_Output
    && Pin.PinName.ToString == InPinName.ToString

/-- `FindArgumentPin`: the first pin that is not the format pin, is not an
output and has the given name, case-sensitively; `some none` is
`nullptr`. -/
def FindArgumentPin (s : Node) (InPinName : FName) : Option (Option UEdGraphPin × Node) :=
  match GetFormatPin s with
  | none => none
  | some (FormatPin, s) => some (s.Pins.find? (IsArgumentPinNamed FormatPin InPinName), s)

/-- The first loop of `PinDefaultValueChanged`: for every parsed argument
name, create a wildcard input unless an argument pin of that name exists,
and add the name to `PinNames`. -/
def PinDefaultValueChanged_CreateLoop : Node → List String → Option Node
  | s, [] => some s
  | s, Param :: rest =>
    let ParamName : FName := FName.FromString Param
    match FindArgumentPin s ParamName with
    | none => none
    | some (Found, s) =>
      let s := if Found.isNone then (CreatePin s EGPD_Input PC_Wildcard ParamName).2 else s
      PinDefaultValueChanged_CreateLoop { s with PinNames := s.PinNames ++ [ParamName] } rest

/-- The second loop of `PinDefaultValueChanged` over the pins not yet
visited: an input other than the format pin whose name is not among the
parsed names is removed (`It.RemoveCurrent()`), every other pin stays. -/
def PinDefaultValueChanged_DestroyLoop (FormatPin : Nat) (ArgumentParams : List String) :
    List UEdGraphPin → List UEdGraphPin
  | [] => []
  | CheckPin :: rest =>
    if IsArgumentPin FormatPin CheckPin then
      let bIsValidArgPin := ArgumentParams.any (fun InPinName => InPinName == CheckPin.PinName.ToString)
      if !bIsValidArgPin then
        PinDefaultValueChanged_DestroyLoop FormatPin ArgumentParams rest
      else
        CheckPin :: PinDefaultValueChanged_DestroyLoop FormatPin ArgumentParams rest
    else
      CheckPin :: PinDefaultValueChanged_DestroyLoop FormatPin ArgumentParams rest

/-- `PinDefaultValueChanged(Pin)`. `ArgumentParams` is what the engine
parser (`FTextFormat::GetFormatArgumentNames`) returns for the default
value of the format pin. -/
def PinDefaultValueChanged (s : Node) (Pin : Nat) (ArgumentParams : List String) :
    Option Node :=
  match GetFormatPin s with
  | none => none
  | some (FormatPin, s) =>
    if Pin == FormatPin then
      match s.Pins.find? (fun P => P.Id == FormatPin) with
      | none => none
      | some FormatPinObject =>
        if FormatPinObject.LinkedTo.length == 0 then
          let s := { s with PinNames := [] }
          match PinDefaultValueChanged_CreateLoop s ArgumentParams with
          | none => none
          | some s =>
            let s := { s with Pins := PinDefaultValueChanged_DestroyLoop FormatPin ArgumentParams s.Pins }
            some { s with Graph := { s.Graph with
              NotifyGraphChangedCalls := s.Graph.NotifyGraphChangedCalls + 1 } }
        else some s
    else some s

/-- The names carried by the input pins other than the format pin. -/
def ArgumentPinNames (FormatPin : Nat) (Pins : List UEdGraphPin) : List String :=
  (Pins.filter (IsArgumentPin FormatPin)).map (fun Pin => Pin.PinName.ToString)

/-- `SynchronizeArgumentPinType(Pin)`, `Pin` being the address of a pin of
the node. -/
def SynchronizeArgumentPinType (s : Node) (Pin : Nat) : Option Node :=
  match GetFormatPin s with
  | none => none
  | some (FormatPin, s) =>
    match s.Pins.find? (fun P => P.Id == Pin) with
    | none => none
    | some PinObject =>
      if PinObject.Id != FormatPin && PinObject.Direction == EGPD_Input then
        let (NewType, bPinTypeChanged) := SynchronizedPinType PinObject
        let s := { s with Pins := SetPinType s.Pins Pin NewType }
        if bPinTypeChanged then
          let (Graph, Blueprint) := NotifyPinTypeChanged s.Graph s.Blueprint
          some { s with Graph := Graph, Blueprint := Blueprint }
        else some s
      else some s

/-- The text of `Error_InvalidArgumentType`. -/
def Error_InvalidArgumentType : String :=
  "Format arguments may only be Byte, Integer, Float, Text, String, Name, Boolean, Object or Wildcard."

/-- The value of `bIsValidType` in `IsConnectionDisallowed`. -/
def bIsValidType (OtherPin : UEdGraphPin) : Bool :=
  let OtherPinCategory := OtherPin.PinType.PinCategory
  OtherPinCategory.Equals PC_Int ||
  OtherPinCategory.Equals PC_Int64 ||
  OtherPinCategory.Equals PC_Float ||
  OtherPinCategory.Equals PC_Text ||
  (OtherPinCategory.Equals PC_Byte && !OtherPin.PinType.PinSubCategoryObject.isSome) ||
  OtherPinCategory.Equals PC_Boolean ||
  OtherPinCategory.Equals PC_String ||
  OtherPinCategory.Equals PC_Name ||
  OtherPinCategory.Equals PC_Object ||
  OtherPinCategory.Equals PC_Wildcard

/-- `IsConnectionDisallowed(MyPin, OtherPin, OutReason)`: the answer and
the value left in `OutReason`. `Super` is the base class
(`Super::IsConnectionDisallowed` applied to the same two pins), from the
incoming `OutReason` to its answer and the `OutReason` it leaves. -/
def IsConnectionDisallowed (s : Node) (MyPin OtherPin : UEdGraphPin) (OutReason : String)
    (Super : String → Bool × String) : Option ((Bool × String) × Node) :=
  match GetFormatPin s with
  | none => none
  | some (FormatPin, s) =>
    if MyPin.Id != FormatPin && MyPin.Direction == EGPD_Input then
      if !bIsValidType OtherPin then
        some ((true, Error_InvalidArgumentType), s)
      else some (Super OutReason, s)
    else some (Super OutReason, s)

/-- A pin of some other node, of the given category and sub-category
object. -/
def OtherPinOfType (PinCategory : FName) (PinSubCategoryObject : Option Nat) : UEdGraphPin :=
  { Id := 100, PinName := ⟨"Value"⟩, Direction := EGPD_Output,
    PinType := { PinCategory := PinCategory, PinSubCategoryObject := PinSubCategoryObject } }

/-- A node with the format pin (address 1), the result pin (2), and an
argument pin `a` (3) that is a wildcard linked to an `int` pin. -/
def ExampleLinkedNode : Node :=
  { Pins := [
      { Id := 1, PinName := ⟨"Format"⟩, Direction := EGPD_Input, PinType := { PinCategory := PC_String } },
      { Id := 2, PinName := ⟨"Result"⟩, Direction := EGPD_Output, PinType := { PinCategory := PC_String } },
      { Id := 3, PinName := ⟨"a"⟩, Direction := EGPD_Input, PinType := WildcardPinType,
        LinkedTo := [{ Id := 100, PinType := { PinCategory := PC_Int } }] }],
    PinNames := [⟨"a"⟩],
    CachedFormatPin := some 1 }

end UK2Node_FormatString

/-! ## `UK2Node_SiriusPrintStringFormatted` -/

namespace UK2Node_SiriusPrintStringFormatted

def ExecutePinName : FName := PN_Execute
def ThenPinName : FName := PN_Then
def FormatPinName : FName := ⟨"In String"⟩
def PrintScreenPinName : FName := ⟨"Print to Screen"⟩
def PrintLogPinName : FName := ⟨"Print to Log"⟩
def TextColorPinName : FName := ⟨"Text Color"⟩
def DurationPinName : FName := ⟨"Duration"⟩

/-- `ENodeAdvancedPins`. -/
inductive ENodeAdvancedPins where
  | NoPins
  | Shown
  | Hidden
deriving DecidableEq, Repr

/-- The node: its pin array, the `PinNames` property, the cache of
argument pin pointers (each with the pin object it points to), the
advanced pin display, and its graph and blueprint. -/
structure Node where
  Pins : List UEdGraphPin := []
  PinNames : List FName := []
  CachedArgumentPins : List UEdGraphPin := []
  AdvancedPinDisplay : ENodeAdvancedPins := ENodeAdvancedPins.NoPins
  Graph : UEdGraph := {}
  Blueprint : UBlueprint := {}
deriving DecidableEq, Repr

/-- The address `CreatePin` gives the next pin object: one that no pin of
the node and no cached pointer has. -/
def NewPinId (s : Node) : Nat :=
  MaxPinId (MaxPinId 0 s.CachedArgumentPins) s.Pins + 1

/-- `CreatePin(Direction, PinType, Name, Index)`: the new pin is inserted
at `Index` when that is a valid index of `Pins` and added at the end
otherwise (`none` is `INDEX_NONE`). -/
def CreatePin (s : Node) (Direction : EEdGraphPinDirection) (PinType : FEdGraphPinType)
    (PinName : FName) (Index : Option Nat) : UEdGraphPin × Node :=
  let Pin : UEdGraphPin :=
    { Id := NewPinId s, PinName := PinName, Direction := Direction, PinType := PinType }
  match Index with
  | some i =>
    if i < s.Pins.length then (Pin, { s with Pins := s.Pins.take i ++ Pin :: s.Pins.drop i })
    else (Pin, { s with Pins := s.Pins ++ [Pin] })
  | none => (Pin, { s with Pins := s.Pins ++ [Pin] })

/-- The `LinearColor` script struct object. -/
def LinearColorScriptStruct : Nat := 1

/-- `AllocateDefaultPins`. -/
def AllocateDefaultPins (s : Node) : Node :=
  let s := if s.AdvancedPinDisplay == ENodeAdvancedPins.NoPins
    then { s with AdvancedPinDisplay := ENodeAdvancedPins.Hidden } else s
  -- Execution pins
  let s := (CreatePin s EGPD_Input { PinCategory := PC_Exec } ExecutePinName none).2
  let s := (CreatePin s EGPD_Output { PinCategory := PC_Exec } ThenPinName none).2
  -- Format pins
  let (FormatPin, s) := CreatePin s EGPD_Input { PinCategory := PC_String } FormatPinName none
  let s := { s with Pins := ModifyPin s.Pins FormatPin.Id (fun P => { P with DefaultValue := "Hello" }) }
  let s := s.PinNames.foldl (fun s PinName =>
    let (Pin, s) := CreatePin s EGPD_Input { PinCategory := PC_Wildcard } PinName none
    { s with CachedArgumentPins := s.CachedArgumentPins ++ [Pin] }) s
  let (PrintScreenPin, s) := CreatePin s EGPD_Input { PinCategory := PC_Boolean } PrintScreenPinName none
  let s := { s with Pins := ModifyPin s.Pins PrintScreenPin.Id
                              (fun P => { P with bAdvancedView := true, DefaultValue := "true" }) }
  let (PrintLogPin, s) := CreatePin s EGPD_Input { PinCategory := PC_Boolean } PrintLogPinName none
  let s := { s with Pins := ModifyPin s.Pins PrintLogPin.Id
                              (fun P => { P with bAdvancedView := true, DefaultValue := "true" }) }
  let (TextColorPin, s) := CreatePin s EGPD_Input
    { PinCategory := PC_Struct, PinSubCategoryObject := some LinearColorScriptStruct }
    TextColorPinName none
  let s := { s with Pins := ModifyPin s.Pins TextColorPin.Id
                              (fun P => { P with
                                bAdvancedView := true,
                                DefaultValue := "(R=0.000000,G=0.660000,B=1.000000,A=1.000000)" }) }
  let (DurationPin, s) := CreatePin s EGPD_Input
    { PinCategory := PC_Real, PinSubCategory := PC_Float } DurationPinName none
  { s with Pins := ModifyPin s.Pins DurationPin.Id
                     (fun P => { P with bAdvancedView := true, DefaultValue := "2.0" }) }

/-- `GetExecutePin`: `FindPinChecked(ExecutePinName, EGPD_Input)`. -/
def GetExecutePin (s : Node) : Option UEdGraphPin := FindPin s.Pins ExecutePinName (some EGPD_Input)
/-- `GetThenPin`: `FindPinChecked(ThenPinName, EGPD_Output)`. -/
def GetThenPin (s : Node) : Option UEdGraphPin := FindPin s.Pins ThenPinName (some EGPD_Output)
/-- `GetFormatPin`: `FindPinChecked(FormatPinName, EGPD_Input)`. -/
def GetFormatPin (s : Node) : Option UEdGraphPin := FindPin s.Pins FormatPinName (some EGPD_Input)
/-- `GetPrintScreenPin`: `FindPinChecked(PrintScreenPinName, EGPD_Input)`. -/
def GetPrintScreenPin (s : Node) : Option UEdGraphPin :=
  FindPin s.Pins PrintScreenPinName (some EGPD_Input)
/-- `GetPrintLogPin`: `FindPinChecked(PrintLogPinName, EGPD_Input)`. -/
def GetPrintLogPin (s : Node) : Option UEdGraphPin := FindPin s.Pins PrintLogPinName (some EGPD_Input)
/-- `GetTextColorPin`: `FindPinChecked(TextColorPinName, EGPD_Input)`. -/
def GetTextColorPin (s : Node) : Option UEdGraphPin :=
  FindPin s.Pins TextColorPinName (some EGPD_Input)
/-- `GetDurationPin`: `FindPinChecked(DurationPinName, EGPD_Input)`. -/
def GetDurationPin (s : Node) : Option UEdGraphPin := FindPin s.Pins DurationPinName (some EGPD_Input)

/-- The `IgnorePins` array of `FindArgumentPin`: what the seven getters
return, `none` when one of them fails its check. -/
def IgnorePins (s : Node) : Option (List UEdGraphPin) :=
  match GetExecutePin s, GetThenPin s, GetFormatPin s, GetPrintScreenPin s, GetPrintLogPin s,
      GetTextColorPin s, GetDurationPin s with
  | some p1, some p2, some p3, some p4, some p5, some p6, some p7 =>
    some [p1, p2, p3, p4, p5, p6, p7]
  | _, _, _, _, _, _, _ => none

/-- `FindArgumentPin(PinName)`: rebuilds the cache from the pins that are
not in `IgnorePins` when its length differs from that of `PinNames`, then
returns the first cached pin with that name, case-sensitively; `some none`
is `nullptr`. -/
def FindArgumentPin (s : Node) (PinName : FName) : Option (Option UEdGraphPin × Node) :=
  let Refreshed : Option Node :=
    if s.CachedArgumentPins.length != s.PinNames.length then
      match IgnorePins s with
      | none => none
      | some Ignore =>
        some { s with CachedArgumentPins :=
          s.Pins.filter (fun Pin => !Ignore.any (fun I => I.Id == Pin.Id)) }
    else some s
  match Refreshed with
  | none => none
  | some s =>
    some (s.CachedArgumentPins.find?
      (fun ArgumentPin => ArgumentPin.PinName.ToString == PinName.ToString), s)

/-- `Pins.IndexOfByKey(Pin)`, `INDEX_NONE` when the pointer is not in the
array. -/
def IndexOfByKey (Pins : List UEdGraphPin) (Pin : Nat) : Int :=
  match Pins.findIdx? (fun P => P.Id == Pin) with
  | some i => i
  | none => -1

/-- The first loop of `PinDefaultValueChanged`: for every parsed name that
`FindArgumentPin` does not find, a wildcard input is created at index
`IndexOfByKey(FormatPin) + 1 + CachedArgumentPins.Num()` and cached; the
name is added to `PinNames`. -/
def PinDefaultValueChanged_CreateLoop (FormatPin : Nat) : Node → List String → Option Node
  | s, [] => some s
  | s, Param :: rest =>
    let ParamName : FName := FName.FromString Param
    match FindArgumentPin s ParamName with
    | none => none
    | some (Found, s) =>
      let s :=
        if Found.isNone then
          let Index : Int := IndexOfByKey s.Pins FormatPin + 1 + s.CachedArgumentPins.length
          let (Pin, s) := CreatePin s EGPD_Input { PinCategory := PC_Wildcard } ParamName
            (if 0 ≤ Index then some Index.toNat else none)
          { s with CachedArgumentPins := s.CachedArgumentPins ++ [Pin] }
        else s
      PinDefaultValueChanged_CreateLoop FormatPin
        { s with PinNames := s.PinNames ++ [ParamName] } rest

/-- The second loop of `PinDefaultValueChanged`. The iterator stands at
`Index` and the third argument is `Pins` from there on, so its head is
`CheckPin`. When `FindArgumentPin(CheckPin->PinName)` finds a pin and the
name of `CheckPin` is not among the parsed names, `CheckPin` is removed from
`Pins` (`It.RemoveCurrent()`) and from the cache. -/
def PinDefaultValueChanged_DestroyLoop (ArgumentParams : List String) :
    Node → Nat → List UEdGraphPin → Option Node
  | s, _, [] => some s
  | s, Index, CheckPin :: rest =>
    match FindArgumentPin s CheckPin.PinName with
    | none => none
    | some (Found, s) =>
      if Found.isSome then
        let bIsValidArgPin :=
          ArgumentParams.any (fun InPinName => InPinName == CheckPin.PinName.ToString)
        if !bIsValidArgPin then
          let s := { s with
            Pins := s.Pins.eraseIdx Index,
            CachedArgumentPins := s.CachedArgumentPins.filter (fun P => P.Id != CheckPin.Id) }
          PinDefaultValueChanged_DestroyLoop ArgumentParams s Index rest
        else PinDefaultValueChanged_DestroyLoop ArgumentParams s (Index + 1) rest
      else PinDefaultValueChanged_DestroyLoop ArgumentParams s (Index + 1) rest

/-- `PinDefaultValueChanged(Pin)`. `ArgumentParams` is what the engine
parser (`FTextFormat::GetFormatArgumentNames`) returns for the default
value of the format pin. -/
def PinDefaultValueChanged (s : Node) (Pin : Nat) (ArgumentParams : List String) :
    Option Node :=
  match GetFormatPin s with
  | none => none
  | some FormatPin =>
    if Pin == FormatPin.Id && FormatPin.LinkedTo.length == 0 then
      let s := { s with PinNames := [] }
      match PinDefaultValueChanged_CreateLoop FormatPin.Id s ArgumentParams with
      | none => none
      | some s =>
        match PinDefaultValueChanged_DestroyLoop ArgumentParams s 0 s.Pins with
        | none => none
        | some s =>
          some { s with Graph := { s.Graph with
            NotifyGraphChangedCalls := s.Graph.NotifyGraphChangedCalls + 1 } }
    else some s

/-- `SynchronizeArgumentPinType(Pin)`, `Pin` being the address of a pin of
the node. The type is written to the pin object, which the pin array and
the cache both point to. -/
def SynchronizeArgumentPinType (s : Node) (Pin : Nat) : Option Node :=
  match s.Pins.find? (fun P => P.Id == Pin) with
  | none => none
  | some PinObject =>
    match FindArgumentPin s PinObject.PinName with
    | none => none
    | some (Found, s) =>
      if Found.isSome then
        let (NewType, bPinTypeChanged) := SynchronizedPinType PinObject
        let s := { s with Pins := SetPinType s.Pins Pin NewType,
                          CachedArgumentPins := SetPinType s.CachedArgumentPins Pin NewType }
        if bPinTypeChanged then
          let (Graph, Blueprint) := NotifyPinTypeChanged s.Graph s.Blueprint
          some { s with Graph := Graph, Blueprint := Blueprint }
        else some s
      else some s

/-- The editor changing the template of a node: `PinDefaultValueChanged`
on the format pin, `ArgumentParams` being the argument names of the new
template. -/
def EditTemplate (s : Option Node) (ArgumentParams : List String) : Option Node :=
  match s with
  | none => none
  | some s =>
    match GetFormatPin s with
    | none => none
    | some FormatPin => PinDefaultValueChanged s FormatPin.Id ArgumentParams

/-- A node placed in a graph: `AllocateDefaultPins` on a new node, whose
`PinNames` is empty. The execute pin has the address 1, then 2, the format
pin 3, and the four option pins 4 to 7. -/
def NewNode : Node := AllocateDefaultPins {}

end UK2Node_SiriusPrintStringFormatted

/-! ## `UK2Node_FormatString::ExpandNode` -/

namespace UK2Node_FormatString

/-- The nodes `ExpandNode` spawns for one argument: the make-struct node
and, for a converted argument, the call of the conversion function. -/
structure FArgumentNodes where
  MakeFormatArgumentDataStruct : UK2Node_MakeStruct
  ConversionFunction : Option UK2Node_CallFunction := none
deriving DecidableEq, Repr

/-- What the loop of `ExpandNode` works on: the node itself, the compiler
context, the make-array node and the nodes spawned for the arguments
handled so far. -/
structure FExpandState where
  Self : Node
  CompilerContext : FKismetCompilerContext
  MakeArrayNode : UK2Node_MakeArray
  Arguments : List FArgumentNodes := []
deriving DecidableEq, Repr

/-- The outcome of `ExpandNode`. -/
structure FExpandResult where
  Self : Node
  CompilerContext : FKismetCompilerContext
  MakeArrayNode : UK2Node_MakeArray
  CallFormatFunction : UK2Node_CallFunction
  Arguments : List FArgumentNodes
deriving DecidableEq, Repr

/-- One part of `ExpandNode` for an argument: what has changed after the
branch on the pin category. -/
structure FArgumentValue where
  Self : Node
  CompilerContext : FKismetCompilerContext
  MakeFormatArgumentDataStruct : UK2Node_MakeStruct
  ConversionFunction : Option UK2Node_CallFunction := none
deriving DecidableEq, Repr

/-- The text of `Error_UnexpectedPinType` for a pin name and a
category. -/
def Error_UnexpectedPinType (PinName PinCategory : FName) : String :=
  "Pin \x27" ++ PinName.ToString ++ "\x27 has an unexpected type: " ++ PinCategory.ToString

/-- The branches for Int, Int64, Float and String: the type literal is
set and the links of the argument pin are moved to the member pin. -/
def ExpandNode_MoveToMember (Self : Node) (Context : FKismetCompilerContext)
    (MakeStruct : UK2Node_MakeStruct) (ArgumentPin ArgumentTypePin : UEdGraphPin)
    (TypeName : String) (Member : FName) : Option FArgumentValue := do
  let MakeStruct := { MakeStruct with
    Pins := TrySetDefaultValue MakeStruct.Pins ArgumentTypePin TypeName }
  let Target ← FindPinChecked MakeStruct.Pins Member
  let MakeStruct := { MakeStruct with
    Pins := MovePinLinksToIntermediate_Target MakeStruct.Pins ArgumentPin Target }
  let Self := { Self with Pins := MovePinLinksToIntermediate_Source Self.Pins ArgumentPin }
  return { Self := Self, CompilerContext := Context, MakeFormatArgumentDataStruct := MakeStruct }

/-- The conversion of an argument: the type literal is set, a call of
`Class::FuncName` is spawned, the links of the argument pin are moved to its
pin `PinName`, and its `ReturnValue` is linked to the member pin. -/
def ExpandNode_Convert (Functions : List UFunction) (Self : Node)
    (Context : FKismetCompilerContext) (MakeStruct : UK2Node_MakeStruct)
    (ArgumentPin ArgumentTypePin : UEdGraphPin)
    (TypeName : String) (Class : UClass) (FuncName PinName Member : FName) :
    Option FArgumentValue := do
  let MakeStruct := { MakeStruct with
    Pins := TrySetDefaultValue MakeStruct.Pins ArgumentTypePin TypeName }
  let Call : UK2Node_CallFunction :=
    UK2Node_CallFunction.SetFromFunction {} (FindFunctionByName Functions Class FuncName)
  let (Call, Context) := UK2Node_CallFunction.AllocateDefaultPins Context Call
  let Target ← FindPinChecked Call.Pins PinName
  let Call := { Call with Pins := MovePinLinksToIntermediate_Target Call.Pins ArgumentPin Target }
  let Self := { Self with Pins := MovePinLinksToIntermediate_Source Self.Pins ArgumentPin }
  let ReturnValue ← FindPinChecked Call.Pins ⟨"ReturnValue"⟩
  let MemberPin ← FindPinChecked MakeStruct.Pins Member
  let Call := { Call with Pins := MakeLinkTo Call.Pins ReturnValue MemberPin }
  let MakeStruct := { MakeStruct with Pins := MakeLinkTo MakeStruct.Pins MemberPin ReturnValue }
  return { Self := Self, CompilerContext := Context, MakeFormatArgumentDataStruct := MakeStruct,
           ConversionFunction := some Call }

/-- The lambda `AddConversionNode(FuncName, PinName)`: the function is
looked up in `UKismetStringLibrary`. -/
def AddConversionNode (Functions : List UFunction) (Self : Node)
    (Context : FKismetCompilerContext) (MakeStruct : UK2Node_MakeStruct)
    (ArgumentPin ArgumentTypePin : UEdGraphPin) (FuncName PinName : FName) :
    Option FArgumentValue :=
  ExpandNode_Convert Functions Self Context MakeStruct ArgumentPin ArgumentTypePin
    "String" UClass.UKismetStringLibrary FuncName PinName ⟨"ArgumentValue"⟩

/-- The branch of `ExpandNode` on the links and the category of an
argument pin (the `if (ArgumentPin->LinkedTo.Num() > 0)` statement). -/
def ExpandNode_ArgumentValue (Functions : List UFunction) (Self : Node)
    (Context : FKismetCompilerContext) (MakeStruct : UK2Node_MakeStruct)
    (PinName : FName) (ArgumentPin ArgumentTypePin : UEdGraphPin) : Option FArgumentValue :=
  if ArgumentPin.LinkedTo.length > 0 then
    let ArgumentPinCategory := ArgumentPin.PinType.PinCategory
    if ArgumentPinCategory.Equals PC_Int then
      ExpandNode_MoveToMember Self Context MakeStruct ArgumentPin ArgumentTypePin
        "Int" ⟨"ArgumentValueInt"⟩
    else if ArgumentPinCategory.Equals PC_Int64 then
      ExpandNode_MoveToMember Self Context MakeStruct ArgumentPin ArgumentTypePin
        "Int64" ⟨"ArgumentValueInt64"⟩
    else if ArgumentPinCategory.Equals PC_Float then
      ExpandNode_MoveToMember Self Context MakeStruct ArgumentPin ArgumentTypePin
        "Float" ⟨"ArgumentValueFloat"⟩
    else if ArgumentPinCategory.Equals PC_String then
      ExpandNode_MoveToMember Self Context MakeStruct ArgumentPin ArgumentTypePin
        "String" ⟨"ArgumentValue"⟩
    else if ArgumentPinCategory.Equals PC_Byte
        && !ArgumentPin.PinType.PinSubCategoryObject.isSome then
      ExpandNode_Convert Functions Self Context MakeStruct ArgumentPin ArgumentTypePin
        "Int" UClass.UKismetMathLibrary ⟨"Conv_ByteToInt"⟩ ⟨"InByte"⟩ ⟨"ArgumentValueInt"⟩
    else if ArgumentPinCategory.Equals PC_Boolean then
      AddConversionNode Functions Self Context MakeStruct ArgumentPin ArgumentTypePin
        ⟨"Conv_BoolToString"⟩ ⟨"InBool"⟩
    else if ArgumentPinCategory.Equals PC_Name then
      AddConversionNode Functions Self Context MakeStruct ArgumentPin ArgumentTypePin
        ⟨"Conv_NameToString"⟩ ⟨"InName"⟩
    else if ArgumentPinCategory.Equals PC_Text then
      AddConversionNode Functions Self Context MakeStruct ArgumentPin ArgumentTypePin
        ⟨"Conv_TextToString"⟩ ⟨"InText"⟩
    else if ArgumentPinCategory.Equals PC_Object then
      AddConversionNode Functions Self Context MakeStruct ArgumentPin ArgumentTypePin
        ⟨"Conv_ObjectToString"⟩ ⟨"InObj"⟩
    else
      some { Self := Self,
             CompilerContext := { Context with
               MessageLog := Context.MessageLog
                 ++ [Error_UnexpectedPinType PinName ArgumentPinCategory] },
             MakeFormatArgumentDataStruct := MakeStruct }
  else do
    let MakeStruct := { MakeStruct with
      Pins := TrySetDefaultValue MakeStruct.Pins ArgumentTypePin "String" }
    let ArgumentValue ← FindPinChecked MakeStruct.Pins ⟨"ArgumentValue"⟩
    let MakeStruct := { MakeStruct with
      Pins := TrySetDefaultText MakeStruct.Pins ArgumentValue "" }
    return { Self := Self, CompilerContext := Context, MakeFormatArgumentDataStruct := MakeStruct }

/-- The body of the loop of `ExpandNode` for the argument number `ArgIdx`,
`PinName` being `PinNames[ArgIdx]`. -/
def ExpandNode_Argument (Functions : List UFunction) (ArgIdx : Nat) (PinName : FName)
    (State : FExpandState) : Option FExpandState := do
  let (Found, Self) ← FindArgumentPin State.Self PinName
  -- the make-struct node
  let (MakeStruct, Context) := UK2Node_MakeStruct.AllocateDefaultPins State.CompilerContext
    { StructType := some ⟨"SiriusStringFormatArgument"⟩ }
  let MakeStruct := { MakeStruct with bMadeAfterOverridePinRemoval := true }
  -- the literal of ArgumentName is the name of the argument pin
  let ArgumentNamePin ← FindPinChecked MakeStruct.Pins ⟨"ArgumentName"⟩
  let ArgumentPin ← Found
  let MakeStruct := { MakeStruct with
    Pins := TrySetDefaultValue MakeStruct.Pins ArgumentNamePin ArgumentPin.PinName.ToString }
  let ArgumentTypePin ← FindPinChecked MakeStruct.Pins ⟨"ArgumentValueType"⟩
  let Value ← ExpandNode_ArgumentValue Functions Self Context MakeStruct PinName
    ArgumentPin ArgumentTypePin
  -- the make-array node has one input already
  let (MakeArrayNode, Context) :=
    if ArgIdx > 0 then UK2Node_MakeArray.AddInputPin Value.CompilerContext State.MakeArrayNode
    else (State.MakeArrayNode, Value.CompilerContext)
  let InputPin ← FindPinChecked MakeArrayNode.Pins (ArrayPinName ArgIdx)
  -- the first output of the make-struct node is linked to that input
  let MakeStruct := Value.MakeFormatArgumentDataStruct
  match MakeStruct.Pins.find? (fun Pin => Pin.Direction == EGPD_Output) with
  | some Pin =>
    return { Self := Value.Self, CompilerContext := Context,
             MakeArrayNode := { MakeArrayNode with
               Pins := MakeLinkTo MakeArrayNode.Pins InputPin Pin },
             Arguments := State.Arguments ++
               [{ MakeFormatArgumentDataStruct := { MakeStruct with
                    Pins := MakeLinkTo MakeStruct.Pins Pin InputPin },
                  ConversionFunction := Value.ConversionFunction }] }
  | none =>
    return { Self := Value.Self, CompilerContext := Context, MakeArrayNode := MakeArrayNode,
             Arguments := State.Arguments ++
               [{ MakeFormatArgumentDataStruct := MakeStruct,
                  ConversionFunction := Value.ConversionFunction }] }

/-- The loop of `ExpandNode` from the argument number `ArgIdx` on; the
list is `PinNames` from there. -/
def ExpandNode_Loop (Functions : List UFunction) :
    Nat → List FName → FExpandState → Option FExpandState
  | _, [], State => some State
  | ArgIdx, PinName :: rest, State =>
    match ExpandNode_Argument Functions ArgIdx PinName State with
    | none => none
    | some State => ExpandNode_Loop Functions (ArgIdx + 1) rest State

/-- `BreakAllNodeLinks`, on the pins of the node. -/
def BreakAllNodeLinks (Pins : List UEdGraphPin) : List UEdGraphPin :=
  Pins.map (fun P => { P with LinkedTo := [] })

/-- The first part of `ExpandNode`: the make-array node and the call of
`USiriusStringLibrary::Format` are spawned, and the output of the first is
linked to the `InArgs` pin of the second. -/
def ExpandNode_Begin (Functions : List UFunction) (Context : FKismetCompilerContext) :
    Option (UK2Node_MakeArray × UK2Node_CallFunction × FKismetCompilerContext) := do
  -- the "Make Array" node
  let (MakeArrayNode, Context) := UK2Node_MakeArray.AllocateDefaultPins Context {}
  let ArrayOut ← MakeArrayNode.GetOutputPin
  -- the node that does the format work
  let CallFormatFunction : UK2Node_CallFunction :=
    UK2Node_CallFunction.SetFromFunction {}
      (FindFunctionByName Functions UClass.USiriusStringLibrary ⟨"Format"⟩)
  let (CallFormatFunction, Context) :=
    UK2Node_CallFunction.AllocateDefaultPins Context CallFormatFunction
  -- the output of "Make Array" is linked to "InArgs"
  let InArgs ← FindPinChecked CallFormatFunction.Pins ⟨"InArgs"⟩
  let MakeArrayNode := { MakeArrayNode with Pins := MakeLinkTo MakeArrayNode.Pins ArrayOut InArgs }
  let CallFormatFunction := { CallFormatFunction with
    Pins := MakeLinkTo CallFormatFunction.Pins InArgs ArrayOut }
  -- this sets the type of the "Make Array" node
  let ArrayOut ← MakeArrayNode.GetOutputPin
  let MakeArrayNode := MakeArrayNode.PinConnectionListChanged ArrayOut
  return (MakeArrayNode, CallFormatFunction, Context)

/-- The last part of `ExpandNode`: the links of `Result` are moved to the
return value of the call, those of the format pin to `InPattern`, and all
links of the node are broken. -/
def ExpandNode_End (State : FExpandState) (CallFormatFunction : UK2Node_CallFunction) :
    Option FExpandResult := do
  let s := State.Self
  -- the links of "Result" go to the return value of the call
  let ResultPin ← FindPinChecked s.Pins ⟨"Result"⟩
  let ReturnValuePin ← CallFormatFunction.GetReturnValuePin
  let CallFormatFunction := { CallFormatFunction with
    Pins := MovePinLinksToIntermediate_Target CallFormatFunction.Pins ResultPin ReturnValuePin }
  let s := { s with Pins := MovePinLinksToIntermediate_Source s.Pins ResultPin }
  -- the links of "Format" go to "InPattern"
  let (FormatPin, s) ← GetFormatPin s
  let FormatPinObject ← s.Pins.find? (fun P => P.Id == FormatPin)
  let InPattern ← FindPinChecked CallFormatFunction.Pins ⟨"InPattern"⟩
  let CallFormatFunction := { CallFormatFunction with
    Pins := MovePinLinksToIntermediate_Target CallFormatFunction.Pins FormatPinObject InPattern }
  let s := { s with Pins := MovePinLinksToIntermediate_Source s.Pins FormatPinObject }
  return { Self := { s with Pins := BreakAllNodeLinks s.Pins },
           CompilerContext := State.CompilerContext,
           MakeArrayNode := State.MakeArrayNode,
           CallFormatFunction := CallFormatFunction,
           Arguments := State.Arguments }

/-- `ExpandNode(CompilerContext, SourceGraph)`. `Functions` are the
reflected functions of the engine libraries. -/
def ExpandNode (Functions : List UFunction) (Context : FKismetCompilerContext) (s : Node) :
    Option FExpandResult := do
  let (MakeArrayNode, CallFormatFunction, Context) ← ExpandNode_Begin Functions Context
  -- one "Make Struct" node per argument
  let State ← ExpandNode_Loop Functions 0 s.PinNames
    { Self := s, CompilerContext := Context, MakeArrayNode := MakeArrayNode }
  ExpandNode_End State CallFormatFunction

/-- The argument types `ExpandNode` has a branch for: Int, Int64, Float,
String, Byte without a sub-category object, Boolean, Name, Text and
Object. -/
def IsHandledType (PinType : FEdGraphPinType) : Bool :=
  PinType.PinCategory.Equals PC_Int
    || PinType.PinCategory.Equals PC_Int64
    || PinType.PinCategory.Equals PC_Float
    || PinType.PinCategory.Equals PC_String
    || (PinType.PinCategory.Equals PC_Byte && !PinType.PinSubCategoryObject.isSome)
    || PinType.PinCategory.Equals PC_Boolean
    || PinType.PinCategory.Equals PC_Name
    || PinType.PinCategory.Equals PC_Text
    || PinType.PinCategory.Equals PC_Object

/-- An argument pin with at least one link and a type that `ExpandNode`
has no branch for. -/
def HasUnexpectedType (ArgumentPin : UEdGraphPin) : Bool :=
  decide (ArgumentPin.LinkedTo.length > 0) && !IsHandledType ArgumentPin.PinType

/-- The conversion function `ExpandNode` calls for a linked argument pin:
the class it is looked up in, its name, and the pin that is looked up on the
call node. -/
def RequiredConversion (ArgumentPin : UEdGraphPin) : Option (UClass × FName × FName) :=
  let C := ArgumentPin.PinType.PinCategory
  if ArgumentPin.LinkedTo.length > 0 then
    if C.Equals PC_Int || C.Equals PC_Int64 || C.Equals PC_Float || C.Equals PC_String then none
    else if C.Equals PC_Byte && !ArgumentPin.PinType.PinSubCategoryObject.isSome then
      some (UClass.UKismetMathLibrary, ⟨"Conv_ByteToInt"⟩, ⟨"InByte"⟩)
    else if C.Equals PC_Boolean then
      some (UClass.UKismetStringLibrary, ⟨"Conv_BoolToString"⟩, ⟨"InBool"⟩)
    else if C.Equals PC_Name then
      some (UClass.UKismetStringLibrary, ⟨"Conv_NameToString"⟩, ⟨"InName"⟩)
    else if C.Equals PC_Text then
      some (UClass.UKismetStringLibrary, ⟨"Conv_TextToString"⟩, ⟨"InText"⟩)
    else if C.Equals PC_Object then
      some (UClass.UKismetStringLibrary, ⟨"Conv_ObjectToString"⟩, ⟨"InObj"⟩)
    else none
  else none

/-- The class declares the function and the function has the
parameter. -/
def FunctionResolves (Functions : List UFunction) (Class : UClass) (FuncName PinName : FName) :
    Bool :=
  match FindFunctionByName Functions Class FuncName with
  | some F => F.Parameters.any (fun P => P.Equals PinName)
  | none => false

/-- The conversion function that the argument pin needs, if any, is
found where `ExpandNode` looks for it. -/
def ConversionResolves (Functions : List UFunction) (ArgumentPin : UEdGraphPin) : Bool :=
  match RequiredConversion ArgumentPin with
  | none => true
  | some (Class, FuncName, PinName) => FunctionResolves Functions Class FuncName PinName

/-- The first two pins of a make-struct node whose first pin has the
address `b`: the struct output, and the `ArgumentName` input with its
literal. -/
def StructHeadPins (b : Nat) (ArgumentName : String) : List UEdGraphPin :=
  [ { Id := b, PinName := ⟨"SiriusStringFormatArgument"⟩, Direction := EGPD_Output,
      PinType := { PinCategory := PC_Struct } },
    { Id := b + 1, PinName := ⟨"ArgumentName"⟩, Direction := EGPD_Input,
      PinType := { PinCategory := PC_String }, DefaultValue := ArgumentName } ]

/-- The pins of a make-struct node whose first pin has the address `b`
are the two of `StructHeadPins` followed by the five value pins, whatever
these carry. -/
def StructInv (b : Nat) (ArgumentName : String) (Pins : List UEdGraphPin) : Prop :=
  ∃ Tail : List UEdGraphPin, Pins = StructHeadPins b ArgumentName ++ Tail
    ∧ Tail.map (fun P => (P.Id, P.PinName))
        = [(b + 2, ⟨"ArgumentValueType"⟩), (b + 3, ⟨"ArgumentValue"⟩),
           (b + 4, ⟨"ArgumentValueInt"⟩), (b + 5, ⟨"ArgumentValueInt64"⟩),
           (b + 6, ⟨"ArgumentValueFloat"⟩)]

/-- The errors `ExpandNode` reports for the names `PinNames`: one for each
name whose argument pin has links and a type without a branch, in order. -/
def UnexpectedTypeErrors (FormatPin : Nat) (Pins : List UEdGraphPin) (PinNames : List FName) :
    List String :=
  PinNames.filterMap (fun PinName =>
    match Pins.find? (IsArgumentPinNamed FormatPin PinName) with
    | some ArgumentPin =>
      if HasUnexpectedType ArgumentPin then
        some (Error_UnexpectedPinType PinName ArgumentPin.PinType.PinCategory)
      else none
    | none => none)

/-- How a pin `Q` of the node during the loop of `ExpandNode` relates to
the pin `P` it was before: it is the same, or it has lost its links to an
intermediate node, which happens only to a linked input other than the
format pin whose type has a branch. -/
def LinksMoved (FormatPin : Nat) (P Q : UEdGraphPin) : Prop :=
  Q = P ∨ (Q = { P with LinkedTo := [] } ∧ P.Id ≠ FormatPin ∧ P.Direction = EGPD_Input
    ∧ P.LinkedTo ≠ [] ∧ IsHandledType P.PinType = true)

/-- The argument number `i`, named `PinName`, is in place: there is a
make-struct node for it whose first output is linked to the input `[i]` of
the make-array node, and whose `ArgumentName` literal is the name. -/
def ArgumentLinked (MakeArrayNode : UK2Node_MakeArray) (Arguments : List FArgumentNodes)
    (i : Nat) (PinName : FName) : Prop :=
  ∃ (Arg : FArgumentNodes) (In Out N : UEdGraphPin),
    Arguments[i]? = some Arg
    ∧ FindPinChecked MakeArrayNode.Pins (ArrayPinName i) = some In
    ∧ Arg.MakeFormatArgumentDataStruct.Pins.find? (fun Pin => Pin.Direction == EGPD_Output)
        = some Out
    ∧ In.LinkedTo.map (fun L => L.Id) = [Out.Id]
    ∧ Out.LinkedTo.map (fun L => L.Id) = [In.Id]
    ∧ FindPinChecked Arg.MakeFormatArgumentDataStruct.Pins ⟨"ArgumentName"⟩ = some N
    ∧ N.DefaultValue = PinName.ToString

/-- What holds of the make-array node in the loop of `ExpandNode`: it has
the inputs `[0]` to `[m - 1]`, its only output is `ArrayOut`, its pins have
different addresses below `N`, and the inputs from `[k]` on have no link. -/
structure ArrayInv (m k N : Nat) (ArrayOut : UEdGraphPin) (MakeArrayNode : UK2Node_MakeArray) :
    Prop where
  numInputs : MakeArrayNode.NumInputs = m
  inputs : MakeArrayNode.Inputs.map (fun P => P.PinName) = (List.range m).map ArrayPinName
  outputs : ∀ P ∈ MakeArrayNode.Pins, P.Direction = EGPD_Output → P = ArrayOut
  arrayOut : ArrayOut ∈ MakeArrayNode.Pins
  ids : (MakeArrayNode.Pins.map (fun P => P.Id)).Nodup
  bound : ∀ P ∈ MakeArrayNode.Pins, P.Id < N
  unlinked : ∀ P ∈ MakeArrayNode.Pins, ∀ j, k ≤ j →
    P.PinName.Equals (ArrayPinName j) = true → P.LinkedTo = []

/-- What holds in the loop of `ExpandNode` after the arguments `Done`. -/
structure LoopInv (s : Node) (f : Nat) (Context0 : FKismetCompilerContext)
    (ArrayOut : UEdGraphPin) (Done : List FName) (State : FExpandState) : Prop where
  format : GetFormatPin State.Self = some (f, { State.Self with CachedFormatPin := some f })
  pins : List.Forall₂ (LinksMoved f) s.Pins State.Self.Pins
  log : State.CompilerContext.MessageLog
    = Context0.MessageLog ++ UnexpectedTypeErrors f s.Pins Done
  array : ArrayInv (max 1 Done.length) Done.length State.CompilerContext.NextPinId ArrayOut
    State.MakeArrayNode
  count : State.Arguments.length = Done.length
  args : ∀ i PinName, Done[i]? = some PinName →
    ArgumentLinked State.MakeArrayNode State.Arguments i PinName

/-- Every name of `PinNames` has an argument pin, and the conversion
function that pin needs, if any, is found. -/
def ArgumentsExpand (Functions : List UFunction) (FormatPin : Nat) (s : Node) : Bool :=
  s.PinNames.all (fun PinName =>
    match s.Pins.find? (IsArgumentPinNamed FormatPin PinName) with
    | some ArgumentPin => ConversionResolves Functions ArgumentPin
    | none => false)

/-- What `ExpandNode` needs of the node and of the function libraries to
run to its end: the node has its format pin `FP` (at the address `f`) and a
`Result` output `R`, its pins are different objects, `USiriusStringLibrary`
declares `Format(InPattern, InArgs)`, every name of `PinNames` has an
argument pin, and the conversion functions these pins need are found. -/
structure ExpandNodePre (Functions : List UFunction) (s : Node) (f : Nat)
    (FP R : UEdGraphPin) : Prop where
  format : (GetFormatPin s).map Prod.fst = some f
  formatPin : s.Pins.find? (fun P => P.Id == f) = some FP
  result : FindPinChecked s.Pins ⟨"Result"⟩ = some R
  resultOut : R.Direction = EGPD_Output
  resultNotFormat : R.Id ≠ f
  ids : (s.Pins.map (fun P => P.Id)).Nodup
  function : (FindFunctionByName Functions UClass.USiriusStringLibrary ⟨"Format"⟩).map
    (fun F => F.Parameters) = some [⟨"InPattern"⟩, ⟨"InArgs"⟩]
  arguments : ArgumentsExpand Functions f s = true

/-- A node with the arguments `a` (linked to an `int` pin), `b` (linked
to a `struct` pin) and `c` (no link), whose format and result pins are
linked too. -/
def ExampleExpandNode : Node :=
  { Pins := [
      { Id := 1, PinName := ⟨"Format"⟩, Direction := EGPD_Input, PinType := { PinCategory := PC_String },
        LinkedTo := [{ Id := 101, PinType := { PinCategory := PC_String } }] },
      { Id := 2, PinName := ⟨"Result"⟩, Direction := EGPD_Output, PinType := { PinCategory := PC_String },
        LinkedTo := [{ Id := 102, PinType := { PinCategory := PC_String } }] },
      { Id := 3, PinName := ⟨"a"⟩, Direction := EGPD_Input, PinType := { PinCategory := PC_Int },
        LinkedTo := [{ Id := 103, PinType := { PinCategory := PC_Int } }] },
      { Id := 4, PinName := ⟨"b"⟩, Direction := EGPD_Input, PinType := { PinCategory := PC_Struct },
        LinkedTo := [{ Id := 104, PinType := { PinCategory := PC_Struct } }] },
      { Id := 5, PinName := ⟨"c"⟩, Direction := EGPD_Input, PinType := WildcardPinType }],
    PinNames := [⟨"a"⟩, ⟨"b"⟩, ⟨"c"⟩],
    CachedFormatPin := some 1 }

/-- A node with one argument `a`, linked to a pin of the given category
and sub-category object. -/
def ExampleArgumentNode (PinCategory : FName) (PinSubCategoryObject : Option Nat) : Node :=
  { Pins := [
      { Id := 1, PinName := ⟨"Format"⟩, Direction := EGPD_Input, PinType := { PinCategory := PC_String } },
      { Id := 2, PinName := ⟨"Result"⟩, Direction := EGPD_Output, PinType := { PinCategory := PC_String } },
      { Id := 3, PinName := ⟨"a"⟩, Direction := EGPD_Input,
        PinType := { PinCategory := PinCategory, PinSubCategoryObject := PinSubCategoryObject },
        LinkedTo := [⟨103, { PinCategory := PinCategory, PinSubCategoryObject := PinSubCategoryObject }⟩] }],
    PinNames := [⟨"a"⟩],
    CachedFormatPin := some 1 }

end UK2Node_FormatString


/-! ## `UK2Node_FormatString::PinConnectionListChanged` -/

namespace UK2Node_FormatString

/-- The loop of `PinConnectionListChanged` over `Pins`, the iterator being
at the index `It` with the check `It` still to come; the first argument
bounds the number of iterations left, and `none` is returned when it is used
up. An input other than the format pin is removed with
`Pins.Remove(CheckPin)`, which takes every entry equal to that pointer out
of the array, and the iterator steps back (`--It`) before the `++It` of the
loop. -/
def PinConnectionListChanged_Loop (FormatPin : Nat) :
    Nat → Int → List UEdGraphPin → Option (List UEdGraphPin)
  | 0, _, _ => none
  | Fuel + 1, It, Pins =>
    if 0 ≤ It ∧ It < Pins.length then
      match Pins[It.toNat]? with
      | none => none
      | some CheckPin =>
        if CheckPin.Id != FormatPin && CheckPin.Direction == EGPD_Input then
          let Pins := Pins.filter (fun P => P.Id != CheckPin.Id)
          let It := It - 1
          PinConnectionListChanged_Loop FormatPin Fuel (It + 1) Pins
        else PinConnectionListChanged_Loop FormatPin Fuel (It + 1) Pins
    else some Pins

/-- `PinConnectionListChanged(Pin)`. The format pin is read only when
`Pin == FormatPin` (the `&&` of the condition). The loop is given one
iteration more than there are pins. -/
def PinConnectionListChanged (s : Node) (Pin : Nat) : Option Node := do
  let (FormatPin, s) ← GetFormatPin s
  -- Clear all pins.
  let bClear ←
    if Pin == FormatPin then
      (s.Pins.find? (fun P => P.Id == FormatPin)).map (fun P => !P.DefaultTextValue.isEmpty)
    else some false
  let s ←
    if bClear then do
      let s := { s with PinNames := [] }
      let FormatPinObject ← s.Pins.find? (fun P => P.Id == FormatPin)
      let s := { s with Pins := TrySetDefaultText s.Pins FormatPinObject "" }
      let Pins ← PinConnectionListChanged_Loop FormatPin (s.Pins.length + 1) 0 s.Pins
      some { s with
        Pins := Pins,
        Blueprint := { s.Blueprint with
          MarkedAsStructurallyModified := s.Blueprint.MarkedAsStructurallyModified + 1 } }
    else some s
  -- Potentially update an argument pin type
  SynchronizeArgumentPinType s Pin

end UK2Node_FormatString

/-! ## `UK2Node_FormatString::DoPinsMatchForReconstruction` -/

/-- `UK2Node::ERedirectType`. -/
inductive ERedirectType where
  | ERedirectType_None
  | ERedirectType_Name
  | ERedirectType_Value
  | ERedirectType_Custom
deriving DecidableEq, Repr

open ERedirectType

namespace UK2Node_FormatString

/-- What `DoPinsMatchForReconstruction` asks of the editor: whether the
node has a graph (`GetGraph()`), whether that graph has a schema, whether
the schema is a `UEdGraphSchema_K2`, the answers of that schema to
`IsSelfPin` and `ArePinTypesCompatible`, whether the node that owns a pin is
a `UK2Node`, and the answers of `GetRedirectPinNames` and of
`ShouldRedirectParam` (its return value and the name it writes to
`NewPinName`). -/
structure FReconstructionHost where
  bHasOuterGraph : Bool
  bGraphHasSchema : Bool
  bSchemaIsK2 : Bool
  IsSelfPin : UEdGraphPin → Bool
  ArePinTypesCompatible : FEdGraphPinType → FEdGraphPinType → Bool
  bOwningNodeIsK2Node : UEdGraphPin → Bool
  GetRedirectPinNames : UEdGraphPin → List String
  ShouldRedirectParam : List String → ERedirectType × FName

/-- `DoPinsMatchForReconstruction(NewPin, NewPinIndex, OldPin,
OldPinIndex)`; the two indices are not read. -/
def DoPinsMatchForReconstruction (Host : FReconstructionHost) (NewPin OldPin : UEdGraphPin) :
    ERedirectType :=
  let RedirectType := ERedirectType_None
  -- if the pin names do match
  if NewPin.PinName.ToString == OldPin.PinName.ToString then
    -- Make sure we're not dealing with a menu node
    if Host.bHasOuterGraph && Host.bGraphHasSchema then
      if !Host.bSchemaIsK2 || Host.IsSelfPin NewPin
          || Host.ArePinTypesCompatible OldPin.PinType NewPin.PinType then
        ERedirectType_Name
      else ERedirectType_None
    else RedirectType
  else
    -- try looking for a redirect if it's a K2 node
    if Host.bOwningNodeIsK2Node NewPin then
      let OldPinNames := Host.GetRedirectPinNames OldPin
      let (RedirectType, NewPinName) := Host.ShouldRedirectParam OldPinNames
      -- make sure they match
      if RedirectType != ERedirectType_None
          && !(NewPin.PinName.ToString == NewPinName.ToString) then
        ERedirectType_None
      else RedirectType
    else RedirectType

/-- An editor whose graph has a K2 schema that finds all pin types
compatible, and in which the pin `Old` is redirected to `New`. -/
def ExampleHost : FReconstructionHost :=
  { bHasOuterGraph := true, bGraphHasSchema := true, bSchemaIsK2 := true,
    IsSelfPin := fun _ => false,
    ArePinTypesCompatible := fun _ _ => true,
    bOwningNodeIsK2Node := fun _ => true,
    GetRedirectPinNames := fun Pin => [Pin.PinName.ToString],
    ShouldRedirectParam := fun Names =>
      if Names.contains "Old" then (ERedirectType_Name, ⟨"New"⟩) else (ERedirectType_None, NAME_None) }

end UK2Node_FormatString

/-! ## The states of a `UK2Node_FormatString` in the editor -/

namespace UK2Node_FormatString

/-- What identifies a pin of a node: its address, its name and its
direction. -/
def PinShape (Pin : UEdGraphPin) : Nat × FName × EEdGraphPinDirection :=
  (Pin.Id, Pin.PinName, Pin.Direction)

/-- The states a node goes through in the editor: `AllocateDefaultPins`,
then any number of `PinDefaultValueChanged` and `PinConnectionListChanged`
calls that return, on any pin; in between the editor may change what the
pins carry (links, default values, types) but not their addresses, names and
directions. `Parsed` says which lists of names the parser may return. -/
inductive Reachable (Parsed : List String → Prop) : Node → Prop where
  | allocate (s : Node) : Reachable Parsed (AllocateDefaultPins s)
  | pinDefaultValueChanged (s s1 : Node) (Pin : Nat) (ArgumentParams : List String) :
      Reachable Parsed s → Parsed ArgumentParams →
      PinDefaultValueChanged s Pin ArgumentParams = some s1 → Reachable Parsed s1
  | pinConnectionListChanged (s s1 : Node) (Pin : Nat) :
      Reachable Parsed s → PinConnectionListChanged s Pin = some s1 → Reachable Parsed s1
  | edit (s : Node) (Pins : List UEdGraphPin) :
      Reachable Parsed s → Pins.map PinShape = s.Pins.map PinShape →
      Reachable Parsed { s with Pins := Pins }

/-- The parsed names keep their spelling when they are made an `FName`. -/
def KeepSpelling (ArgumentParams : List String) : Prop :=
  ∀ a ∈ ArgumentParams, FName.FromString a = (⟨a⟩ : FName)

/-- Every name of `PinNames` is carried by an input pin other than the
format pin, whose address is cached. -/
def NamesFound (s : Node) : Prop :=
  ∃ f, s.CachedFormatPin = some f
    ∧ ∀ PinName ∈ s.PinNames, ∃ P ∈ s.Pins, IsArgumentPinNamed f PinName P = true

end UK2Node_FormatString
/-! ## Theorems -/

section HostLemmas

theorem MaxPinId_ge (k : Nat) (Pins : List UEdGraphPin) : k ≤ MaxPinId k Pins := by
  induction Pins with
  | nil => simp [MaxPinId]
  | cons p ps ih =>
    simp only [MaxPinId, List.foldr_cons] at ih ⊢
    exact le_trans ih (le_max_right _ _)

theorem MaxPinId_mem (k : Nat) (Pins : List UEdGraphPin) (p : UEdGraphPin) (hp : p ∈ Pins) :
    p.Id ≤ MaxPinId k Pins := by
  induction Pins with
  | nil => simp at hp
  | cons q qs ih =>
    simp only [MaxPinId, List.foldr_cons] at ih ⊢
    rcases List.mem_cons.1 hp with h | h
    · subst h; exact le_max_left _ _
    · exact le_trans (ih h) (le_max_right _ _)

theorem any_eq_decide_mem (A : List String) (n : String) :
    A.any (fun InPinName => InPinName == n) = decide (n ∈ A) := by
  induction A with
  | nil => simp
  | cons a as ih =>
    simp only [List.any_cons, ih, List.mem_cons]
    by_cases h : a = n
    · simp [h]
    · have h2 : ¬ n = a := fun e => h e.symm
      simp [h, h2]

theorem FName_Equals_refl (a : FName) : a.Equals a = true := by
  simp [FName.Equals]

theorem FEdGraphPinType_Equals_refl (T : FEdGraphPinType) : T.Equals T = true := by
  simp [FEdGraphPinType.Equals, FEdGraphTerminalType.Equals, FName_Equals_refl]

theorem find_SetPinType (Pins : List UEdGraphPin) (Pin : Nat) (T : FEdGraphPinType) :
    (SetPinType Pins Pin T).find? (fun Q => Q.Id == Pin)
      = (Pins.find? (fun Q => Q.Id == Pin)).map (fun P => { P with PinType := T }) := by
  induction Pins with
  | nil => rfl
  | cons p ps ih =>
    unfold SetPinType at ih ⊢
    by_cases h : p.Id = Pin
    · simp [List.find?_cons, h]
    · simp only [List.map_cons, List.find?_cons]
      have h1 : (p.Id == Pin) = false := by simpa using h
      simp only [h1, Bool.false_eq_true, if_false]
      exact ih

theorem SynchronizedPinType_spec (P : UEdGraphPin) :
    ((SynchronizedPinType P).2 = true ↔ (SynchronizedPinType P).1 ≠ P.PinType)
    ∧ (P.LinkedTo = [] → (SynchronizedPinType P).1.Equals WildcardPinType = true
        ∧ ((SynchronizedPinType P).1 = WildcardPinType ∨ (SynchronizedPinType P).1 = P.PinType))
    ∧ (∀ L rest, P.LinkedTo = L :: rest → (SynchronizedPinType P).1.Equals L.PinType = true
        ∧ ((SynchronizedPinType P).1 = L.PinType ∨ (SynchronizedPinType P).1 = P.PinType)) := by
  unfold SynchronizedPinType
  cases hl : P.LinkedTo with
  | nil =>
    by_cases he : P.PinType.Equals WildcardPinType = true
    · simp [he]
    · have hne : WildcardPinType ≠ P.PinType := by
        intro e; rw [← e] at he; exact he (FEdGraphPinType_Equals_refl _)
      simp [he, hne, FEdGraphPinType_Equals_refl]
  | cons L rest =>
    by_cases he : P.PinType.Equals L.PinType = true
    · simp [he]
    · have hne : L.PinType ≠ P.PinType := by
        intro e; rw [← e] at he; exact he (FEdGraphPinType_Equals_refl _)
      simp [he, hne, FEdGraphPinType_Equals_refl]

end HostLemmas

namespace UK2Node_FormatString

theorem GetFormatPin_cached (s : Node) (f : Nat) (h : s.CachedFormatPin = some f) :
    GetFormatPin s = some (f, s) := by
  simp [GetFormatPin, h]

theorem GetFormatPin_spec (s s0 : Node) (f : Nat) (h : GetFormatPin s = some (f, s0)) :
    s0 = { s with CachedFormatPin := some f } := by
  unfold GetFormatPin at h
  cases hc : s.CachedFormatPin with
  | some c =>
    rw [hc] at h
    simp only [Option.some.injEq, Prod.mk.injEq] at h
    obtain ⟨h1, h2⟩ := h
    subst h1; subst h2
    cases s; simp_all
  | none =>
    rw [hc] at h
    cases hp : FindPin s.Pins ⟨"Format"⟩ none with
    | none => rw [hp] at h; simp at h
    | some p =>
      rw [hp] at h
      simp only [Option.some.injEq, Prod.mk.injEq] at h
      obtain ⟨h1, h2⟩ := h
      subst h1; subst h2; rfl

theorem NewPinId_ne_cached (s : Node) (f : Nat) (h : s.CachedFormatPin = some f) :
    NewPinId s ≠ f := by
  have := MaxPinId_ge (s.CachedFormatPin.getD 0) s.Pins
  rw [h] at this
  simp only [Option.getD_some] at this
  unfold NewPinId
  rw [h]
  simp only [Option.getD_some]
  omega

theorem DestroyLoop_eq_filter (f : Nat) (A : List String) (Pins : List UEdGraphPin) :
    PinDefaultValueChanged_DestroyLoop f A Pins
      = Pins.filter (fun Pin => !IsArgumentPin f Pin || decide (Pin.PinName.ToString ∈ A)) := by
  induction Pins with
  | nil => rfl
  | cons p ps ih =>
    simp only [PinDefaultValueChanged_DestroyLoop, any_eq_decide_mem, ih, List.filter_cons]
    by_cases h1 : IsArgumentPin f p = true
    · by_cases h2 : p.PinName.ToString ∈ A <;> simp [h1, h2]
    · simp [h1]

theorem find_IsArgumentPinNamed_isNone (f : Nat) (a : String) (Pins : List UEdGraphPin) :
    (Pins.find? (IsArgumentPinNamed f ⟨a⟩)).isNone = decide (a ∉ ArgumentPinNames f Pins) := by
  induction Pins with
  | nil => simp [ArgumentPinNames]
  | cons p ps ih =>
    have hd : (p.Direction != EGPD_Output) = (p.Direction == EGPD_Input) := by
      cases p.Direction <;> decide
    by_cases h1 : IsArgumentPin f p = true
    · by_cases h2 : p.PinName.Str = a
      · have : IsArgumentPinNamed f ⟨a⟩ p = true := by
          unfold IsArgumentPin at h1
          simp only [IsArgumentPinNamed, hd, FName.ToString, h2]
          simpa using h1
        simp [List.find?_cons, this, ArgumentPinNames, List.filter_cons, h1, h2, FName.ToString]
      · have : IsArgumentPinNamed f ⟨a⟩ p = false := by
          simp [IsArgumentPinNamed, FName.ToString, h2]
        have h3 : ¬ a = p.PinName.Str := fun e => h2 e.symm
        simp only [List.find?_cons, this, ih]
        simp [ArgumentPinNames, List.filter_cons, h1, h3, FName.ToString]
    · have : IsArgumentPinNamed f ⟨a⟩ p = false := by
        unfold IsArgumentPin at h1
        simp only [IsArgumentPinNamed, hd]
        simp only [Bool.not_eq_true] at h1
        rw [h1]; rfl
      simp only [List.find?_cons, this, ih]
      simp [ArgumentPinNames, List.filter_cons, h1]

theorem ArgumentPinNames_append (f : Nat) (Ps Qs : List UEdGraphPin) :
    ArgumentPinNames f (Ps ++ Qs) = ArgumentPinNames f Ps ++ ArgumentPinNames f Qs := by
  simp [ArgumentPinNames]

/-- The first loop of `PinDefaultValueChanged` always finishes; it appends
one wildcard input per parsed name that no argument pin carries yet and
appends all the parsed names to `PinNames`. -/
theorem CreateLoop_spec (f : Nat) : ∀ (A : List String) (s : Node),
    s.CachedFormatPin = some f → A.Nodup →
    (∀ a ∈ A, FName.FromString a = (⟨a⟩ : FName)) →
    ∃ Created : List UEdGraphPin,
      PinDefaultValueChanged_CreateLoop s A
        = some { s with Pins := s.Pins ++ Created,
                        PinNames := s.PinNames ++ A.map (fun a => (⟨a⟩ : FName)) }
      ∧ Created.map (fun Pin => Pin.PinName.ToString)
          = A.filter (fun a => decide (a ∉ ArgumentPinNames f s.Pins))
      ∧ ∀ Pin ∈ Created, Pin.Direction = EGPD_Input ∧ Pin.PinType = WildcardPinType
          ∧ Pin.Id ≠ f := by
  intro A
  induction A with
  | nil =>
    intro s _ _ _
    exact ⟨[], by simp [PinDefaultValueChanged_CreateLoop], by simp, by simp⟩
  | cons a rest ih =>
    intro s hc hA hrt
    have hra : FName.FromString a = (⟨a⟩ : FName) := hrt a (List.mem_cons_self _ _)
    have hrt1 : ∀ b ∈ rest, FName.FromString b = (⟨b⟩ : FName) :=
      fun b hb => hrt b (List.mem_cons_of_mem _ hb)
    have hnd : rest.Nodup := (List.nodup_cons.1 hA).2
    have ha : a ∉ rest := (List.nodup_cons.1 hA).1
    have hfind : FindArgumentPin s ⟨a⟩ = some (s.Pins.find? (IsArgumentPinNamed f ⟨a⟩), s) := by
      simp [FindArgumentPin, GetFormatPin_cached s f hc]
    by_cases hmem : a ∈ ArgumentPinNames f s.Pins
    · -- an argument pin of that name exists: nothing is created
      have hnone : (s.Pins.find? (IsArgumentPinNamed f ⟨a⟩)).isNone = false := by
        rw [find_IsArgumentPinNamed_isNone]; simp [hmem]
      obtain ⟨Created, h1, h2, h3⟩ :=
        ih { s with PinNames := s.PinNames ++ [⟨a⟩] } hc hnd hrt1
      refine ⟨Created, ?_, ?_, h3⟩
      · simp only [PinDefaultValueChanged_CreateLoop, hra, hfind, hnone]
        simp only [Bool.false_eq_true, if_false]
        rw [h1]
        simp
      · rw [h2]
        simp [List.filter_cons, hmem]
    · -- no such pin: one is created at the end of Pins
      have hnone : (s.Pins.find? (IsArgumentPinNamed f ⟨a⟩)).isNone = true := by
        rw [find_IsArgumentPinNamed_isNone]; simp [hmem]
      let P : UEdGraphPin :=
        { Id := NewPinId s, PinName := ⟨a⟩, Direction := EGPD_Input,
          PinType := { PinCategory := PC_Wildcard } }
      have hPid : P.Id ≠ f := NewPinId_ne_cached s f hc
      have hParg : IsArgumentPin f P = true := by
        simp [IsArgumentPin, P]
        exact hPid
      obtain ⟨Created, h1, h2, h3⟩ :=
        ih { s with Pins := s.Pins ++ [P], PinNames := s.PinNames ++ [⟨a⟩] } hc hnd hrt1
      refine ⟨P :: Created, ?_, ?_, ?_⟩
      · simp only [PinDefaultValueChanged_CreateLoop, hra, hfind, hnone, CreatePin]
        simp only [if_true]
        rw [h1]
        simp
      · simp only [List.map_cons]
        rw [h2]
        have hnames : ArgumentPinNames f (s.Pins ++ [P]) = ArgumentPinNames f s.Pins ++ [a] := by
          rw [ArgumentPinNames_append]
          simp [ArgumentPinNames, List.filter_cons, hParg, P, FName.ToString]
        simp only [hnames, List.filter_cons, hmem]
        simp only [not_false_eq_true, decide_True, if_true]
        have : P.PinName.ToString = a := rfl
        rw [this]
        congr 1
        apply List.filter_congr
        intro x hx
        have hxa : x ≠ a := fun e => ha (e ▸ hx)
        simp [hxa]
      · intro Pin hPin
        rcases List.mem_cons.1 hPin with h | h
        · subst h
          exact ⟨rfl, rfl, hPid⟩
        · exact h3 Pin h

/-- Two duplicate-free lists, each filtered by membership in the other,
are permutations of each other. -/
theorem filter_mem_perm (L A : List String) (hL : L.Nodup) (hA : A.Nodup) :
    (L.filter (fun x => decide (x ∈ A))).Perm (A.filter (fun a => decide (a ∈ L))) := by
  apply (List.perm_ext_iff_of_nodup (hL.filter _) (hA.filter _)).2
  intro x
  simp only [List.mem_filter, decide_eq_true_eq]
  tauto

theorem ArgumentPinNames_filter (f : Nat) (A : List String) (Pins : List UEdGraphPin) :
    ArgumentPinNames f
        (Pins.filter (fun Pin => !IsArgumentPin f Pin || decide (Pin.PinName.ToString ∈ A)))
      = (ArgumentPinNames f Pins).filter (fun x => decide (x ∈ A)) := by
  induction Pins with
  | nil => rfl
  | cons p ps ih =>
    unfold ArgumentPinNames at ih ⊢
    by_cases h1 : IsArgumentPin f p = true
    · by_cases h2 : p.PinName.ToString ∈ A
      · simp only [List.filter_cons, h1, h2, Bool.not_true, Bool.false_or, decide_True, if_true,
          List.map_cons]
        rw [ih]
      · simp only [List.filter_cons, h1, h2, Bool.not_true, Bool.false_or, decide_False,
          Bool.false_eq_true, if_false, if_true, List.map_cons]
        rw [ih]
    · simp only [Bool.not_eq_true] at h1
      simp only [List.filter_cons, h1, Bool.not_false, Bool.true_or, if_true,
        Bool.false_eq_true, if_false]
      rw [ih]

theorem ArgumentPinNames_of_all (f : Nat) (Pins : List UEdGraphPin)
    (h : ∀ Pin ∈ Pins, Pin.Direction = EGPD_Input ∧ Pin.PinType = WildcardPinType ∧ Pin.Id ≠ f) :
    ArgumentPinNames f Pins = Pins.map (fun Pin => Pin.PinName.ToString) := by
  unfold ArgumentPinNames
  rw [List.filter_eq_self.2]
  intro Pin hPin
  obtain ⟨h1, _, h3⟩ := h Pin hPin
  simp [IsArgumentPin, h1, h3]

/-- `PinDefaultValueChanged` called on the format pin `f` while it has no
links, with `A` the parsed argument names (pairwise distinct, each of them
a string that keeps its spelling as an `FName`) and no two argument pins
sharing a name beforehand: the call returns, `PinNames` is `A` in the same
order, the names of the input pins other than the format pin are
exactly the members of `A`, each on one pin, and the new pin array is the old
one without the argument pins whose name is not in `A`, followed by one new
wildcard input for every name of `A` that no argument pin carried. -/
theorem PinDefaultValueChanged_synchronises
    (s s0 : Node) (f : Nat) (A : List String) (FormatPinObject : UEdGraphPin)
    (hf : GetFormatPin s = some (f, s0))
    (hobj : s.Pins.find? (fun P => P.Id == f) = some FormatPinObject)
    (hlinks : FormatPinObject.LinkedTo = [])
    (hA : A.Nodup)
    (hrt : ∀ a ∈ A, FName.FromString a = (⟨a⟩ : FName))
    (hargs : (ArgumentPinNames f s.Pins).Nodup) :
    ∃ (s1 : Node) (Created : List UEdGraphPin),
      PinDefaultValueChanged s f A = some s1
      ∧ s1.PinNames = A.map (fun a => (⟨a⟩ : FName))
      ∧ s1.PinNames.map FName.ToString = A
      ∧ (ArgumentPinNames f s1.Pins).Perm A
      ∧ s1.Pins
          = s.Pins.filter (fun Pin => !IsArgumentPin f Pin || decide (Pin.PinName.ToString ∈ A))
            ++ Created
      ∧ Created.map (fun Pin => Pin.PinName.ToString)
          = A.filter (fun a => decide (a ∉ ArgumentPinNames f s.Pins))
      ∧ ∀ Pin ∈ Created, Pin.Direction = EGPD_Input ∧ Pin.PinType = WildcardPinType
          ∧ Pin.Id ≠ f := by
  have hs0 := GetFormatPin_spec s s0 f hf
  obtain ⟨Created, h1, h2, h3⟩ :=
    CreateLoop_spec f A { s0 with PinNames := [] } (by rw [hs0]) hA hrt
  have hpins : s0.Pins = s.Pins := by rw [hs0]
  simp only [hpins, List.nil_append] at h1 h2
  have hkeep : Created.filter
      (fun Pin => !IsArgumentPin f Pin || decide (Pin.PinName.ToString ∈ A)) = Created := by
    rw [List.filter_eq_self]
    intro Pin hPin
    have : Pin.PinName.ToString ∈ A.filter (fun a => decide (a ∉ ArgumentPinNames f s.Pins)) := by
      rw [← h2]; exact List.mem_map_of_mem _ hPin
    have := (List.mem_filter.1 this).1
    simp [this]
  refine ⟨{ Pins := PinDefaultValueChanged_DestroyLoop f A (s.Pins ++ Created),
             PinNames := A.map (fun a => (⟨a⟩ : FName)),
             CachedFormatPin := s0.CachedFormatPin,
             Graph := { s0.Graph with
               NotifyGraphChangedCalls := s0.Graph.NotifyGraphChangedCalls + 1 },
             Blueprint := s0.Blueprint }, Created, ?_, ?_, ?_, ?_, ?_, h2, h3⟩
  · unfold PinDefaultValueChanged
    rw [hf]
    simp only [beq_self_eq_true, if_true, hpins, hobj, hlinks, List.length_nil]
    rw [h1]
  · rfl
  · simp [FName.ToString, Function.comp_def]
  · simp only [DestroyLoop_eq_filter, List.filter_append, hkeep, ArgumentPinNames_append,
      ArgumentPinNames_filter, ArgumentPinNames_of_all f Created h3, h2]
    have hp1 := filter_mem_perm (ArgumentPinNames f s.Pins) A hargs hA
    have hp2 := List.filter_append_perm (fun a => decide (a ∈ ArgumentPinNames f s.Pins)) A
    refine List.Perm.trans (List.Perm.append_right _ hp1) ?_
    refine List.Perm.trans ?_ hp2
    apply List.Perm.append_left
    apply List.Perm.of_eq
    apply List.filter_congr
    intro x _
    simp
  · simp only [DestroyLoop_eq_filter, List.filter_append, hkeep]

/-- C1, failing input. The engine makes `NAME_None` of the string `_1`.
On a new node whose template names the one argument `_1`,
`PinDefaultValueChanged` puts `None` into `PinNames`, creates the pin `None`
in its first loop and removes it in its second loop, because `None` is not
the parsed string `_1`: afterwards `PinNames` is not the list of the parsed
names and no argument pin is left. For the parsed name `a` the pin is
created and kept. -/
theorem C1_PinDefaultValueChanged_number_suffix_name :
    FName.FromString "_1" = NAME_None
    ∧ (PinDefaultValueChanged (AllocateDefaultPins {}) 1 ["_1"]).map
        (fun s => (s.PinNames.map FName.ToString, PinSummary s.Pins))
      = some (["None"], [(1, "Format"), (2, "Result")])
    ∧ (PinDefaultValueChanged (AllocateDefaultPins {}) 1 ["a"]).map
        (fun s => (s.PinNames.map FName.ToString, PinSummary s.Pins))
      = some (["a"], [(1, "Format"), (2, "Result"), (3, "a")]) := by
  refine ⟨by decide, by decide, by decide⟩

/-- C3. `SynchronizeArgumentPinType(P)` on a pin `P` of the node returns.
For an input pin other than the format pin, `P` afterwards carries a type
`T` that equals (`operator==`) the wildcard type when `P` has no links and
the type of `LinkedTo[0]` otherwise, and no other pin changes; the graph is
notified once when `T` differs from the type `P` had, and neither graph nor
blueprint is touched when it does not. For the format pin and for an output
pin the pins, the graph and the blueprint are as before. -/
theorem C3_SynchronizeArgumentPinType_type
    (s s0 : Node) (f Pin : Nat) (P : UEdGraphPin)
    (hf : GetFormatPin s = some (f, s0))
    (hP : s.Pins.find? (fun Q => Q.Id == Pin) = some P) :
    ∃ s1 : Node, SynchronizeArgumentPinType s Pin = some s1
      ∧ (IsArgumentPin f P = true →
          ∃ T : FEdGraphPinType,
            s1.Pins = SetPinType s.Pins Pin T
            ∧ s1.Pins.find? (fun Q => Q.Id == Pin) = some { P with PinType := T }
            ∧ (P.LinkedTo = [] →
                T.Equals WildcardPinType = true ∧ (T = WildcardPinType ∨ T = P.PinType))
            ∧ (∀ L rest, P.LinkedTo = L :: rest →
                T.Equals L.PinType = true ∧ (T = L.PinType ∨ T = P.PinType))
            ∧ (T ≠ P.PinType →
                s1.Graph.NotifyGraphChangedCalls = s.Graph.NotifyGraphChangedCalls + 1
                ∧ (s.Blueprint.bBeingCompiled = false →
                    s1.Blueprint.MarkedAsModified = s.Blueprint.MarkedAsModified + 1
                    ∧ s1.Blueprint.BroadcastChangedCalls = s.Blueprint.BroadcastChangedCalls + 1)
                ∧ (s.Blueprint.bBeingCompiled = true → s1.Blueprint = s.Blueprint))
            ∧ (T = P.PinType → s1.Graph = s.Graph ∧ s1.Blueprint = s.Blueprint))
      ∧ (IsArgumentPin f P = false →
          s1.Pins = s.Pins ∧ s1.Graph = s.Graph ∧ s1.Blueprint = s.Blueprint) := by
  have hs0 := GetFormatPin_spec s s0 f hf
  have hpins : s0.Pins = s.Pins := by rw [hs0]
  have hg : s0.Graph = s.Graph := by rw [hs0]
  have hb : s0.Blueprint = s.Blueprint := by rw [hs0]
  obtain ⟨hchg, hnil, hcons⟩ := SynchronizedPinType_spec P
  by_cases harg : IsArgumentPin f P = true
  · have harg2 : (P.Id != f && P.Direction == EGPD_Input) = true := harg
    by_cases hc : (SynchronizedPinType P).2 = true
    · refine ⟨{ s0 with Pins := SetPinType s.Pins Pin (SynchronizedPinType P).1,
                        Graph := (NotifyPinTypeChanged s.Graph s.Blueprint).1,
                        Blueprint := (NotifyPinTypeChanged s.Graph s.Blueprint).2 }, ?_, ?_, ?_⟩
      · unfold SynchronizeArgumentPinType
        rw [hf]
        simp only [hpins, hP, harg2, if_true, hg, hb]
        rw [show SynchronizedPinType P = ((SynchronizedPinType P).1, (SynchronizedPinType P).2)
          from rfl]
        simp only [hc, if_true]
      · intro _
        refine ⟨(SynchronizedPinType P).1, rfl, ?_, hnil, hcons, ?_, ?_⟩
        · show (SetPinType s.Pins Pin _).find? _ = _
          rw [find_SetPinType, hP]; rfl
        · intro _
          refine ⟨?_, ?_, ?_⟩
          · show (NotifyPinTypeChanged s.Graph s.Blueprint).1.NotifyGraphChangedCalls = _
            unfold NotifyPinTypeChanged
            split <;> rfl
          · intro hbc
            simp [NotifyPinTypeChanged, hbc]
          · intro hbc
            simp [NotifyPinTypeChanged, hbc]
        · intro hT
          exact absurd hT (hchg.1 hc)
      · intro h; rw [harg] at h; cases h
    · have hT : (SynchronizedPinType P).1 = P.PinType := by
        by_contra hne
        exact hc (hchg.2 hne)
      refine ⟨{ s0 with Pins := SetPinType s.Pins Pin (SynchronizedPinType P).1 }, ?_, ?_, ?_⟩
      · unfold SynchronizeArgumentPinType
        rw [hf]
        simp only [hpins, hP, harg2, if_true]
        rw [show SynchronizedPinType P = ((SynchronizedPinType P).1, (SynchronizedPinType P).2)
          from rfl]
        simp only [hc, Bool.false_eq_true, if_false]
      · intro _
        refine ⟨(SynchronizedPinType P).1, rfl, ?_, hnil, hcons, ?_, ?_⟩
        · show (SetPinType s.Pins Pin _).find? _ = _
          rw [find_SetPinType, hP]; rfl
        · intro hne
          exact absurd hT hne
        · intro _
          exact ⟨hg, hb⟩
      · intro h; rw [harg] at h; cases h
  · have harg2 : (P.Id != f && P.Direction == EGPD_Input) = false := by
      simpa [IsArgumentPin] using harg
    refine ⟨s0, ?_, ?_, ?_⟩
    · unfold SynchronizeArgumentPinType
      rw [hf]
      simp only [hpins, hP, harg2, Bool.false_eq_true, if_false]
    · intro h; exact absurd h harg
    · intro _
      exact ⟨hpins, hg, hb⟩

/-- C3, at the argument pin `a` of `ExampleLinkedNode`, a wildcard linked
to an `int` pin. -/
theorem C3_SynchronizeArgumentPinType_type_witness :
    ∃ s1 : Node, SynchronizeArgumentPinType ExampleLinkedNode 3 = some s1
      ∧ s1.Pins.find? (fun Q => Q.Id == 3)
          = some { Id := 3, PinName := ⟨"a"⟩, Direction := EGPD_Input,
                   PinType := { PinCategory := PC_Int },
                   LinkedTo := [{ Id := 100, PinType := { PinCategory := PC_Int } }] }
      ∧ s1.Graph.NotifyGraphChangedCalls = 1 := by
  obtain ⟨s1, h1, h2, _⟩ := C3_SynchronizeArgumentPinType_type ExampleLinkedNode ExampleLinkedNode 1 3
    { Id := 3, PinName := ⟨"a"⟩, Direction := EGPD_Input, PinType := WildcardPinType,
      LinkedTo := [{ Id := 100, PinType := { PinCategory := PC_Int } }] }
    (by decide) (by decide)
  obtain ⟨T, _, h4, _, h6, h7, _⟩ := h2 (by decide)
  have hT : T = { PinCategory := PC_Int } := by
    rcases (h6 _ _ rfl).2 with h | h
    · exact h
    · have := (h6 _ _ rfl).1
      rw [h] at this
      exact absurd this (by decide)
  subst hT
  exact ⟨s1, h1, h4, (h7 (by decide)).1⟩

theorem bIsValidType_iff (OtherPin : UEdGraphPin) :
    bIsValidType OtherPin = true ↔
      (OtherPin.PinType.PinCategory.Equals PC_Int = true
        ∨ OtherPin.PinType.PinCategory.Equals PC_Int64 = true
        ∨ OtherPin.PinType.PinCategory.Equals PC_Float = true
        ∨ OtherPin.PinType.PinCategory.Equals PC_Text = true
        ∨ OtherPin.PinType.PinCategory.Equals PC_Boolean = true
        ∨ OtherPin.PinType.PinCategory.Equals PC_String = true
        ∨ OtherPin.PinType.PinCategory.Equals PC_Name = true
        ∨ OtherPin.PinType.PinCategory.Equals PC_Object = true
        ∨ OtherPin.PinType.PinCategory.Equals PC_Wildcard = true
        ∨ (OtherPin.PinType.PinCategory.Equals PC_Byte = true
            ∧ OtherPin.PinType.PinSubCategoryObject = none)) := by
  unfold bIsValidType
  cases ho : OtherPin.PinType.PinSubCategoryObject with
  | none =>
    simp only [Option.isSome_none, Bool.not_false, Bool.and_true, Bool.or_eq_true, and_true]
    tauto
  | some o =>
    simp only [Option.isSome_some, Bool.not_true, Bool.and_false, Bool.or_false, Bool.or_eq_true,
      and_false, or_false]
    tauto

/-- C6. `IsConnectionDisallowed(MyPin, OtherPin, OutReason)` for an input
pin other than the format pin: it answers true with the "Format arguments
may only be ..." reason when the category of `OtherPin` is none of Int,
Int64, Float, Text, Boolean, String, Name, Object, Wildcard and is not Byte
without a sub-category object (so Byte with a sub-category object is
rejected), and gives the answer and reason of the base class otherwise; for
the format pin and for output pins it always gives those of the base
class. -/
theorem C6_IsConnectionDisallowed_types
    (s s0 : Node) (f : Nat) (MyPin OtherPin : UEdGraphPin) (OutReason : String)
    (Super : String → Bool × String)
    (hf : GetFormatPin s = some (f, s0)) :
    ∃ r : Bool × String, IsConnectionDisallowed s MyPin OtherPin OutReason Super = some (r, s0)
      ∧ (IsArgumentPin f MyPin = true →
          ((¬ (OtherPin.PinType.PinCategory.Equals PC_Int = true
              ∨ OtherPin.PinType.PinCategory.Equals PC_Int64 = true
              ∨ OtherPin.PinType.PinCategory.Equals PC_Float = true
              ∨ OtherPin.PinType.PinCategory.Equals PC_Text = true
              ∨ OtherPin.PinType.PinCategory.Equals PC_Boolean = true
              ∨ OtherPin.PinType.PinCategory.Equals PC_String = true
              ∨ OtherPin.PinType.PinCategory.Equals PC_Name = true
              ∨ OtherPin.PinType.PinCategory.Equals PC_Object = true
              ∨ OtherPin.PinType.PinCategory.Equals PC_Wildcard = true
              ∨ (OtherPin.PinType.PinCategory.Equals PC_Byte = true
                  ∧ OtherPin.PinType.PinSubCategoryObject = none))) →
            r = (true, Error_InvalidArgumentType))
          ∧ ((OtherPin.PinType.PinCategory.Equals PC_Int = true
              ∨ OtherPin.PinType.PinCategory.Equals PC_Int64 = true
              ∨ OtherPin.PinType.PinCategory.Equals PC_Float = true
              ∨ OtherPin.PinType.PinCategory.Equals PC_Text = true
              ∨ OtherPin.PinType.PinCategory.Equals PC_Boolean = true
              ∨ OtherPin.PinType.PinCategory.Equals PC_String = true
              ∨ OtherPin.PinType.PinCategory.Equals PC_Name = true
              ∨ OtherPin.PinType.PinCategory.Equals PC_Object = true
              ∨ OtherPin.PinType.PinCategory.Equals PC_Wildcard = true
              ∨ (OtherPin.PinType.PinCategory.Equals PC_Byte = true
                  ∧ OtherPin.PinType.PinSubCategoryObject = none)) →
            r = Super OutReason)
          ∧ (OtherPin.PinType.PinCategory.Equals PC_Byte = true →
              OtherPin.PinType.PinSubCategoryObject ≠ none →
              r = (true, Error_InvalidArgumentType)))
      ∧ (IsArgumentPin f MyPin = false → r = Super OutReason) := by
  have hbyte : ∀ c : FName, c.Equals PC_Byte = true →
      c.Equals PC_Int = false ∧ c.Equals PC_Int64 = false ∧ c.Equals PC_Float = false
      ∧ c.Equals PC_Text = false ∧ c.Equals PC_Boolean = false ∧ c.Equals PC_String = false
      ∧ c.Equals PC_Name = false ∧ c.Equals PC_Object = false ∧ c.Equals PC_Wildcard = false := by
    intro c hc
    simp only [FName.Equals, beq_iff_eq] at hc
    simp only [FName.Equals, hc]
    decide
  by_cases harg : IsArgumentPin f MyPin = true
  · have harg2 : (MyPin.Id != f && MyPin.Direction == EGPD_Input) = true := harg
    by_cases hv : bIsValidType OtherPin = true
    · refine ⟨Super OutReason, ?_, ?_, ?_⟩
      · simp [IsConnectionDisallowed, hf, harg2, hv]
      · intro _
        refine ⟨?_, fun _ => rfl, ?_⟩
        · intro hbad
          exfalso; apply hbad
          rw [bIsValidType_iff] at hv
          tauto
        · intro hb hobj
          exfalso
          obtain ⟨h1, h2, h3, h4, h5, h6, h7, h8, h9⟩ := hbyte _ hb
          cases ho : OtherPin.PinType.PinSubCategoryObject with
          | none => exact hobj ho
          | some o => simp [bIsValidType, h1, h2, h3, h4, h5, h6, h7, h8, h9, ho] at hv
      · exact fun h => Bool.noConfusion (harg.symm.trans h)
    · refine ⟨(true, Error_InvalidArgumentType), ?_, ?_, ?_⟩
      · simp [IsConnectionDisallowed, hf, harg2, hv]
      · intro _
        refine ⟨fun _ => rfl, ?_, fun _ _ => rfl⟩
        intro hgood
        exfalso; apply hv
        rw [bIsValidType_iff]
        tauto
      · exact fun h => Bool.noConfusion (harg.symm.trans h)
  · have harg2 : (MyPin.Id != f && MyPin.Direction == EGPD_Input) = false := by
      simpa [IsArgumentPin] using harg
    refine ⟨Super OutReason, ?_, ?_, ?_⟩
    · simp [IsConnectionDisallowed, hf, harg2]
    · intro h; exact absurd h harg
    · intro _; rfl

/-- C6, at the argument pin `a` of `ExampleLinkedNode` and a `byte` pin
that carries an enum. -/
theorem C6_IsConnectionDisallowed_types_witness :
    (IsConnectionDisallowed ExampleLinkedNode
        { Id := 3, PinName := ⟨"a"⟩, Direction := EGPD_Input, PinType := WildcardPinType }
        (OtherPinOfType PC_Byte (some 7)) "" (fun r => (false, r))).map Prod.fst
      = some (true, Error_InvalidArgumentType) := by
  obtain ⟨r, h1, h2, _⟩ := C6_IsConnectionDisallowed_types ExampleLinkedNode ExampleLinkedNode 1
    { Id := 3, PinName := ⟨"a"⟩, Direction := EGPD_Input, PinType := WildcardPinType }
    (OtherPinOfType PC_Byte (some 7)) "" (fun r => (false, r)) (by decide)
  rw [h1, (h2 (by decide)).2.2 (by decide) (by decide)]
  rfl

end UK2Node_FormatString

namespace UK2Node_FormatString

/-- C4, failing input. An argument pin linked to a `text` pin: the
conversion function `Conv_TextToString` is looked up in
`UKismetStringLibrary`, which does not declare it, the call node gets no
pins, and `FindPinChecked(TEXT("InText"))` fails its check, so `ExpandNode`
does not return. With a `bool` pin the conversion node is built. -/
theorem C4_ExpandNode_text_argument :
    FindFunctionByName EngineFunctions UClass.UKismetStringLibrary ⟨"Conv_TextToString"⟩ = none
    ∧ (ExpandNode EngineFunctions { NextPinId := 1000 } (ExampleArgumentNode PC_Text none)).isNone
        = true
    ∧ ((ExpandNode EngineFunctions { NextPinId := 1000 } (ExampleArgumentNode PC_Boolean none)).map
        (fun r => r.Arguments.map (fun a => a.ConversionFunction.isSome))) = some [true] := by
  refine ⟨by decide, by decide, by decide⟩

end UK2Node_FormatString

namespace UK2Node_SiriusPrintStringFormatted

/-- C2, failing input. On a new node the template is set to one that
names the argument `In String` and then to one without arguments: the
second call removes the format pin (address 3) and keeps the argument pin
(address 8), which no name of the template accounts for. When the first
template names `then` instead, the second call does not return: after the
`then` pin is removed, `GetThenPin` fails its check. -/
theorem C2_PinDefaultValueChanged_after_fixed_name :
    (EditTemplate (some NewNode) ["In String"]).map
        (fun s => (PinSummary s.Pins, PinSummary s.CachedArgumentPins, s.PinNames))
      = some ([(1, "execute"), (2, "then"), (3, "In String"), (8, "In String"),
               (4, "Print to Screen"), (5, "Print to Log"), (6, "Text Color"), (7, "Duration")],
              [(8, "In String")], [⟨"In String"⟩])
    ∧ (EditTemplate (EditTemplate (some NewNode) ["In String"]) []).map
        (fun s => (PinSummary s.Pins, PinSummary s.CachedArgumentPins, s.PinNames))
      = some ([(1, "execute"), (2, "then"), (8, "In String"),
               (4, "Print to Screen"), (5, "Print to Log"), (6, "Text Color"), (7, "Duration")],
              [], [])
    ∧ (EditTemplate (some NewNode) ["then"]).isSome = true
    ∧ EditTemplate (EditTemplate (some NewNode) ["then"]) ["x"] = none := by
  decide

/-- C9, failing input. On a new node whose template named the argument
`execute`, the call for a template without arguments removes the execute
pin (address 1), a fixed pin, and keeps the argument pin of that name
(address 8); with `In String` in place of `execute` it is the format pin
(address 3) that is removed. -/
theorem C9_PinDefaultValueChanged_removes_fixed_pin :
    (EditTemplate (some NewNode) ["execute"]).map (fun s => PinSummary s.Pins)
      = some [(1, "execute"), (2, "then"), (3, "In String"), (8, "execute"),
              (4, "Print to Screen"), (5, "Print to Log"), (6, "Text Color"), (7, "Duration")]
    ∧ (EditTemplate (EditTemplate (some NewNode) ["execute"]) []).map (fun s => PinSummary s.Pins)
      = some [(2, "then"), (3, "In String"), (8, "execute"),
              (4, "Print to Screen"), (5, "Print to Log"), (6, "Text Color"), (7, "Duration")]
    ∧ (EditTemplate (EditTemplate (some NewNode) ["In String"]) []).map
        (fun s => s.Pins.map (fun Pin => Pin.Id))
      = some [1, 2, 8, 4, 5, 6, 7] := by
  decide

/-- C10, failing input. On a new node whose template names the argument
`Duration`, `SynchronizeArgumentPinType` called on the fixed `Duration` pin
(address 7, of type real/float, without links) turns it into a wildcard. -/
theorem C10_SynchronizeArgumentPinType_changes_fixed_pin :
    (NewNode.Pins.find? (fun P => P.Id == 7)).map
        (fun P => (P.PinName, P.PinType.PinCategory, P.PinType.PinSubCategory))
      = some (DurationPinName, PC_Real, PC_Float)
    ∧ ((EditTemplate (some NewNode) ["Duration"]).bind
        (fun s => s.Pins.find? (fun P => P.Id == 7))).map
        (fun P => (P.PinName, P.PinType.PinCategory, P.PinType.PinSubCategory))
      = some (DurationPinName, PC_Real, PC_Float)
    ∧ (((EditTemplate (some NewNode) ["Duration"]).bind
        (fun s => SynchronizeArgumentPinType s 7)).bind
        (fun s => s.Pins.find? (fun P => P.Id == 7))).map
        (fun P => (P.PinName, P.PinType))
      = some (DurationPinName, WildcardPinType) := by
  decide

end UK2Node_SiriusPrintStringFormatted

/-! ### `ExpandNode` -/

section NameLemmas
theorem digitChar_toNat (d : Nat) (h : d < 10) : (Nat.digitChar d).toNat - 48 = d := by
  interval_cases d <;> rfl

theorem digitChar_toLower (d : Nat) (h : d < 10) : (Nat.digitChar d).toLower = Nat.digitChar d := by
  interval_cases d <;> decide

theorem DigitsValue_toDigitsCore : ∀ (fuel n : Nat) (ds : List Char), n < fuel →
    DigitsValue 0 (Nat.toDigitsCore 10 fuel n ds) = DigitsValue n ds := by
  intro fuel
  induction fuel with
  | zero => intro n ds h; omega
  | succ fuel ih =>
    intro n ds h
    unfold Nat.toDigitsCore
    simp only
    by_cases h0 : n / 10 = 0
    · simp only [h0, if_true]
      have hn : n % 10 = n := by omega
      have hlt : n < 10 := by omega
      rw [hn]
      simp only [DigitsValue, List.foldl_cons, digitChar_toNat n hlt, Nat.mul_zero, Nat.zero_add]
    · simp only [h0, if_false]
      rw [ih (n / 10) _ (by omega)]
      simp only [DigitsValue, List.foldl_cons, digitChar_toNat (n % 10) (Nat.mod_lt _ (by norm_num))]
      congr 1
      omega

theorem toDigits_injective (i j : Nat) (h : Nat.toDigits 10 i = Nat.toDigits 10 j) : i = j := by
  have hi := DigitsValue_toDigitsCore (i + 1) i [] (by omega)
  have hj := DigitsValue_toDigitsCore (j + 1) j [] (by omega)
  unfold Nat.toDigits at h
  rw [h, hj] at hi
  simpa [DigitsValue] using hi.symm

theorem toDigitsCore_toLower : ∀ (fuel n : Nat) (ds : List Char),
    ds.map Char.toLower = ds →
    (Nat.toDigitsCore 10 fuel n ds).map Char.toLower = Nat.toDigitsCore 10 fuel n ds := by
  intro fuel
  induction fuel with
  | zero => intro n ds h; simpa [Nat.toDigitsCore] using h
  | succ fuel ih =>
    intro n ds h
    unfold Nat.toDigitsCore
    simp only
    have hd : (Nat.digitChar (n % 10) :: ds).map Char.toLower = Nat.digitChar (n % 10) :: ds := by
      simp only [List.map_cons, digitChar_toLower (n % 10) (Nat.mod_lt _ (by norm_num)), h]
    by_cases h0 : n / 10 = 0
    · simp only [h0, if_true]; exact hd
    · simp only [h0, if_false]; exact ih _ _ hd

theorem FName_Equals_trans_left (a b c : FName) (h1 : a.Equals b = true) (h2 : a.Equals c = true) :
    b.Equals c = true := by
  simp only [FName.Equals, beq_iff_eq] at *
  rw [← h1, ← h2]

theorem ArrayPinName_key (i : Nat) :
    (ArrayPinName i).ComparisonKey = '[' :: Nat.toDigits 10 i ++ [']'] := by
  have h1 : (Nat.toDigits 10 i).map Char.toLower = Nat.toDigits 10 i :=
    toDigitsCore_toLower _ _ _ rfl
  have h2 : Char.toLower '[' = '[' := by decide
  have h3 : Char.toLower ']' = ']' := by decide
  simp only [ArrayPinName, FName.ComparisonKey, List.map_cons, List.map_append, List.map_nil,
    h1, h2, h3]

theorem ArrayPinName_Equals (i j : Nat) (h : (ArrayPinName i).Equals (ArrayPinName j) = true) :
    i = j := by
  simp only [FName.Equals, beq_iff_eq, ArrayPinName_key, List.cons_append, List.cons.injEq,
    true_and] at h
  exact toDigits_injective i j (List.append_inj_left' h rfl)

theorem Array_not_ArrayPinName (i : Nat) : (⟨"Array"⟩ : FName).Equals (ArrayPinName i) = false := by
  have hk : (⟨"Array"⟩ : FName).ComparisonKey = ['a', 'r', 'r', 'a', 'y'] := by decide
  simp only [FName.Equals, ArrayPinName_key, hk, List.cons_append]
  rw [beq_eq_false_iff_ne]
  intro h
  have h2 := (List.cons.inj h).1
  revert h2
  decide

theorem mem_ModifyPin (Pins : List UEdGraphPin) (Id : Nat) (g : UEdGraphPin → UEdGraphPin)
    (Q : UEdGraphPin) :
    Q ∈ ModifyPin Pins Id g ↔ ∃ P ∈ Pins, Q = if P.Id == Id then g P else P := by
  unfold ModifyPin
  simp only [List.mem_map]
  constructor
  · rintro ⟨P, hP, rfl⟩; exact ⟨P, hP, rfl⟩
  · rintro ⟨P, hP, rfl⟩; exact ⟨P, hP, rfl⟩

theorem ModifyPin_append (Ps Qs : List UEdGraphPin) (Id : Nat) (g : UEdGraphPin → UEdGraphPin) :
    ModifyPin (Ps ++ Qs) Id g = ModifyPin Ps Id g ++ ModifyPin Qs Id g := by
  simp [ModifyPin]

theorem ModifyPin_map_id_name (Pins : List UEdGraphPin) (Id : Nat) (g : UEdGraphPin → UEdGraphPin)
    (hg : ∀ P, (g P).Id = P.Id ∧ (g P).PinName = P.PinName) :
    (ModifyPin Pins Id g).map (fun P => (P.Id, P.PinName)) = Pins.map (fun P => (P.Id, P.PinName)) := by
  unfold ModifyPin
  rw [List.map_map]
  apply List.map_congr_left
  intro P _
  simp only [Function.comp]
  split
  · rw [(hg P).1, (hg P).2]
  · rfl

theorem ModifyPin_of_lt (Pins : List UEdGraphPin) (Id : Nat) (g : UEdGraphPin → UEdGraphPin)
    (h : ∀ P ∈ Pins, P.Id ≠ Id) : ModifyPin Pins Id g = Pins := by
  unfold ModifyPin
  conv_rhs => rw [← List.map_id Pins]
  apply List.map_congr_left
  intro P hP
  have := h P hP
  simp [this]
end NameLemmas

namespace UK2Node_FormatString

theorem StructInv_ModifyPin (b : Nat) (n : String) (Pins : List UEdGraphPin) (Id : Nat)
    (g : UEdGraphPin → UEdGraphPin) (h : StructInv b n Pins) (hId : b + 2 ≤ Id)
    (hg : ∀ P, (g P).Id = P.Id ∧ (g P).PinName = P.PinName) :
    StructInv b n (ModifyPin Pins Id g) := by
  obtain ⟨Tail, rfl, hT⟩ := h
  refine ⟨ModifyPin Tail Id g, ?_, ?_⟩
  · rw [ModifyPin_append]
    congr 1
    apply ModifyPin_of_lt
    intro P hP
    simp only [StructHeadPins, List.mem_cons, List.mem_singleton, List.not_mem_nil, or_false] at hP
    rcases hP with rfl | rfl <;> simp <;> omega
  · rw [ModifyPin_map_id_name _ _ _ hg, hT]

theorem StructInv_find (b : Nat) (n : String) (Pins : List UEdGraphPin) (h : StructInv b n Pins)
    (M : FName)
    (hM : M = ⟨"ArgumentValueType"⟩ ∨ M = ⟨"ArgumentValue"⟩ ∨ M = ⟨"ArgumentValueInt"⟩
      ∨ M = ⟨"ArgumentValueInt64"⟩ ∨ M = ⟨"ArgumentValueFloat"⟩) :
    ∃ T, FindPinChecked Pins M = some T ∧ b + 2 ≤ T.Id := by
  obtain ⟨Tail, rfl, hT⟩ := h
  rcases Tail with _ | ⟨t2, _ | ⟨t3, _ | ⟨t4, _ | ⟨t5, _ | ⟨t6, _ | ⟨t7, T⟩⟩⟩⟩⟩⟩ <;>
    try (simp at hT; done)
  · simp only [List.map_cons, List.map_nil, List.cons.injEq, Prod.mk.injEq, and_true] at hT
    obtain ⟨⟨i2, n2⟩, ⟨i3, n3⟩, ⟨i4, n4⟩, ⟨i5, n5⟩, ⟨i6, n6⟩⟩ := hT
    rcases hM with rfl | rfl | rfl | rfl | rfl
    · refine ⟨t2, ?_, by omega⟩
      simp only [FindPinChecked, FindPin, StructHeadPins, List.cons_append, List.nil_append,
        List.find?_cons, n2, n3, n4, n5, n6]
      rfl
    · refine ⟨t3, ?_, by omega⟩
      simp only [FindPinChecked, FindPin, StructHeadPins, List.cons_append, List.nil_append,
        List.find?_cons, n2, n3, n4, n5, n6]
      rfl
    · refine ⟨t4, ?_, by omega⟩
      simp only [FindPinChecked, FindPin, StructHeadPins, List.cons_append, List.nil_append,
        List.find?_cons, n2, n3, n4, n5, n6]
      rfl
    · refine ⟨t5, ?_, by omega⟩
      simp only [FindPinChecked, FindPin, StructHeadPins, List.cons_append, List.nil_append,
        List.find?_cons, n2, n3, n4, n5, n6]
      rfl
    · refine ⟨t6, ?_, by omega⟩
      simp only [FindPinChecked, FindPin, StructHeadPins, List.cons_append, List.nil_append,
        List.find?_cons, n2, n3, n4, n5, n6]
      rfl

theorem StructInv_head (b : Nat) (n : String) (Pins : List UEdGraphPin) (h : StructInv b n Pins) :
    Pins.find? (fun Pin => Pin.Direction == EGPD_Output) = (StructHeadPins b n)[0]?
    ∧ FindPinChecked Pins ⟨"ArgumentName"⟩ = (StructHeadPins b n)[1]? := by
  obtain ⟨Tail, rfl, _⟩ := h
  exact ⟨rfl, rfl⟩

end UK2Node_FormatString

section PinLemmas
theorem FindPin_isSome_iff (Pins : List UEdGraphPin) (n : FName) :
    (FindPinChecked Pins n).isSome = true ↔ ∃ P ∈ Pins, P.PinName.Equals n = true := by
  unfold FindPinChecked FindPin
  rw [List.find?_isSome]
  simp

theorem FindPin_some_mem (Pins : List UEdGraphPin) (n : FName) (P : UEdGraphPin)
    (h : FindPinChecked Pins n = some P) : P ∈ Pins ∧ P.PinName.Equals n = true := by
  unfold FindPinChecked FindPin at h
  have h1 := List.mem_of_find?_eq_some h
  have h2 := List.find?_some h
  simp at h2
  exact ⟨h1, h2⟩

theorem NewInputPins_spec : ∀ (Names : List FName) (Context : FKismetCompilerContext),
    (Context.NewInputPins Names).1.map (fun P => P.PinName) = Names
    ∧ (Context.NewInputPins Names).2.MessageLog = Context.MessageLog
    ∧ (Context.NewInputPins Names).2.NextPinId = Context.NextPinId + Names.length := by
  intro Names
  induction Names with
  | nil => intro Context; exact ⟨rfl, rfl, rfl⟩
  | cons n rest ih =>
    intro Context
    obtain ⟨h1, h2, h3⟩ := ih { Context with NextPinId := Context.NextPinId + 1 }
    simp only [FKismetCompilerContext.NewInputPins, FKismetCompilerContext.NewPin, List.map_cons,
      h1, h2, h3, List.length_cons]
    exact ⟨trivial, trivial, by omega⟩
end PinLemmas

namespace UK2Node_FormatString

theorem StructInv_TrySetDefaultValue (b : Nat) (n : String) (Pins : List UEdGraphPin)
    (Pin : UEdGraphPin) (v : String) (h : StructInv b n Pins) (hId : b + 2 ≤ Pin.Id) :
    StructInv b n (TrySetDefaultValue Pins Pin v) :=
  StructInv_ModifyPin b n Pins Pin.Id (fun P => { P with DefaultValue := v }) h hId
    (fun _ => ⟨rfl, rfl⟩)

theorem StructInv_TrySetDefaultText (b : Nat) (n : String) (Pins : List UEdGraphPin)
    (Pin : UEdGraphPin) (v : String) (h : StructInv b n Pins) (hId : b + 2 ≤ Pin.Id) :
    StructInv b n (TrySetDefaultText Pins Pin v) :=
  StructInv_ModifyPin b n Pins Pin.Id
    (fun P => if P.PinType.PinCategory.Equals PC_Text then
      { P with DefaultTextValue := v, DefaultValue := "" } else P) h hId
    (fun P => by
      simp only
      constructor <;> (split <;> rfl))

theorem StructInv_MoveTarget (b : Nat) (n : String) (Pins : List UEdGraphPin)
    (A T : UEdGraphPin) (h : StructInv b n Pins) (hId : b + 2 ≤ T.Id) :
    StructInv b n (MovePinLinksToIntermediate_Target Pins A T) :=
  StructInv_ModifyPin b n Pins T.Id _ h hId (fun _ => ⟨rfl, rfl⟩)

theorem StructInv_MakeLinkTo (b : Nat) (n : String) (Pins : List UEdGraphPin)
    (A B : UEdGraphPin) (h : StructInv b n Pins) (hId : b + 2 ≤ A.Id) :
    StructInv b n (MakeLinkTo Pins A B) := by
  apply StructInv_ModifyPin b n Pins A.Id _ h hId
  intro P
  constructor <;> (split <;> rfl)

theorem MoveToMember_spec (Self : Node) (Context : FKismetCompilerContext)
    (MS : UK2Node_MakeStruct) (A TypePin : UEdGraphPin) (TypeName : String) (M : FName)
    (b : Nat) (n : String) (hS : StructInv b n MS.Pins) (hT : b + 2 ≤ TypePin.Id)
    (hM : M = ⟨"ArgumentValueType"⟩ ∨ M = ⟨"ArgumentValue"⟩ ∨ M = ⟨"ArgumentValueInt"⟩
      ∨ M = ⟨"ArgumentValueInt64"⟩ ∨ M = ⟨"ArgumentValueFloat"⟩) :
    ∃ V, ExpandNode_MoveToMember Self Context MS A TypePin TypeName M = some V
      ∧ V.Self = { Self with Pins := MovePinLinksToIntermediate_Source Self.Pins A }
      ∧ V.CompilerContext = Context
      ∧ StructInv b n V.MakeFormatArgumentDataStruct.Pins := by
  have h1 := StructInv_TrySetDefaultValue b n MS.Pins TypePin TypeName hS hT
  obtain ⟨T, hfind, hTid⟩ := StructInv_find b n _ h1 M hM
  simp only [ExpandNode_MoveToMember, bind, Option.bind, hfind, pure]
  exact ⟨_, rfl, rfl, rfl, StructInv_MoveTarget b n _ A T h1 hTid⟩

theorem Convert_spec (Functions : List UFunction) (Self : Node) (Context : FKismetCompilerContext)
    (MS : UK2Node_MakeStruct) (A TypePin : UEdGraphPin) (TypeName : String) (Class : UClass)
    (FuncName PinName M : FName)
    (b : Nat) (n : String) (hS : StructInv b n MS.Pins) (hT : b + 2 ≤ TypePin.Id)
    (hM : M = ⟨"ArgumentValueType"⟩ ∨ M = ⟨"ArgumentValue"⟩ ∨ M = ⟨"ArgumentValueInt"⟩
      ∨ M = ⟨"ArgumentValueInt64"⟩ ∨ M = ⟨"ArgumentValueFloat"⟩)
    (hR : FunctionResolves Functions Class FuncName PinName = true) :
    ∃ V, ExpandNode_Convert Functions Self Context MS A TypePin TypeName Class FuncName PinName M
        = some V
      ∧ V.Self = { Self with Pins := MovePinLinksToIntermediate_Source Self.Pins A }
      ∧ V.CompilerContext.MessageLog = Context.MessageLog
      ∧ Context.NextPinId ≤ V.CompilerContext.NextPinId
      ∧ StructInv b n V.MakeFormatArgumentDataStruct.Pins := by
  have h1 := StructInv_TrySetDefaultValue b n MS.Pins TypePin TypeName hS hT
  obtain ⟨T, hfind, hTid⟩ := StructInv_find b n _ h1 M hM
  unfold FunctionResolves at hR
  cases hF : FindFunctionByName Functions Class FuncName with
  | none => rw [hF] at hR; cases hR
  | some F =>
    rw [hF] at hR
    simp only [List.any_eq_true] at hR
    obtain ⟨Par, hPar, hParEq⟩ := hR
    obtain ⟨hn1, hn2, hn3⟩ := NewInputPins_spec F.Parameters Context
    generalize hRVdef : (UEdGraphPin.mk (Context.NewInputPins F.Parameters).2.NextPinId
      ⟨"ReturnValue"⟩ EGPD_Output { PinCategory := PC_Wildcard } "" "" [] false) = RVPin
    have hRVname : RVPin.PinName = ⟨"ReturnValue"⟩ := by rw [← hRVdef]
    -- the pins of the call node
    have hTarget : (FindPinChecked ((Context.NewInputPins F.Parameters).1 ++ [RVPin])
        PinName).isSome = true := by
      rw [FindPin_isSome_iff]
      have : Par ∈ (Context.NewInputPins F.Parameters).1.map (fun P => P.PinName) := by
        rw [hn1]; exact hPar
      obtain ⟨P, hP, hPn⟩ := List.mem_map.1 this
      exact ⟨P, List.mem_append_left _ hP, by rw [hPn]; exact hParEq⟩
    obtain ⟨Target, hTarget⟩ := Option.isSome_iff_exists.1 hTarget
    have hRV : (FindPinChecked (MovePinLinksToIntermediate_Target
        ((Context.NewInputPins F.Parameters).1 ++ [RVPin]) A Target) ⟨"ReturnValue"⟩).isSome
        = true := by
      rw [FindPin_isSome_iff]
      refine ⟨_, (mem_ModifyPin _ _ _ _).2
        ⟨RVPin, List.mem_append_right _ (List.mem_singleton.2 rfl), rfl⟩, ?_⟩
      split <;> simp only [hRVname] <;> rfl
    obtain ⟨RV, hRV⟩ := Option.isSome_iff_exists.1 hRV
    simp only [ExpandNode_Convert, bind, Option.bind, hF, UK2Node_CallFunction.SetFromFunction,
      UK2Node_CallFunction.AllocateDefaultPins, FKismetCompilerContext.NewPin, List.nil_append,
      hRVdef, hTarget, hRV, hfind, pure]
    refine ⟨_, rfl, rfl, ?_, ?_, ?_⟩
    · simp [hn2]
    · simp only [hn3]; omega
    · exact StructInv_MakeLinkTo b n _ T RV h1 hTid

theorem IsHandledType_linked (A : UEdGraphPin) (h : A.LinkedTo.length > 0) : A.LinkedTo ≠ [] := by
  intro e; rw [e] at h; simp at h

theorem ArgumentValue_handled (Self : Node) (Context : FKismetCompilerContext) (PinName : FName)
    (A : UEdGraphPin) (b : Nat) (n : String) (X : Option FArgumentValue) (V : FArgumentValue)
    (hV : X = some V)
    (hs : V.Self = { Self with Pins := MovePinLinksToIntermediate_Source Self.Pins A })
    (hlog : V.CompilerContext.MessageLog = Context.MessageLog)
    (hn : Context.NextPinId ≤ V.CompilerContext.NextPinId)
    (hi : StructInv b n V.MakeFormatArgumentDataStruct.Pins)
    (hl : A.LinkedTo.length > 0) (hh : IsHandledType A.PinType = true) :
    ∃ V, X = some V
      ∧ (V.Self = Self
          ∨ (V.Self = { Self with Pins := MovePinLinksToIntermediate_Source Self.Pins A }
              ∧ A.LinkedTo ≠ [] ∧ IsHandledType A.PinType = true))
      ∧ V.CompilerContext.MessageLog = Context.MessageLog ++
          (if HasUnexpectedType A then [Error_UnexpectedPinType PinName A.PinType.PinCategory]
           else [])
      ∧ Context.NextPinId ≤ V.CompilerContext.NextPinId
      ∧ StructInv b n V.MakeFormatArgumentDataStruct.Pins := by
  refine ⟨V, hV, Or.inr ⟨hs, IsHandledType_linked A hl, hh⟩, ?_, hn, hi⟩
  simp [hlog, HasUnexpectedType, hh]

theorem ArgumentValue_spec (Functions : List UFunction) (Self : Node)
    (Context : FKismetCompilerContext) (MS : UK2Node_MakeStruct) (PinName : FName)
    (A TypePin : UEdGraphPin) (b : Nat) (n : String)
    (hS : StructInv b n MS.Pins) (hT : b + 2 ≤ TypePin.Id)
    (hC : ConversionResolves Functions A = true) :
    ∃ V, ExpandNode_ArgumentValue Functions Self Context MS PinName A TypePin = some V
      ∧ (V.Self = Self
          ∨ (V.Self = { Self with Pins := MovePinLinksToIntermediate_Source Self.Pins A }
              ∧ A.LinkedTo ≠ [] ∧ IsHandledType A.PinType = true))
      ∧ V.CompilerContext.MessageLog = Context.MessageLog ++
          (if HasUnexpectedType A then [Error_UnexpectedPinType PinName A.PinType.PinCategory]
           else [])
      ∧ Context.NextPinId ≤ V.CompilerContext.NextPinId
      ∧ StructInv b n V.MakeFormatArgumentDataStruct.Pins := by
  unfold ExpandNode_ArgumentValue
  unfold ConversionResolves RequiredConversion at hC
  by_cases h0 : A.LinkedTo.length > 0
  · rw [if_pos h0]
    rw [if_pos h0] at hC
    simp only [] at hC ⊢
    by_cases h1 : A.PinType.PinCategory.Equals PC_Int = true
    · rw [if_pos h1]
      obtain ⟨V, hV, hs, hc, hi⟩ := MoveToMember_spec Self Context MS A TypePin "Int"
        ⟨"ArgumentValueInt"⟩ b n hS hT (by simp)
      exact ArgumentValue_handled Self Context PinName A b n _ V hV hs (by rw [hc])
        (by rw [hc]) hi h0 (by simp [IsHandledType, h1])
    rw [if_neg h1]
    by_cases h2 : A.PinType.PinCategory.Equals PC_Int64 = true
    · rw [if_pos h2]
      obtain ⟨V, hV, hs, hc, hi⟩ := MoveToMember_spec Self Context MS A TypePin "Int64"
        ⟨"ArgumentValueInt64"⟩ b n hS hT (by simp)
      exact ArgumentValue_handled Self Context PinName A b n _ V hV hs (by rw [hc])
        (by rw [hc]) hi h0 (by simp [IsHandledType, h2])
    rw [if_neg h2]
    by_cases h3 : A.PinType.PinCategory.Equals PC_Float = true
    · rw [if_pos h3]
      obtain ⟨V, hV, hs, hc, hi⟩ := MoveToMember_spec Self Context MS A TypePin "Float"
        ⟨"ArgumentValueFloat"⟩ b n hS hT (by simp)
      exact ArgumentValue_handled Self Context PinName A b n _ V hV hs (by rw [hc])
        (by rw [hc]) hi h0 (by simp [IsHandledType, h3])
    rw [if_neg h3]
    by_cases h4 : A.PinType.PinCategory.Equals PC_String = true
    · rw [if_pos h4]
      obtain ⟨V, hV, hs, hc, hi⟩ := MoveToMember_spec Self Context MS A TypePin "String"
        ⟨"ArgumentValue"⟩ b n hS hT (by simp)
      exact ArgumentValue_handled Self Context PinName A b n _ V hV hs (by rw [hc])
        (by rw [hc]) hi h0 (by simp [IsHandledType, h4])
    rw [if_neg h4]
    have hC1 : ¬ (A.PinType.PinCategory.Equals PC_Int || A.PinType.PinCategory.Equals PC_Int64
        || A.PinType.PinCategory.Equals PC_Float || A.PinType.PinCategory.Equals PC_String) = true := by
      simp [h1, h2, h3, h4]
    rw [if_neg hC1] at hC
    by_cases h5 : (A.PinType.PinCategory.Equals PC_Byte
        && !A.PinType.PinSubCategoryObject.isSome) = true
    · rw [if_pos h5]
      rw [if_pos h5] at hC
      obtain ⟨V, hV, hs, hc, hn, hi⟩ := Convert_spec Functions Self Context MS A TypePin "Int"
        UClass.UKismetMathLibrary ⟨"Conv_ByteToInt"⟩ ⟨"InByte"⟩ ⟨"ArgumentValueInt"⟩ b n hS hT
        (by simp) hC
      exact ArgumentValue_handled Self Context PinName A b n _ V hV hs hc hn hi h0
        (by unfold IsHandledType; rw [h5]; simp)
    rw [if_neg h5]
    rw [if_neg h5] at hC
    by_cases h6 : A.PinType.PinCategory.Equals PC_Boolean = true
    · rw [if_pos h6]
      rw [if_pos h6] at hC
      obtain ⟨V, hV, hs, hc, hn, hi⟩ := Convert_spec Functions Self Context MS A TypePin "String"
        UClass.UKismetStringLibrary ⟨"Conv_BoolToString"⟩ ⟨"InBool"⟩ ⟨"ArgumentValue"⟩ b n hS hT
        (by simp) hC
      exact ArgumentValue_handled Self Context PinName A b n _ V hV hs hc hn hi h0
        (by simp [IsHandledType, h6])
    rw [if_neg h6]
    rw [if_neg h6] at hC
    by_cases h7 : A.PinType.PinCategory.Equals PC_Name = true
    · rw [if_pos h7]
      rw [if_pos h7] at hC
      obtain ⟨V, hV, hs, hc, hn, hi⟩ := Convert_spec Functions Self Context MS A TypePin "String"
        UClass.UKismetStringLibrary ⟨"Conv_NameToString"⟩ ⟨"InName"⟩ ⟨"ArgumentValue"⟩ b n hS hT
        (by simp) hC
      exact ArgumentValue_handled Self Context PinName A b n _ V hV hs hc hn hi h0
        (by simp [IsHandledType, h7])
    rw [if_neg h7]
    rw [if_neg h7] at hC
    by_cases h8 : A.PinType.PinCategory.Equals PC_Text = true
    · rw [if_pos h8]
      rw [if_pos h8] at hC
      obtain ⟨V, hV, hs, hc, hn, hi⟩ := Convert_spec Functions Self Context MS A TypePin "String"
        UClass.UKismetStringLibrary ⟨"Conv_TextToString"⟩ ⟨"InText"⟩ ⟨"ArgumentValue"⟩ b n hS hT
        (by simp) hC
      exact ArgumentValue_handled Self Context PinName A b n _ V hV hs hc hn hi h0
        (by simp [IsHandledType, h8])
    rw [if_neg h8]
    rw [if_neg h8] at hC
    by_cases h9 : A.PinType.PinCategory.Equals PC_Object = true
    · rw [if_pos h9]
      rw [if_pos h9] at hC
      obtain ⟨V, hV, hs, hc, hn, hi⟩ := Convert_spec Functions Self Context MS A TypePin "String"
        UClass.UKismetStringLibrary ⟨"Conv_ObjectToString"⟩ ⟨"InObj"⟩ ⟨"ArgumentValue"⟩ b n hS hT
        (by simp) hC
      exact ArgumentValue_handled Self Context PinName A b n _ V hV hs hc hn hi h0
        (by simp [IsHandledType, h9])
    rw [if_neg h9]
    refine ⟨_, rfl, Or.inl rfl, ?_, le_refl _, hS⟩
    have hu : HasUnexpectedType A = true := by
      simp only [Bool.not_eq_true] at h1 h2 h3 h4 h5 h6 h7 h8 h9
      unfold HasUnexpectedType IsHandledType
      rw [h1, h2, h3, h4, h5, h6, h7, h8, h9]
      simp [h0]
    simp [hu]
  · rw [if_neg h0]
    have h1 := StructInv_TrySetDefaultValue b n MS.Pins TypePin "String" hS hT
    obtain ⟨T, hfind, hTid⟩ := StructInv_find b n _ h1 ⟨"ArgumentValue"⟩ (by simp)
    simp only [bind, Option.bind, hfind, pure]
    refine ⟨_, rfl, Or.inl rfl, ?_, le_refl _, StructInv_TrySetDefaultText b n _ T "" h1 hTid⟩
    have hu : HasUnexpectedType A = false := by
      simp [HasUnexpectedType, h0]
    simp [hu]

theorem eq_of_mem_of_Id (L : List UEdGraphPin) (hnd : (L.map (fun P => P.Id)).Nodup)
    (P Q : UEdGraphPin) (hP : P ∈ L) (hQ : Q ∈ L) (h : P.Id = Q.Id) : P = Q :=
  List.inj_on_of_nodup_map hnd hP hQ h

theorem find_ModifyPin (Pins : List UEdGraphPin) (Id : Nat) (g : UEdGraphPin → UEdGraphPin)
    (p : UEdGraphPin → Bool) (hp : ∀ P, p (g P) = p P) :
    (ModifyPin Pins Id g).find? p
      = (Pins.find? p).map (fun P => if P.Id == Id then g P else P) := by
  induction Pins with
  | nil => rfl
  | cons a L ih =>
    unfold ModifyPin at ih ⊢
    simp only [List.map_cons, List.find?_cons]
    have : p (if a.Id == Id then g a else a) = p a := by
      split
      · exact hp a
      · rfl
    rw [this]
    cases p a
    · simpa using ih
    · rfl

theorem ArrayInv_name (m k N : Nat) (AO : UEdGraphPin) (MA : UK2Node_MakeArray)
    (h : ArrayInv m k N AO MA) (hAO : AO.PinName = ⟨"Array"⟩) (P : UEdGraphPin)
    (hP : P ∈ MA.Pins) (j : Nat) (hj : P.PinName.Equals (ArrayPinName j) = true) :
    P.Direction = EGPD_Input ∧ P.PinName = ArrayPinName j ∧ j < m := by
  have hdir : P.Direction = EGPD_Input := by
    cases hd : P.Direction with
    | EGPD_Input => rfl
    | EGPD_Output =>
      have := h.outputs P hP hd
      rw [this, hAO, Array_not_ArrayPinName] at hj
      cases hj
  have hin : P ∈ MA.Inputs := by
    unfold UK2Node_MakeArray.Inputs
    rw [List.mem_filter]
    exact ⟨hP, by simp [hdir]⟩
  have hn : P.PinName ∈ (List.range m).map ArrayPinName := by
    rw [← h.inputs]
    exact List.mem_map_of_mem _ hin
  obtain ⟨i, hi, hie⟩ := List.mem_map.1 hn
  rw [← hie] at hj
  have := ArrayPinName_Equals i j hj
  subst this
  exact ⟨hdir, hie.symm, List.mem_range.1 hi⟩

theorem ArrayInv_mono (m k N N1 : Nat) (AO : UEdGraphPin) (MA : UK2Node_MakeArray)
    (h : ArrayInv m k N AO MA) (hN : N ≤ N1) : ArrayInv m k N1 AO MA :=
  { h with bound := fun P hP => lt_of_lt_of_le (h.bound P hP) hN }

theorem ArrayInv_AddInputPin (m k N : Nat) (AO : UEdGraphPin) (MA : UK2Node_MakeArray)
    (C : FKismetCompilerContext) (h : ArrayInv m k N AO MA) (hN : N ≤ C.NextPinId)
    (_hk : k ≤ m) :
    ArrayInv (m + 1) k (UK2Node_MakeArray.AddInputPin C MA).2.NextPinId AO
        (UK2Node_MakeArray.AddInputPin C MA).1
      ∧ (UK2Node_MakeArray.AddInputPin C MA).2.MessageLog = C.MessageLog
      ∧ C.NextPinId ≤ (UK2Node_MakeArray.AddInputPin C MA).2.NextPinId
      ∧ ∃ New, (UK2Node_MakeArray.AddInputPin C MA).1.Pins = MA.Pins ++ [New] := by
  simp only [UK2Node_MakeArray.AddInputPin, FKismetCompilerContext.NewPin]
  refine ⟨?_, trivial, Nat.le_succ _, _, rfl⟩
  constructor
  · simp [h.numInputs]
  · simp only [UK2Node_MakeArray.Inputs, List.filter_append, List.map_append, List.range_succ]
    congr 1
    · exact h.inputs
    · simp [h.numInputs]
  · intro P hP hd
    rcases List.mem_append.1 hP with hP | hP
    · exact h.outputs P hP hd
    · rw [List.mem_singleton.1 hP] at hd
      cases hd
  · exact List.mem_append_left _ h.arrayOut
  · simp only [List.map_append, List.map_cons, List.map_nil]
    rw [List.nodup_append]
    refine ⟨h.ids, List.nodup_singleton _, ?_⟩
    intro a ha hb
    rw [List.mem_singleton] at hb
    obtain ⟨P, hP, rfl⟩ := List.mem_map.1 ha
    have := h.bound P hP
    omega
  · intro P hP
    rcases List.mem_append.1 hP with hP | hP
    · have := h.bound P hP
      omega
    · rw [List.mem_singleton.1 hP]
      simp
  · intro P hP j hj hn
    rcases List.mem_append.1 hP with hP | hP
    · exact h.unlinked P hP j hj hn
    · rw [List.mem_singleton.1 hP]

theorem MakeLinkTo_fields (B P : UEdGraphPin) :
    (if P.LinkedTo.any (fun L => L.Id == B.Id) then P
      else { P with LinkedTo := P.LinkedTo ++ [{ Id := B.Id, PinType := B.PinType }] }).Id = P.Id
    ∧ (if P.LinkedTo.any (fun L => L.Id == B.Id) then P
      else { P with LinkedTo := P.LinkedTo ++ [{ Id := B.Id, PinType := B.PinType }] }).PinName
        = P.PinName
    ∧ (if P.LinkedTo.any (fun L => L.Id == B.Id) then P
      else { P with LinkedTo := P.LinkedTo ++ [{ Id := B.Id, PinType := B.PinType }] }).Direction
        = P.Direction := by
  split <;> exact ⟨rfl, rfl, rfl⟩

theorem ModifyPin_filter_map_name (Pins : List UEdGraphPin) (Id : Nat)
    (g : UEdGraphPin → UEdGraphPin)
    (hg : ∀ P, (g P).PinName = P.PinName ∧ (g P).Direction = P.Direction) :
    ((ModifyPin Pins Id g).filter (fun P => P.Direction == EGPD_Input)).map (fun P => P.PinName)
      = (Pins.filter (fun P => P.Direction == EGPD_Input)).map (fun P => P.PinName) := by
  induction Pins with
  | nil => rfl
  | cons a L ih =>
    unfold ModifyPin at ih ⊢
    have h1 : (if a.Id == Id then g a else a).Direction = a.Direction := by
      split
      · exact (hg a).2
      · rfl
    have h2 : (if a.Id == Id then g a else a).PinName = a.PinName := by
      split
      · exact (hg a).1
      · rfl
    simp only [List.map_cons, List.filter_cons, h1]
    split
    · simp only [List.map_cons, h2, ih]
    · exact ih

theorem ModifyPin_map_Id (Pins : List UEdGraphPin) (Id : Nat) (g : UEdGraphPin → UEdGraphPin)
    (hg : ∀ P, (g P).Id = P.Id) :
    (ModifyPin Pins Id g).map (fun P => P.Id) = Pins.map (fun P => P.Id) := by
  unfold ModifyPin
  rw [List.map_map]
  apply List.map_congr_left
  intro P _
  simp only [Function.comp]
  split
  · exact hg P
  · rfl

theorem ArrayInv_link (m k N : Nat) (AO : UEdGraphPin) (MA : UK2Node_MakeArray)
    (Out : UEdGraphPin) (h : ArrayInv m k N AO MA) (hAO : AO.PinName = ⟨"Array"⟩)
    (hk : k < m) :
    ∃ In, FindPinChecked MA.Pins (ArrayPinName k) = some In ∧ In.LinkedTo = []
      ∧ ArrayInv m (k + 1) N AO { MA with Pins := MakeLinkTo MA.Pins In Out }
      ∧ FindPinChecked (MakeLinkTo MA.Pins In Out) (ArrayPinName k)
          = some { In with LinkedTo := [{ Id := Out.Id, PinType := Out.PinType }] }
      ∧ ∀ i X, i ≠ k → FindPinChecked MA.Pins (ArrayPinName i) = some X →
          FindPinChecked (MakeLinkTo MA.Pins In Out) (ArrayPinName i) = some X := by
  -- the input `[k]` exists
  have hex : (FindPinChecked MA.Pins (ArrayPinName k)).isSome = true := by
    rw [FindPin_isSome_iff]
    have : ArrayPinName k ∈ MA.Inputs.map (fun P => P.PinName) := by
      rw [h.inputs]
      exact List.mem_map_of_mem _ (List.mem_range.2 hk)
    obtain ⟨P, hP, hPn⟩ := List.mem_map.1 this
    refine ⟨P, (List.mem_filter.1 hP).1, ?_⟩
    rw [hPn]
    simp [FName.Equals]
  obtain ⟨In, hIn⟩ := Option.isSome_iff_exists.1 hex
  obtain ⟨hInMem, hInName⟩ := FindPin_some_mem _ _ _ hIn
  have hInL : In.LinkedTo = [] := h.unlinked In hInMem k (le_refl _) hInName
  -- a pin with the address of `In` is `In`
  have hsame : ∀ P ∈ MA.Pins, P.Id = In.Id → P = In :=
    fun P hP e => eq_of_mem_of_Id MA.Pins h.ids P In hP hInMem e
  have hother : ∀ P ∈ MA.Pins, ∀ j, j ≠ k → P.PinName.Equals (ArrayPinName j) = true →
      (P.Id == In.Id) = false := by
    intro P hP j hj hn
    by_contra hc
    simp only [Bool.not_eq_false, beq_iff_eq] at hc
    rw [hsame P hP hc] at hn
    exact hj (ArrayPinName_Equals j k (FName_Equals_trans_left _ _ _ hn hInName))
  have hAOid : (AO.Id == In.Id) = false := by
    by_contra hc
    simp only [Bool.not_eq_false, beq_iff_eq] at hc
    have := hsame AO h.arrayOut hc
    rw [← this, hAO, Array_not_ArrayPinName] at hInName
    cases hInName
  have hfind : ∀ n : FName, FindPinChecked (MakeLinkTo MA.Pins In Out) n
      = (FindPinChecked MA.Pins n).map (fun P => if P.Id == In.Id then
          (if P.LinkedTo.any (fun L => L.Id == Out.Id) then P
           else { P with LinkedTo := P.LinkedTo ++ [{ Id := Out.Id, PinType := Out.PinType }] })
          else P) := by
    intro n
    unfold FindPinChecked FindPin MakeLinkTo
    apply find_ModifyPin
    intro P
    simp only [Option.isNone_none, Bool.true_or, Bool.and_true]
    rw [(MakeLinkTo_fields Out P).2.1]
  refine ⟨In, hIn, hInL, ?_, ?_, ?_⟩
  · constructor
    · exact h.numInputs
    · rw [← h.inputs]
      exact ModifyPin_filter_map_name _ _ _ (fun P =>
        ⟨(MakeLinkTo_fields Out P).2.1, (MakeLinkTo_fields Out P).2.2⟩)
    · intro P hP hd
      obtain ⟨P0, hP0, rfl⟩ := (mem_ModifyPin _ _ _ _).1 hP
      have hd0 : P0.Direction = EGPD_Output := by
        split at hd
        · rw [← (MakeLinkTo_fields Out P0).2.2]; exact hd
        · exact hd
      have := h.outputs P0 hP0 hd0
      subst this
      rw [hAOid]
      rfl
    · refine (mem_ModifyPin _ _ _ _).2 ⟨AO, h.arrayOut, ?_⟩
      rw [hAOid]
      rfl
    · show ((MakeLinkTo MA.Pins In Out).map (fun P => P.Id)).Nodup
      unfold MakeLinkTo
      rw [ModifyPin_map_Id _ _ _ (fun P => (MakeLinkTo_fields Out P).1)]
      exact h.ids
    · intro P hP
      obtain ⟨P0, hP0, rfl⟩ := (mem_ModifyPin _ _ _ _).1 hP
      have hb := h.bound P0 hP0
      split
      · rw [(MakeLinkTo_fields Out P0).1]; exact hb
      · exact hb
    · intro P hP j hj hn
      obtain ⟨P0, hP0, rfl⟩ := (mem_ModifyPin _ _ _ _).1 hP
      have hn0 : P0.PinName.Equals (ArrayPinName j) = true := by
        split at hn
        · rw [← (MakeLinkTo_fields Out P0).2.1]; exact hn
        · exact hn
      rw [hother P0 hP0 j (by omega) hn0]
      exact h.unlinked P0 hP0 j (by omega) hn0
  · rw [hfind, hIn]
    simp [hInL]
  · intro i X hi hX
    rw [hfind, hX]
    obtain ⟨hXm, hXn⟩ := FindPin_some_mem _ _ _ hX
    simp only [Option.map_some', hother X hXm i hi hXn, Bool.false_eq_true, if_false]

theorem LinksMoved_fields (f : Nat) (P Q : UEdGraphPin) (h : LinksMoved f P Q) :
    Q.Id = P.Id ∧ Q.PinName = P.PinName ∧ Q.Direction = P.Direction ∧ Q.PinType = P.PinType := by
  rcases h with rfl | ⟨rfl, _⟩ <;> exact ⟨rfl, rfl, rfl, rfl⟩

theorem Forall₂_find {R : UEdGraphPin → UEdGraphPin → Prop} (p : UEdGraphPin → Bool)
    (L L1 : List UEdGraphPin) (h : List.Forall₂ R L L1) (hp : ∀ P Q, R P Q → p Q = p P)
    (P : UEdGraphPin) (hP : L.find? p = some P) : ∃ Q, L1.find? p = some Q ∧ R P Q := by
  induction h with
  | nil => simp at hP
  | @cons a b l l1 hab _ ih =>
    simp only [List.find?_cons] at hP ⊢
    rw [hp a b hab]
    cases hpa : p a with
    | true =>
      rw [hpa] at hP
      simp only [Option.some.injEq] at hP
      subst hP
      exact ⟨b, rfl, hab⟩
    | false =>
      rw [hpa] at hP
      exact ih hP

theorem Forall₂_map_right {R : UEdGraphPin → UEdGraphPin → Prop} (u : UEdGraphPin → UEdGraphPin)
    (L L1 : List UEdGraphPin) (h : List.Forall₂ R L L1)
    (hu : ∀ P Q, P ∈ L → R P Q → R P (u Q)) : List.Forall₂ R L (L1.map u) := by
  induction h with
  | nil => exact List.Forall₂.nil
  | @cons a b l l1 hab _ ih =>
    simp only [List.map_cons]
    refine List.Forall₂.cons (hu a b (List.mem_cons_self _ _) hab) (ih ?_)
    intro P Q hP hR
    exact hu P Q (List.mem_cons_of_mem _ hP) hR

theorem LinksMoved_move (f : Nat) (L L1 : List UEdGraphPin)
    (hF : List.Forall₂ (LinksMoved f) L L1) (hnd : (L.map (fun P => P.Id)).Nodup)
    (P Q : UEdGraphPin) (hP : P ∈ L) (hPQ : LinksMoved f P Q) (hQl : Q.LinkedTo ≠ [])
    (hid : P.Id ≠ f) (hdir : P.Direction = EGPD_Input) (hh : IsHandledType Q.PinType = true) :
    List.Forall₂ (LinksMoved f) L (MovePinLinksToIntermediate_Source L1 Q) := by
  unfold MovePinLinksToIntermediate_Source ModifyPin
  apply Forall₂_map_right _ _ _ hF
  intro P1 Q1 hP1 hR
  have hQP : Q = P := by
    rcases hPQ with h | ⟨h, _⟩
    · exact h
    · rw [h] at hQl; exact absurd rfl hQl
  subst hQP
  by_cases e : Q1.Id = Q.Id
  · have hPP : P1 = Q :=
      eq_of_mem_of_Id L hnd P1 Q hP1 hP (by rw [← (LinksMoved_fields f P1 Q1 hR).1, e])
    subst hPP
    simp only [e, beq_self_eq_true, if_true]
    right
    refine ⟨?_, hid, hdir, hQl, hh⟩
    rcases hR with rfl | ⟨rfl, _⟩ <;> rfl
  · have : (Q1.Id == Q.Id) = false := by simpa using e
    simp only [this, Bool.false_eq_true, if_false]
    exact hR

theorem ConversionResolves_cleared (Functions : List UFunction) (P : UEdGraphPin) :
    ConversionResolves Functions { P with LinkedTo := [] } = true := by
  simp [ConversionResolves, RequiredConversion]

theorem HasUnexpectedType_cleared (P : UEdGraphPin) :
    HasUnexpectedType { P with LinkedTo := [] } = false := by
  simp [HasUnexpectedType]

theorem MakeStruct_init (C : FKismetCompilerContext) (T : Option FName) (v : String) :
    ∃ NamePin TypePin,
      FindPinChecked (UK2Node_MakeStruct.AllocateDefaultPins C { StructType := T }).1.Pins
          ⟨"ArgumentName"⟩ = some NamePin
      ∧ FindPinChecked (TrySetDefaultValue
          (UK2Node_MakeStruct.AllocateDefaultPins C { StructType := T }).1.Pins NamePin v)
          ⟨"ArgumentValueType"⟩ = some TypePin
      ∧ C.NextPinId + 2 ≤ TypePin.Id
      ∧ StructInv C.NextPinId v (TrySetDefaultValue
          (UK2Node_MakeStruct.AllocateDefaultPins C { StructType := T }).1.Pins NamePin v)
      ∧ (UK2Node_MakeStruct.AllocateDefaultPins C { StructType := T }).2
          = { C with NextPinId := C.NextPinId + 7 } := by
  have hS : StructInv C.NextPinId v (TrySetDefaultValue
      (UK2Node_MakeStruct.AllocateDefaultPins C { StructType := T }).1.Pins
      (UEdGraphPin.mk (C.NextPinId + 1) ⟨"ArgumentName"⟩ EGPD_Input { PinCategory := PC_String }
        "" "" [] false) v) := by
    refine ⟨[UEdGraphPin.mk (C.NextPinId + 2) ⟨"ArgumentValueType"⟩ EGPD_Input
               { PinCategory := PC_Byte } "" "" [] false,
             UEdGraphPin.mk (C.NextPinId + 3) ⟨"ArgumentValue"⟩ EGPD_Input
               { PinCategory := PC_String } "" "" [] false,
             UEdGraphPin.mk (C.NextPinId + 4) ⟨"ArgumentValueInt"⟩ EGPD_Input
               { PinCategory := PC_Int } "" "" [] false,
             UEdGraphPin.mk (C.NextPinId + 5) ⟨"ArgumentValueInt64"⟩ EGPD_Input
               { PinCategory := PC_Int64 } "" "" [] false,
             UEdGraphPin.mk (C.NextPinId + 6) ⟨"ArgumentValueFloat"⟩ EGPD_Input
               { PinCategory := PC_Float } "" "" [] false], ?_, rfl⟩
    simp [UK2Node_MakeStruct.AllocateDefaultPins, FKismetCompilerContext.NewPin,
      UK2Node_MakeStruct.MemberPins, FSiriusStringFormatArgument_Members, TrySetDefaultValue,
      ModifyPin, StructHeadPins, Nat.add_assoc]
  have hT := StructInv_find _ _ _ hS ⟨"ArgumentValueType"⟩ (Or.inl rfl)
  obtain ⟨TypePin, hTP, hTid⟩ := hT
  exact ⟨_, TypePin, rfl, hTP, hTid, hS, rfl⟩

theorem StructInv_linkOut (b : Nat) (v : String) (Pins : List UEdGraphPin) (In : UEdGraphPin)
    (h : StructInv b v Pins) :
    (MakeLinkTo Pins (UEdGraphPin.mk b ⟨"SiriusStringFormatArgument"⟩ EGPD_Output
        { PinCategory := PC_Struct } "" "" [] false) In).find?
        (fun Pin => Pin.Direction == EGPD_Output)
      = some (UEdGraphPin.mk b ⟨"SiriusStringFormatArgument"⟩ EGPD_Output
          { PinCategory := PC_Struct } "" "" [{ Id := In.Id, PinType := In.PinType }] false)
    ∧ FindPinChecked (MakeLinkTo Pins (UEdGraphPin.mk b ⟨"SiriusStringFormatArgument"⟩ EGPD_Output
        { PinCategory := PC_Struct } "" "" [] false) In) ⟨"ArgumentName"⟩
      = some (UEdGraphPin.mk (b + 1) ⟨"ArgumentName"⟩ EGPD_Input { PinCategory := PC_String }
          v "" [] false) := by
  obtain ⟨Tail, rfl, _⟩ := h
  unfold MakeLinkTo
  rw [ModifyPin_append]
  have hhead : ModifyPin (StructHeadPins b v) b (fun P =>
      if P.LinkedTo.any (fun L => L.Id == In.Id) then P
      else { P with LinkedTo := P.LinkedTo ++ [{ Id := In.Id, PinType := In.PinType }] })
      = [UEdGraphPin.mk b ⟨"SiriusStringFormatArgument"⟩ EGPD_Output
          { PinCategory := PC_Struct } "" "" [{ Id := In.Id, PinType := In.PinType }] false,
         UEdGraphPin.mk (b + 1) ⟨"ArgumentName"⟩ EGPD_Input { PinCategory := PC_String }
          v "" [] false] := by
    simp [ModifyPin, StructHeadPins]
  rw [hhead]
  exact ⟨rfl, rfl⟩

theorem ArrayInv_pre (k N : Nat) (AO : UEdGraphPin) (MA : UK2Node_MakeArray)
    (C : FKismetCompilerContext) (h : ArrayInv (max 1 k) k N AO MA) (hN : N ≤ C.NextPinId) :
    ArrayInv (k + 1) k
        (if k > 0 then UK2Node_MakeArray.AddInputPin C MA else (MA, C)).2.NextPinId AO
        (if k > 0 then UK2Node_MakeArray.AddInputPin C MA else (MA, C)).1
      ∧ (if k > 0 then UK2Node_MakeArray.AddInputPin C MA else (MA, C)).2.MessageLog
          = C.MessageLog
      ∧ ∀ n Y, FindPinChecked MA.Pins n = some Y →
          FindPinChecked (if k > 0 then UK2Node_MakeArray.AddInputPin C MA else (MA, C)).1.Pins n
            = some Y := by
  by_cases hk : k > 0
  · simp only [hk, if_true]
    have hm : max 1 k = k := by omega
    rw [hm] at h
    obtain ⟨h1, h2, _, New, h4⟩ := ArrayInv_AddInputPin k k N AO MA C h hN (le_refl _)
    refine ⟨h1, h2, ?_⟩
    intro n Y hY
    rw [h4]
    unfold FindPinChecked FindPin at hY ⊢
    rw [List.find?_append, hY]
    rfl
  · simp only [hk, if_false]
    have hk0 : k = 0 := by omega
    subst hk0
    exact ⟨ArrayInv_mono _ _ _ _ _ _ h hN, trivial, fun _ _ hY => hY⟩

theorem UnexpectedTypeErrors_append (f : Nat) (Pins : List UEdGraphPin) (Done : List FName)
    (PinName : FName) (P : UEdGraphPin)
    (hP : Pins.find? (IsArgumentPinNamed f PinName) = some P) :
    UnexpectedTypeErrors f Pins (Done ++ [PinName])
      = UnexpectedTypeErrors f Pins Done ++
          (if HasUnexpectedType P then [Error_UnexpectedPinType PinName P.PinType.PinCategory]
           else []) := by
  unfold UnexpectedTypeErrors
  rw [List.filterMap_append]
  congr 1
  cases h : HasUnexpectedType P <;> simp [List.filterMap_cons, hP, h]

theorem Argument_step (Functions : List UFunction) (s : Node) (f : Nat)
    (C0 : FKismetCompilerContext) (AO : UEdGraphPin) (Done : List FName) (PinName : FName)
    (st : FExpandState) (hinv : LoopInv s f C0 AO Done st)
    (hnd : (s.Pins.map (fun P => P.Id)).Nodup) (hAO : AO.PinName = ⟨"Array"⟩)
    (P : UEdGraphPin) (hP : s.Pins.find? (IsArgumentPinNamed f PinName) = some P)
    (hC : ConversionResolves Functions P = true) :
    ∃ st1, ExpandNode_Argument Functions Done.length PinName st = some st1
      ∧ LoopInv s f C0 AO (Done ++ [PinName]) st1 := by
  -- the argument pin as it is now
  have hFA : FindArgumentPin st.Self PinName
      = some (st.Self.Pins.find? (IsArgumentPinNamed f PinName),
              { st.Self with CachedFormatPin := some f }) := by
    simp [FindArgumentPin, hinv.format]
  obtain ⟨Q, hQ, hPQ⟩ := Forall₂_find (IsArgumentPinNamed f PinName) _ _ hinv.pins
    (by
      intro P1 Q1 h
      obtain ⟨h1, h2, h3, _⟩ := LinksMoved_fields f P1 Q1 h
      simp only [IsArgumentPinNamed, h1, h2, h3]) P hP
  have hPmem : P ∈ s.Pins := List.mem_of_find?_eq_some hP
  have hPp : IsArgumentPinNamed f PinName P = true := List.find?_some hP
  simp only [IsArgumentPinNamed, Bool.and_eq_true, bne_iff_ne, ne_eq, beq_iff_eq] at hPp
  obtain ⟨⟨hPid, hPdir⟩, hPname⟩ := hPp
  have hPdir : P.Direction = EGPD_Input := by
    cases hd : P.Direction with
    | EGPD_Input => rfl
    | EGPD_Output => exact absurd hd hPdir
  obtain ⟨hQid, hQname, hQdir, hQtype⟩ := LinksMoved_fields f P Q hPQ
  -- the make-struct node
  obtain ⟨NamePin, TypePin, hNP, hTP, hTid, hS, hCtx⟩ := MakeStruct_init st.CompilerContext
    (some ⟨"SiriusStringFormatArgument"⟩) Q.PinName.ToString
  have hCQ : ConversionResolves Functions Q = true := by
    rcases hPQ with h | ⟨h, _⟩
    · rw [h]; exact hC
    · rw [h]; exact ConversionResolves_cleared Functions P
  obtain ⟨V, hV, hVself, hVlog, hVn, hVS⟩ := ArgumentValue_spec Functions
    { st.Self with CachedFormatPin := some f }
    (UK2Node_MakeStruct.AllocateDefaultPins st.CompilerContext
      { StructType := some ⟨"SiriusStringFormatArgument"⟩ }).2
    { StructType := some ⟨"SiriusStringFormatArgument"⟩, bMadeAfterOverridePinRemoval := true,
      Pins := TrySetDefaultValue (UK2Node_MakeStruct.AllocateDefaultPins st.CompilerContext
        { StructType := some ⟨"SiriusStringFormatArgument"⟩ }).1.Pins NamePin Q.PinName.ToString }
    PinName Q TypePin st.CompilerContext.NextPinId Q.PinName.ToString hS hTid hCQ
  -- the make-array node
  have hVn2 : st.CompilerContext.NextPinId ≤ V.CompilerContext.NextPinId := by
    rw [hCtx] at hVn
    simp only at hVn
    omega
  obtain ⟨hA1, hLog1, hPers1⟩ := ArrayInv_pre Done.length _ AO st.MakeArrayNode
    V.CompilerContext hinv.array hVn2
  obtain ⟨hOut, hName⟩ := StructInv_head _ _ _ hVS
  obtain ⟨In, hIn, hInL, hA2, hInNew, hPers2⟩ := ArrayInv_link (Done.length + 1) Done.length _ AO _
    (UEdGraphPin.mk st.CompilerContext.NextPinId ⟨"SiriusStringFormatArgument"⟩ EGPD_Output
      { PinCategory := PC_Struct } "" "" [] false) hA1 hAO (Nat.lt_succ_self _)
  have hOut2 : V.MakeFormatArgumentDataStruct.Pins.find? (fun Pin => Pin.Direction == EGPD_Output)
      = some (UEdGraphPin.mk st.CompilerContext.NextPinId ⟨"SiriusStringFormatArgument"⟩
          EGPD_Output { PinCategory := PC_Struct } "" "" [] false) := hOut
  have hST : (UK2Node_MakeStruct.AllocateDefaultPins st.CompilerContext
      { StructType := some ⟨"SiriusStringFormatArgument"⟩ }).1.StructType
      = some ⟨"SiriusStringFormatArgument"⟩ := rfl
  simp only [ExpandNode_Argument, bind, Option.bind, hFA, hQ, hNP, hTP, hST, hV, hIn, hOut2, pure]
  refine ⟨_, rfl, ?_⟩
  have hlen : (Done ++ [PinName]).length = Done.length + 1 := by simp
  have hmax : max 1 (Done.length + 1) = Done.length + 1 := by omega
  constructor
  · -- format
    have hc : V.Self.CachedFormatPin = some f := by
      rcases hVself with h | ⟨h, _⟩ <;> rw [h]
    have := GetFormatPin_cached V.Self f hc
    rw [this]
    congr 2
    rcases hVself with h | ⟨h, _⟩ <;> rw [h]
  · -- pins
    rcases hVself with h | ⟨h, hl, hh⟩
    · rw [h]; exact hinv.pins
    · rw [h]
      exact LinksMoved_move f s.Pins st.Self.Pins hinv.pins hnd P Q hPmem hPQ hl hPid hPdir hh
  · -- log
    simp only [hLog1, hVlog, hCtx, hinv.log]
    rw [UnexpectedTypeErrors_append f s.Pins Done PinName P hP, List.append_assoc]
    congr 2
    rcases hPQ with h | ⟨h, _, _, hl, hh⟩
    · rw [h]
    · have h1 : HasUnexpectedType Q = false := by rw [h]; exact HasUnexpectedType_cleared P
      have h2 : HasUnexpectedType P = false := by simp [HasUnexpectedType, hh]
      rw [h1, h2]
      rfl
  · -- array
    rw [hlen, hmax]
    exact hA2
  · -- count
    simp [hinv.count]
  · -- args
    intro i nm hi
    by_cases hik : i < Done.length
    · rw [List.getElem?_append_left hik] at hi
      obtain ⟨Arg, In0, Out0, N0, h1, h2, h3, h4, h5, h6, h7⟩ := hinv.args i nm hi
      refine ⟨Arg, In0, Out0, N0, ?_, ?_, h3, h4, h5, h6, h7⟩
      · rw [List.getElem?_append_left (by rw [hinv.count]; exact hik)]
        exact h1
      · exact hPers2 i In0 (by omega) (hPers1 _ _ h2)
    · have hik2 : i = Done.length := by
        by_contra hne
        have : (Done ++ [PinName]).length ≤ i := by rw [hlen]; omega
        rw [List.getElem?_eq_none this] at hi
        cases hi
      subst hik2
      have hnm : nm = PinName := by
        simpa using hi.symm
      subst hnm
      obtain ⟨hO, hN⟩ := StructInv_linkOut st.CompilerContext.NextPinId Q.PinName.ToString
        V.MakeFormatArgumentDataStruct.Pins In hVS
      refine ⟨FArgumentNodes.mk (UK2Node_MakeStruct.mk V.MakeFormatArgumentDataStruct.StructType
          V.MakeFormatArgumentDataStruct.bMadeAfterOverridePinRemoval
          (MakeLinkTo V.MakeFormatArgumentDataStruct.Pins
            (UEdGraphPin.mk st.CompilerContext.NextPinId ⟨"SiriusStringFormatArgument"⟩ EGPD_Output
              { PinCategory := PC_Struct } "" "" [] false) In)) V.ConversionFunction,
        { In with LinkedTo := [⟨st.CompilerContext.NextPinId, { PinCategory := PC_Struct }⟩] },
        UEdGraphPin.mk st.CompilerContext.NextPinId ⟨"SiriusStringFormatArgument"⟩ EGPD_Output
          { PinCategory := PC_Struct } "" "" [{ Id := In.Id, PinType := In.PinType }] false,
        UEdGraphPin.mk (st.CompilerContext.NextPinId + 1) ⟨"ArgumentName"⟩ EGPD_Input
          { PinCategory := PC_String } Q.PinName.ToString "" [] false,
        ?_, hInNew, hO, rfl, rfl, hN, ?_⟩
      · rw [← hinv.count]
        simp
      · show Q.PinName.ToString = nm.ToString
        rw [hQname]
        exact hPname

theorem Loop_spec (Functions : List UFunction) (s : Node) (f : Nat)
    (C0 : FKismetCompilerContext) (AO : UEdGraphPin)
    (hnd : (s.Pins.map (fun P => P.Id)).Nodup) (hAO : AO.PinName = ⟨"Array"⟩) :
    ∀ (Rest Done : List FName) (st : FExpandState), LoopInv s f C0 AO Done st →
      (∀ PinName ∈ Rest, ∃ P, s.Pins.find? (IsArgumentPinNamed f PinName) = some P
        ∧ ConversionResolves Functions P = true) →
      ∃ st1, ExpandNode_Loop Functions Done.length Rest st = some st1
        ∧ LoopInv s f C0 AO (Done ++ Rest) st1 := by
  intro Rest
  induction Rest with
  | nil =>
    intro Done st hinv _
    exact ⟨st, rfl, by rw [List.append_nil]; exact hinv⟩
  | cons PinName Rest ih =>
    intro Done st hinv hargs
    obtain ⟨P, hP, hC⟩ := hargs PinName (List.mem_cons_self _ _)
    obtain ⟨st1, h1, hinv1⟩ := Argument_step Functions s f C0 AO Done PinName st hinv hnd hAO P hP hC
    obtain ⟨st2, h2, hinv2⟩ := ih (Done ++ [PinName]) st1 hinv1
      (fun n hn => hargs n (List.mem_cons_of_mem _ hn))
    refine ⟨st2, ?_, ?_⟩
    · simp only [ExpandNode_Loop, h1]
      rw [← h2]
      simp
    · rw [List.append_assoc] at hinv2
      exact hinv2

theorem ArgumentsExpand_spec (Functions : List UFunction) (f : Nat) (s : Node)
    (h : ArgumentsExpand Functions f s = true) :
    ∀ PinName ∈ s.PinNames, ∃ P, s.Pins.find? (IsArgumentPinNamed f PinName) = some P
      ∧ ConversionResolves Functions P = true := by
  intro PinName hn
  unfold ArgumentsExpand at h
  rw [List.all_eq_true] at h
  have := h PinName hn
  cases hf : s.Pins.find? (IsArgumentPinNamed f PinName) with
  | none => rw [hf] at this; cases this
  | some P => rw [hf] at this; exact ⟨P, rfl, this⟩

theorem Begin_names :
    (⟨"Array"⟩ : FName).Equals ⟨"Array"⟩ = true
    ∧ (ArrayPinName 0).Equals ⟨"Array"⟩ = false
    ∧ (⟨"InPattern"⟩ : FName).Equals ⟨"InArgs"⟩ = false
    ∧ (⟨"InArgs"⟩ : FName).Equals ⟨"InArgs"⟩ = true
    ∧ (⟨"InPattern"⟩ : FName).Equals ⟨"ReturnValue"⟩ = false
    ∧ (⟨"InArgs"⟩ : FName).Equals ⟨"ReturnValue"⟩ = false
    ∧ (⟨"ReturnValue"⟩ : FName).Equals ⟨"ReturnValue"⟩ = true
    ∧ (⟨"InPattern"⟩ : FName).Equals ⟨"InPattern"⟩ = true := by
  decide

theorem Begin_spec (Functions : List UFunction) (C : FKismetCompilerContext)
    (hFun : (FindFunctionByName Functions UClass.USiriusStringLibrary ⟨"Format"⟩).map
      (fun F => F.Parameters) = some [⟨"InPattern"⟩, ⟨"InArgs"⟩]) :
    ∃ (AO In0 IP IA RV : UEdGraphPin) (F : Option UFunction) (C1 : FKismetCompilerContext),
      ExpandNode_Begin Functions C = some (⟨1, [AO, In0]⟩, ⟨F, [IP, IA, RV]⟩, C1)
      ∧ C1.MessageLog = C.MessageLog
      ∧ AO.Id < C1.NextPinId ∧ In0.Id < C1.NextPinId ∧ AO.Id ≠ In0.Id
      ∧ AO.PinName = ⟨"Array"⟩ ∧ AO.Direction = EGPD_Output
      ∧ In0.PinName = ArrayPinName 0 ∧ In0.Direction = EGPD_Input ∧ In0.LinkedTo = []
      ∧ IP.PinName = ⟨"InPattern"⟩ ∧ IA.PinName = ⟨"InArgs"⟩ ∧ RV.PinName = ⟨"ReturnValue"⟩
      ∧ IP.Id ≠ RV.Id ∧ IA.Id ≠ RV.Id ∧ IP.Id ≠ IA.Id
      ∧ IP.LinkedTo = [] ∧ RV.LinkedTo = []
      ∧ IA.LinkedTo.map (fun L => L.Id) = [AO.Id]
      ∧ AO.LinkedTo.map (fun L => L.Id) = [IA.Id] := by
  obtain ⟨n1, n2, n3, n4, n5, n6, n7, n8⟩ := Begin_names
  cases hF : FindFunctionByName Functions UClass.USiriusStringLibrary ⟨"Format"⟩ with
  | none => rw [hF] at hFun; simp at hFun
  | some F =>
    rw [hF] at hFun
    simp only [Option.map_some', Option.some.injEq] at hFun
    simp [ExpandNode_Begin, hF, hFun, UK2Node_MakeArray.AllocateDefaultPins,
      FKismetCompilerContext.NewPin, FKismetCompilerContext.NewInputPins,
      UK2Node_MakeArray.GetOutputPin, UK2Node_CallFunction.SetFromFunction,
      UK2Node_CallFunction.AllocateDefaultPins, MakeLinkTo, ModifyPin,
      UK2Node_MakeArray.PinConnectionListChanged, FindPin, FindPinChecked, List.find?,
      n1, n2, n3, n4, n5, n6, n7, n8]
    refine ⟨_, _, _, _, _, _, _, ⟨⟨rfl, rfl⟩, ⟨rfl, rfl, rfl, rfl⟩, rfl⟩, ?_⟩
    simp
    omega

theorem ArrayInv_init (AO In0 : UEdGraphPin) (N : Nat) (h1 : AO.Id < N) (h2 : In0.Id < N)
    (h3 : AO.Id ≠ In0.Id) (h4 : AO.PinName = ⟨"Array"⟩) (h5 : AO.Direction = EGPD_Output)
    (h6 : In0.PinName = ArrayPinName 0) (h7 : In0.Direction = EGPD_Input)
    (h8 : In0.LinkedTo = []) :
    ArrayInv (max 1 0) 0 N AO ⟨1, [AO, In0]⟩ := by
  constructor
  · rfl
  · have e1 : (EGPD_Output == EGPD_Input) = false := by decide
    have e2 : (EGPD_Input == EGPD_Input) = true := by decide
    simp only [UK2Node_MakeArray.Inputs, List.filter, h5, h7, e1, e2, List.map_cons, List.map_nil,
      h6]
    rfl
  · intro P hP hd
    simp only [List.mem_cons, List.mem_singleton, List.not_mem_nil, or_false] at hP
    rcases hP with rfl | rfl
    · rfl
    · rw [h7] at hd; cases hd
  · exact List.mem_cons_self _ _
  · simp [h3]
  · intro P hP
    simp only [List.mem_cons, List.mem_singleton, List.not_mem_nil, or_false] at hP
    rcases hP with rfl | rfl
    · exact h1
    · exact h2
  · intro P hP j _ hj
    simp only [List.mem_cons, List.mem_singleton, List.not_mem_nil, or_false] at hP
    rcases hP with rfl | rfl
    · rw [h4, Array_not_ArrayPinName] at hj; cases hj
    · exact h8

theorem BreakAllNodeLinks_ModifyPin (L : List UEdGraphPin) (Id : Nat) :
    BreakAllNodeLinks (ModifyPin L Id (fun P => { P with LinkedTo := [] }))
      = BreakAllNodeLinks L := by
  unfold BreakAllNodeLinks ModifyPin
  rw [List.map_map]
  apply List.map_congr_left
  intro P _
  simp only [Function.comp]
  split <;> rfl

theorem BreakAllNodeLinks_LinksMoved (f : Nat) (L L1 : List UEdGraphPin)
    (h : List.Forall₂ (LinksMoved f) L L1) : BreakAllNodeLinks L1 = BreakAllNodeLinks L := by
  induction h with
  | nil => rfl
  | @cons a b l l1 hab _ ih =>
    unfold BreakAllNodeLinks at ih ⊢
    simp only [List.map_cons]
    rw [ih]
    congr 1
    rcases hab with rfl | ⟨rfl, _⟩ <;> rfl

theorem End_spec (s : Node) (f : Nat) (C0 : FKismetCompilerContext) (AO : UEdGraphPin)
    (Done : List FName) (st : FExpandState) (FP R IP IA RV : UEdGraphPin)
    (Fn : Option UFunction) (hinv : LoopInv s f C0 AO Done st)
    (hFP : s.Pins.find? (fun P => P.Id == f) = some FP)
    (hR : FindPinChecked s.Pins ⟨"Result"⟩ = some R) (hRo : R.Direction = EGPD_Output)
    (hRf : R.Id ≠ f)
    (hIP : IP.PinName = ⟨"InPattern"⟩) (hIA : IA.PinName = ⟨"InArgs"⟩)
    (hRV : RV.PinName = ⟨"ReturnValue"⟩)
    (h1 : IP.Id ≠ RV.Id) (h2 : IA.Id ≠ RV.Id) (h3 : IP.Id ≠ IA.Id) :
    ∃ r, ExpandNode_End st ⟨Fn, [IP, IA, RV]⟩ = some r
      ∧ r.Self.Pins = BreakAllNodeLinks s.Pins
      ∧ r.CompilerContext = st.CompilerContext
      ∧ r.MakeArrayNode = st.MakeArrayNode
      ∧ r.Arguments = st.Arguments
      ∧ r.CallFormatFunction.Pins =
        [ { IP with LinkedTo := IP.LinkedTo ++ FP.LinkedTo, DefaultValue := FP.DefaultValue,
                    DefaultTextValue := FP.DefaultTextValue },
          IA,
          { RV with LinkedTo := RV.LinkedTo ++ R.LinkedTo, DefaultValue := R.DefaultValue,
                    DefaultTextValue := R.DefaultTextValue } ] := by
  obtain ⟨n1, n2, n3, n4, n5, n6, n7, n8⟩ := Begin_names
  have hFPid : FP.Id = f := by
    have := List.find?_some hFP
    simpa using this
  -- the result pin as it is now
  have hR1 : FindPinChecked st.Self.Pins ⟨"Result"⟩ = some R := by
    obtain ⟨Q, hQ, hRQ⟩ := Forall₂_find
      (fun Pin => Pin.PinName.Equals ⟨"Result"⟩
        && ((none : Option EEdGraphPinDirection).isNone || none == some Pin.Direction))
      _ _ hinv.pins
      (by
        intro P1 Q1 h
        obtain ⟨_, e2, e3, _⟩ := LinksMoved_fields f P1 Q1 h
        simp only [e2, e3]) R hR
    have : Q = R := by
      rcases hRQ with h | ⟨_, _, h, _⟩
      · exact h
      · rw [hRo] at h; cases h
    rw [← this]
    exact hQ
  have hRet : UK2Node_CallFunction.GetReturnValuePin ⟨Fn, [IP, IA, RV]⟩ = some RV := by
    simp [UK2Node_CallFunction.GetReturnValuePin, FindPin, List.find?, hIP, hIA, hRV, n5, n6, n7]
  -- the format pin as it is now
  have hFmt : GetFormatPin { st.Self with
        Pins := MovePinLinksToIntermediate_Source st.Self.Pins R }
      = some (f, { st.Self with CachedFormatPin := some f,
                                Pins := MovePinLinksToIntermediate_Source st.Self.Pins R }) := by
    have hf := hinv.format
    unfold GetFormatPin at hf ⊢
    cases hc : st.Self.CachedFormatPin with
    | some c =>
      rw [hc] at hf
      simp only [Option.some.injEq, Prod.mk.injEq] at hf
      simp only [hc, hf.1]
    | none =>
      rw [hc] at hf
      simp only at hf ⊢
      unfold MovePinLinksToIntermediate_Source FindPin
      rw [find_ModifyPin st.Self.Pins R.Id (fun P => { P with LinkedTo := [] })
        (fun Pin => Pin.PinName.Equals ⟨"Format"⟩
          && ((none : Option EEdGraphPinDirection).isNone || none == some Pin.Direction))
        (fun _ => rfl)]
      unfold FindPin at hf
      cases hp : st.Self.Pins.find? (fun Pin => Pin.PinName.Equals ⟨"Format"⟩
        && ((none : Option EEdGraphPinDirection).isNone || none == some Pin.Direction)) with
      | none => rw [hp] at hf; cases hf
      | some p =>
        rw [hp] at hf
        simp only [Option.some.injEq, Prod.mk.injEq] at hf
        simp only [Option.map_some']
        have : (if p.Id == R.Id then { p with LinkedTo := [] } else p).Id = f := by
          split <;> exact hf.1
        rw [this]
  have hFO : (MovePinLinksToIntermediate_Source st.Self.Pins R).find? (fun P => P.Id == f)
      = some FP := by
    unfold MovePinLinksToIntermediate_Source
    rw [find_ModifyPin st.Self.Pins R.Id (fun P => { P with LinkedTo := [] })
      (fun P => P.Id == f) (fun _ => rfl)]
    obtain ⟨Q, hQ, hFQ⟩ := Forall₂_find (fun P => P.Id == f) _ _ hinv.pins
      (by
        intro P1 Q1 h
        obtain ⟨e1, _⟩ := LinksMoved_fields f P1 Q1 h
        simp only [e1]) FP hFP
    have : Q = FP := by
      rcases hFQ with h | ⟨_, h, _⟩
      · exact h
      · exact absurd hFPid h
    rw [hQ, this]
    have : (FP.Id == R.Id) = false := by
      rw [hFPid]
      simpa using fun h => hRf h.symm
    simp only [Option.map_some', this, Bool.false_eq_true, if_false]
  have hInP : FindPinChecked (MovePinLinksToIntermediate_Target [IP, IA, RV] R RV) ⟨"InPattern"⟩
      = some IP := by
    have e1 : (IP.Id == RV.Id) = false := by simpa using h1
    simp [FindPinChecked, FindPin, MovePinLinksToIntermediate_Target, ModifyPin, List.find?, e1,
      hIP, n8]
  simp only [ExpandNode_End, bind, Option.bind, hR1, hRet, hFmt, hFO, hInP, pure]
  refine ⟨_, rfl, ?_, rfl, rfl, rfl, ?_⟩
  · show BreakAllNodeLinks (MovePinLinksToIntermediate_Source
      (MovePinLinksToIntermediate_Source st.Self.Pins R) FP) = BreakAllNodeLinks s.Pins
    unfold MovePinLinksToIntermediate_Source
    rw [BreakAllNodeLinks_ModifyPin, BreakAllNodeLinks_ModifyPin]
    exact BreakAllNodeLinks_LinksMoved f _ _ hinv.pins
  · simp [MovePinLinksToIntermediate_Target, ModifyPin, h1, h2, Ne.symm h1, Ne.symm h3]

theorem ExpandNode_spec (Functions : List UFunction) (C : FKismetCompilerContext) (s : Node)
    (f : Nat) (FP R : UEdGraphPin) (h : ExpandNodePre Functions s f FP R) :
    ∃ (r : FExpandResult) (AO IP IA RV : UEdGraphPin),
      ExpandNode Functions C s = some r
      ∧ r.Self.Pins = BreakAllNodeLinks s.Pins
      ∧ r.CompilerContext.MessageLog = C.MessageLog ++ UnexpectedTypeErrors f s.Pins s.PinNames
      ∧ ArrayInv (max 1 s.PinNames.length) s.PinNames.length r.CompilerContext.NextPinId AO
          r.MakeArrayNode
      ∧ r.Arguments.length = s.PinNames.length
      ∧ (∀ i PinName, s.PinNames[i]? = some PinName →
          ArgumentLinked r.MakeArrayNode r.Arguments i PinName)
      ∧ AO.PinName = ⟨"Array"⟩ ∧ AO.Direction = EGPD_Output
      ∧ r.CallFormatFunction.Pins = [IP, IA, RV]
      ∧ IP.PinName = ⟨"InPattern"⟩ ∧ IA.PinName = ⟨"InArgs"⟩ ∧ RV.PinName = ⟨"ReturnValue"⟩
      ∧ IP.LinkedTo = FP.LinkedTo ∧ RV.LinkedTo = R.LinkedTo
      ∧ IA.LinkedTo.map (fun L => L.Id) = [AO.Id]
      ∧ AO.LinkedTo.map (fun L => L.Id) = [IA.Id] := by
  obtain ⟨AO, In0, IP, IA, RV, Fn, C1, hB, hlog, b1, b2, b3, b4, b5, b6, b7, b8, hIP, hIA, hRV,
    i1, i2, i3, l1, l2, l3, l4⟩ := Begin_spec Functions C h.function
  have hfmt : GetFormatPin s = some (f, { s with CachedFormatPin := some f }) := by
    have hf := h.format
    cases hg : GetFormatPin s with
    | none => rw [hg] at hf; cases hf
    | some p =>
      obtain ⟨f1, s1⟩ := p
      rw [hg] at hf
      simp only [Option.map_some', Option.some.injEq] at hf
      subst hf
      rw [GetFormatPin_spec s s1 f1 hg]
  have hinv0 : LoopInv s f C AO []
      { Self := s, CompilerContext := C1, MakeArrayNode := ⟨1, [AO, In0]⟩ } := by
    constructor
    · exact hfmt
    · exact List.forall₂_same.mpr (fun P _ => Or.inl rfl)
    · rw [hlog]
      simp [UnexpectedTypeErrors]
    · exact ArrayInv_init AO In0 C1.NextPinId b1 b2 b3 b4 b5 b6 b7 b8
    · rfl
    · intro i PinName hi
      simp at hi
  obtain ⟨st1, hL, hinv1⟩ := Loop_spec Functions s f C AO h.ids b4 s.PinNames [] _ hinv0
    (ArgumentsExpand_spec Functions f s h.arguments)
  rw [List.nil_append] at hinv1
  obtain ⟨r, hE, e1, e2, e3, e4, e5⟩ := End_spec s f C AO s.PinNames st1 FP R IP IA RV Fn hinv1
    h.formatPin h.result h.resultOut h.resultNotFormat hIP hIA hRV i1 i2 i3
  refine ⟨r, AO, _, IA, _, ?_, e1, ?_, ?_, ?_, ?_, b4, b5, e5, hIP, hIA, hRV, ?_, ?_, l3, l4⟩
  · have hL1 : ExpandNode_Loop Functions 0 s.PinNames
        { Self := s, CompilerContext := C1, MakeArrayNode := ⟨1, [AO, In0]⟩ } = some st1 := hL
    simp only [ExpandNode, bind, Option.bind, hB, hL1, hE]
  · rw [e2]; exact hinv1.log
  · rw [e2, e3]; exact hinv1.array
  · rw [e4]; exact hinv1.count
  · rw [e3, e4]; exact hinv1.args
  · simp [l1]
  · simp [l2]

theorem ArrayInv_GetOutputPin (m k N : Nat) (AO : UEdGraphPin) (MA : UK2Node_MakeArray)
    (h : ArrayInv m k N AO MA) (hAO : AO.PinName = ⟨"Array"⟩) :
    MA.GetOutputPin = some AO := by
  unfold UK2Node_MakeArray.GetOutputPin FindPin
  cases hf : MA.Pins.find? (fun Pin => Pin.PinName.Equals ⟨"Array"⟩
      && ((none : Option EEdGraphPinDirection).isNone || none == some Pin.Direction)) with
  | none =>
    have := List.find?_eq_none.1 hf AO h.arrayOut
    rw [hAO] at this
    have e : (⟨"Array"⟩ : FName).Equals ⟨"Array"⟩ = true := by decide
    simp [e] at this
  | some P =>
    have hP : P ∈ MA.Pins := List.mem_of_find?_eq_some hf
    have hp := List.find?_some hf
    simp only [Option.isNone_none, Bool.true_or, Bool.and_true] at hp
    cases hd : P.Direction with
    | EGPD_Output => rw [h.outputs P hP hd]
    | EGPD_Input =>
      have hin : P ∈ MA.Inputs := by
        unfold UK2Node_MakeArray.Inputs
        rw [List.mem_filter]
        exact ⟨hP, by simp [hd]⟩
      have hn : P.PinName ∈ (List.range m).map ArrayPinName := by
        rw [← h.inputs]
        exact List.mem_map_of_mem _ hin
      obtain ⟨i, _, hie⟩ := List.mem_map.1 hn
      rw [← hie] at hp
      have h1 : (⟨"Array"⟩ : FName).Equals (ArrayPinName i) = true := by
        simp only [FName.Equals, beq_iff_eq] at hp ⊢
        exact hp.symm
      rw [Array_not_ArrayPinName] at h1
      cases h1

theorem mem_UnexpectedTypeErrors (f : Nat) (Pins : List UEdGraphPin) (PinNames : List FName)
    (Message : String) :
    Message ∈ UnexpectedTypeErrors f Pins PinNames ↔
      ∃ PinName ∈ PinNames, ∃ P, Pins.find? (IsArgumentPinNamed f PinName) = some P
        ∧ P.LinkedTo ≠ [] ∧ IsHandledType P.PinType = false
        ∧ Message = Error_UnexpectedPinType PinName P.PinType.PinCategory := by
  unfold UnexpectedTypeErrors
  rw [List.mem_filterMap]
  constructor
  · rintro ⟨PinName, hn, hm⟩
    refine ⟨PinName, hn, ?_⟩
    cases hf : Pins.find? (IsArgumentPinNamed f PinName) with
    | none => rw [hf] at hm; cases hm
    | some P =>
      rw [hf] at hm
      simp only at hm
      by_cases hu : HasUnexpectedType P = true
      · rw [if_pos hu] at hm
        simp only [Option.some.injEq] at hm
        simp only [HasUnexpectedType, Bool.and_eq_true, decide_eq_true_eq, Bool.not_eq_true',
          gt_iff_lt, List.length_pos] at hu
        exact ⟨P, rfl, hu.1, hu.2, hm.symm⟩
      · rw [if_neg hu] at hm
        cases hm
  · rintro ⟨PinName, hn, P, hf, hl, hh, hm⟩
    refine ⟨PinName, hn, ?_⟩
    rw [hf]
    have hu : HasUnexpectedType P = true := by
      simp only [HasUnexpectedType, Bool.and_eq_true, decide_eq_true_eq, Bool.not_eq_true',
        gt_iff_lt, List.length_pos]
      exact ⟨hl, hh⟩
    simp only [hu, if_true, hm]

/-- C5. When the node has its format and result pins, every name of
`PinNames` has an argument pin and the functions `ExpandNode` looks up are
found, `ExpandNode` returns (so no `FindPinChecked` on the make-array node
fails) and has spawned exactly `PinNames.Num()` make-struct nodes; for every
`i` the first output of the make-struct node number `i` is linked to the
input `[i]` of the make-array node and its `ArgumentName` literal is
`PinNames[i]`; the make-array node ends with the inputs `[0]` to
`[max(1, n) - 1]`. -/
theorem C5_ExpandNode_arguments_in_order (Functions : List UFunction)
    (C : FKismetCompilerContext) (s : Node) (f : Nat) (FP R : UEdGraphPin)
    (h : ExpandNodePre Functions s f FP R) :
    ∃ r : FExpandResult, ExpandNode Functions C s = some r
      ∧ r.Arguments.length = s.PinNames.length
      ∧ (∀ i PinName, s.PinNames[i]? = some PinName →
          ArgumentLinked r.MakeArrayNode r.Arguments i PinName)
      ∧ r.MakeArrayNode.NumInputs = max 1 s.PinNames.length
      ∧ r.MakeArrayNode.Inputs.map (fun P => P.PinName)
          = (List.range (max 1 s.PinNames.length)).map ArrayPinName := by
  obtain ⟨r, AO, IP, IA, RV, h1, _, _, h4, h5, h6, _⟩ := ExpandNode_spec Functions C s f FP R h
  exact ⟨r, h1, h5, h6, h4.numInputs, h4.inputs⟩

/-- C5, at `ExampleExpandNode` with the functions of the engine. -/
theorem C5_ExpandNode_arguments_in_order_witness :
    ∃ r : FExpandResult,
      ExpandNode EngineFunctions { NextPinId := 1000 } ExampleExpandNode = some r
      ∧ r.Arguments.length = 3
      ∧ (∀ i PinName, ExampleExpandNode.PinNames[i]? = some PinName →
          ArgumentLinked r.MakeArrayNode r.Arguments i PinName)
      ∧ r.MakeArrayNode.NumInputs = 3
      ∧ r.MakeArrayNode.Inputs.map (fun P => P.PinName)
          = [ArrayPinName 0, ArrayPinName 1, ArrayPinName 2] :=
  C5_ExpandNode_arguments_in_order EngineFunctions { NextPinId := 1000 } ExampleExpandNode 1
    { Id := 1, PinName := ⟨"Format"⟩, Direction := EGPD_Input, PinType := { PinCategory := PC_String },
      LinkedTo := [{ Id := 101, PinType := { PinCategory := PC_String } }] }
    { Id := 2, PinName := ⟨"Result"⟩, Direction := EGPD_Output, PinType := { PinCategory := PC_String },
      LinkedTo := [{ Id := 102, PinType := { PinCategory := PC_String } }] }
    ⟨by decide, by decide, by decide, by decide, by decide, by decide, by decide, by decide⟩

/-- C7. When `ExpandNode` runs to its end, the errors it has added to the
message log are, in the order of `PinNames`, the error
`Pin ... has an unexpected type` for each name whose argument pin has at
least one link and a category other than Int, Int64, Float, String, Byte
without a sub-category object, Boolean, Name, Text and Object; the error
carries the name of `PinNames` and the category of the pin. An argument pin
without a link, or with one of these types, adds no error. -/
theorem C7_ExpandNode_unexpected_type_errors (Functions : List UFunction)
    (C : FKismetCompilerContext) (s : Node) (f : Nat) (FP R : UEdGraphPin)
    (h : ExpandNodePre Functions s f FP R) :
    ∃ r : FExpandResult, ExpandNode Functions C s = some r
      ∧ r.CompilerContext.MessageLog
          = C.MessageLog ++ UnexpectedTypeErrors f s.Pins s.PinNames
      ∧ ∀ Message, Message ∈ UnexpectedTypeErrors f s.Pins s.PinNames ↔
          ∃ PinName ∈ s.PinNames, ∃ P, s.Pins.find? (IsArgumentPinNamed f PinName) = some P
            ∧ P.LinkedTo ≠ [] ∧ IsHandledType P.PinType = false
            ∧ Message = Error_UnexpectedPinType PinName P.PinType.PinCategory := by
  obtain ⟨r, AO, IP, IA, RV, h1, _, h3, _⟩ := ExpandNode_spec Functions C s f FP R h
  exact ⟨r, h1, h3, mem_UnexpectedTypeErrors f s.Pins s.PinNames⟩

/-- C7, at `ExampleExpandNode`, whose argument `b` is linked to a `struct`
pin: the one error is the one for `b`. -/
theorem C7_ExpandNode_unexpected_type_errors_witness :
    ∃ r : FExpandResult,
      ExpandNode EngineFunctions { NextPinId := 1000 } ExampleExpandNode = some r
      ∧ r.CompilerContext.MessageLog = ["Pin \x27b\x27 has an unexpected type: struct"] := by
  obtain ⟨r, h1, h2, _⟩ := C7_ExpandNode_unexpected_type_errors EngineFunctions
    { NextPinId := 1000 } ExampleExpandNode 1
    { Id := 1, PinName := ⟨"Format"⟩, Direction := EGPD_Input, PinType := { PinCategory := PC_String },
      LinkedTo := [{ Id := 101, PinType := { PinCategory := PC_String } }] }
    { Id := 2, PinName := ⟨"Result"⟩, Direction := EGPD_Output, PinType := { PinCategory := PC_String },
      LinkedTo := [{ Id := 102, PinType := { PinCategory := PC_String } }] }
    ⟨by decide, by decide, by decide, by decide, by decide, by decide, by decide, by decide⟩
  refine ⟨r, h1, ?_⟩
  rw [h2]
  decide

/-- C8. When `ExpandNode` runs to its end, the return-value pin of the
call of `Format` has the links that were on `Result`, its `InPattern` pin
has the links that were on the format pin, the output of the make-array node
and `InArgs` are linked to each other, and the pins of the node are its old
pins with every link list empty. -/
theorem C8_ExpandNode_links_moved (Functions : List UFunction)
    (C : FKismetCompilerContext) (s : Node) (f : Nat) (FP R : UEdGraphPin)
    (h : ExpandNodePre Functions s f FP R) :
    ∃ (r : FExpandResult) (ArrayOut InPattern InArgs ReturnValue : UEdGraphPin),
      ExpandNode Functions C s = some r
      ∧ r.CallFormatFunction.GetReturnValuePin = some ReturnValue
      ∧ ReturnValue.LinkedTo = R.LinkedTo
      ∧ FindPinChecked r.CallFormatFunction.Pins ⟨"InPattern"⟩ = some InPattern
      ∧ InPattern.LinkedTo = FP.LinkedTo
      ∧ r.MakeArrayNode.GetOutputPin = some ArrayOut
      ∧ FindPinChecked r.CallFormatFunction.Pins ⟨"InArgs"⟩ = some InArgs
      ∧ ArrayOut.LinkedTo.map (fun L => L.Id) = [InArgs.Id]
      ∧ InArgs.LinkedTo.map (fun L => L.Id) = [ArrayOut.Id]
      ∧ r.Self.Pins = BreakAllNodeLinks s.Pins
      ∧ ∀ P ∈ r.Self.Pins, P.LinkedTo = [] := by
  obtain ⟨r, AO, IP, IA, RV, h1, h2, _, h4, _, _, hAO, _, hP, hIP, hIA, hRV, l1, l2, l3, l4⟩ :=
    ExpandNode_spec Functions C s f FP R h
  obtain ⟨n1, n2, n3, n4, n5, n6, n7, n8⟩ := Begin_names
  refine ⟨r, AO, IP, IA, RV, h1, ?_, l2, ?_, l1, ArrayInv_GetOutputPin _ _ _ AO _ h4 hAO, ?_,
    l4, l3, h2, ?_⟩
  · simp [UK2Node_CallFunction.GetReturnValuePin, FindPin, hP, List.find?, hIP, hIA, hRV, n5, n6,
      n7]
  · simp [FindPinChecked, FindPin, hP, List.find?, hIP, n8]
  · simp [FindPinChecked, FindPin, hP, List.find?, hIP, hIA, n3, n4]
  · intro P hPm
    rw [h2] at hPm
    unfold BreakAllNodeLinks at hPm
    obtain ⟨Q, _, rfl⟩ := List.mem_map.1 hPm
    rfl

/-- C8, at `ExampleExpandNode`, whose `Result` pin is linked to the pin
102 and whose format pin is linked to the pin 101. -/
theorem C8_ExpandNode_links_moved_witness :
    ∃ (r : FExpandResult) (ArrayOut InPattern InArgs ReturnValue : UEdGraphPin),
      ExpandNode EngineFunctions { NextPinId := 1000 } ExampleExpandNode = some r
      ∧ r.CallFormatFunction.GetReturnValuePin = some ReturnValue
      ∧ ReturnValue.LinkedTo = [{ Id := 102, PinType := { PinCategory := PC_String } }]
      ∧ FindPinChecked r.CallFormatFunction.Pins ⟨"InPattern"⟩ = some InPattern
      ∧ InPattern.LinkedTo = [{ Id := 101, PinType := { PinCategory := PC_String } }]
      ∧ r.MakeArrayNode.GetOutputPin = some ArrayOut
      ∧ FindPinChecked r.CallFormatFunction.Pins ⟨"InArgs"⟩ = some InArgs
      ∧ ArrayOut.LinkedTo.map (fun L => L.Id) = [InArgs.Id]
      ∧ InArgs.LinkedTo.map (fun L => L.Id) = [ArrayOut.Id]
      ∧ r.Self.Pins = BreakAllNodeLinks ExampleExpandNode.Pins
      ∧ ∀ P ∈ r.Self.Pins, P.LinkedTo = [] :=
  C8_ExpandNode_links_moved EngineFunctions { NextPinId := 1000 } ExampleExpandNode 1
    { Id := 1, PinName := ⟨"Format"⟩, Direction := EGPD_Input, PinType := { PinCategory := PC_String },
      LinkedTo := [{ Id := 101, PinType := { PinCategory := PC_String } }] }
    { Id := 2, PinName := ⟨"Result"⟩, Direction := EGPD_Output, PinType := { PinCategory := PC_String },
      LinkedTo := [{ Id := 102, PinType := { PinCategory := PC_String } }] }
    ⟨by decide, by decide, by decide, by decide, by decide, by decide, by decide, by decide⟩

end UK2Node_FormatString

namespace UK2Node_SiriusPrintStringFormatted

/-- C11, failing input. After `AllocateDefaultPins` the pins are execute,
then, In String, the argument pins in the order of `PinNames`, and the four
option pins, which are the advanced ones. On a new node, a template that
names `x` and `In String` followed by a template that names `x` alone leaves
the argument pin `x` before the only pin named `In String`: the second call
has removed the format pin in place of the argument pin of that name. -/
theorem C11_PinDefaultValueChanged_argument_before_format_pin :
    PinSummary (AllocateDefaultPins { PinNames := [⟨"a"⟩, ⟨"b"⟩] }).Pins
      = [(1, "execute"), (2, "then"), (3, "In String"), (4, "a"), (5, "b"),
         (6, "Print to Screen"), (7, "Print to Log"), (8, "Text Color"), (9, "Duration")]
    ∧ (AllocateDefaultPins { PinNames := [⟨"a"⟩, ⟨"b"⟩] }).Pins.map (fun P => P.bAdvancedView)
      = [false, false, false, false, false, true, true, true, true]
    ∧ (EditTemplate (some NewNode) ["x", "In String"]).map
        (fun s => (PinSummary s.Pins, s.PinNames))
      = some ([(1, "execute"), (2, "then"), (3, "In String"), (8, "x"), (9, "In String"),
               (4, "Print to Screen"), (5, "Print to Log"), (6, "Text Color"), (7, "Duration")],
              [⟨"x"⟩, ⟨"In String"⟩])
    ∧ (EditTemplate (EditTemplate (some NewNode) ["x", "In String"]) ["x"]).map
        (fun s => (PinSummary s.Pins, s.PinNames))
      = some ([(1, "execute"), (2, "then"), (8, "x"), (9, "In String"),
               (4, "Print to Screen"), (5, "Print to Log"), (6, "Text Color"), (7, "Duration")],
              [⟨"x"⟩]) := by
  refine ⟨by decide, by decide, by decide, by decide⟩

end UK2Node_SiriusPrintStringFormatted

namespace UK2Node_FormatString

theorem filter_ne_Id (pre rest : List UEdGraphPin) (c : UEdGraphPin)
    (hnd : ((pre ++ c :: rest).map (fun P => P.Id)).Nodup) :
    (pre ++ c :: rest).filter (fun P => P.Id != c.Id) = pre ++ rest := by
  rw [List.map_append, List.map_cons] at hnd
  have h1 := List.nodup_append.1 hnd
  have h2 := List.nodup_cons.1 h1.2.1
  have hpre : pre.filter (fun P => P.Id != c.Id) = pre := by
    rw [List.filter_eq_self]
    intro P hP
    have : P.Id ≠ c.Id := by
      intro e
      exact h1.2.2 (List.mem_map_of_mem _ hP) (by rw [e]; exact List.mem_cons_self _ _)
    simpa using this
  have hrest : rest.filter (fun P => P.Id != c.Id) = rest := by
    rw [List.filter_eq_self]
    intro P hP
    have : P.Id ≠ c.Id := by
      intro e
      exact h2.1 (by rw [← e]; exact List.mem_map_of_mem _ hP)
    simpa using this
  rw [List.filter_append, hpre, List.filter_cons]
  simp [hrest]

theorem PinConnectionListChanged_Loop_spec (f : Nat) :
    ∀ (rest pre : List UEdGraphPin) (Fuel : Nat),
      ((pre ++ rest).map (fun P => P.Id)).Nodup → rest.length < Fuel →
      PinConnectionListChanged_Loop f Fuel (pre.length : Int) (pre ++ rest)
        = some (pre ++ rest.filter (fun P => !(P.Id != f && P.Direction == EGPD_Input))) := by
  intro rest
  induction rest with
  | nil =>
    intro pre Fuel _ hF
    obtain ⟨k, rfl⟩ : ∃ k, Fuel = k + 1 := ⟨Fuel - 1, by simp at hF; omega⟩
    simp [PinConnectionListChanged_Loop]
  | cons c rest ih =>
    intro pre Fuel hnd hF
    obtain ⟨k, rfl⟩ : ∃ k, Fuel = k + 1 := ⟨Fuel - 1, by omega⟩
    have hk : rest.length < k := by simp at hF; omega
    have hget : (pre ++ c :: rest)[((pre.length : Int)).toNat]? = some c := by
      rw [Int.toNat_ofNat, List.getElem?_append_right (le_refl _)]
      simp
    have hcond : 0 ≤ (pre.length : Int) ∧ (pre.length : Int) < ((pre ++ c :: rest).length : Int) := by
      constructor
      · exact Int.natCast_nonneg _
      · simp
    unfold PinConnectionListChanged_Loop
    rw [if_pos hcond, hget]
    simp only
    by_cases harg : (c.Id != f && c.Direction == EGPD_Input) = true
    · rw [if_pos harg, filter_ne_Id pre rest c hnd]
      have hnd2 : ((pre ++ rest).map (fun P => P.Id)).Nodup := by
        rw [List.map_append, List.map_cons] at hnd
        rw [List.map_append]
        exact List.Nodup.sublist (List.Sublist.append_left (List.sublist_cons_self _ _) _) hnd
      have := ih pre k hnd2 hk
      have hkeep : (!(c.Id != f && c.Direction == EGPD_Input)) = false := by rw [harg]; rfl
      rw [show (pre.length : Int) - 1 + 1 = (pre.length : Int) by omega, this]
      simp only [List.filter_cons, hkeep, Bool.false_eq_true, if_false]
    · rw [if_neg harg]
      have hnd2 : (((pre ++ [c]) ++ rest).map (fun P => P.Id)).Nodup := by
        simpa using hnd
      have := ih (pre ++ [c]) k hnd2 hk
      simp only [List.length_append, List.length_singleton, Nat.cast_add, Nat.cast_one,
        List.append_assoc, List.singleton_append] at this
      have hkeep : (!(c.Id != f && c.Direction == EGPD_Input)) = true := by
        cases h : (c.Id != f && c.Direction == EGPD_Input) with
        | true => exact absurd h harg
        | false => rfl
      rw [this]
      simp only [List.filter_cons, hkeep, if_true]

theorem SynchronizeArgumentPinType_pins (s : Node) (f Pin : Nat) (P : UEdGraphPin)
    (hc : s.CachedFormatPin = some f) (hP : s.Pins.find? (fun Q => Q.Id == Pin) = some P) :
    ∃ s1 : Node, SynchronizeArgumentPinType s Pin = some s1
      ∧ s1.PinNames = s.PinNames ∧ s1.CachedFormatPin = some f
      ∧ s1.Pins = if IsArgumentPin f P = true then SetPinType s.Pins Pin (SynchronizedPinType P).1
          else s.Pins := by
  unfold SynchronizeArgumentPinType
  rw [GetFormatPin_cached s f hc]
  simp only [hP]
  by_cases harg : IsArgumentPin f P = true
  · have h2 : (P.Id != f && P.Direction == EGPD_Input) = true := harg
    rw [if_pos h2, if_pos harg]
    rcases hsp : SynchronizedPinType P with ⟨T, b⟩
    cases b with
    | true =>
      simp only [if_true]
      exact ⟨_, rfl, rfl, hc, rfl⟩
    | false =>
      simp only [Bool.false_eq_true, if_false]
      exact ⟨_, rfl, rfl, hc, rfl⟩
  · have h2 : ¬ (P.Id != f && P.Direction == EGPD_Input) = true := harg
    rw [if_neg h2, if_neg harg]
    exact ⟨s, rfl, rfl, hc, rfl⟩

theorem keep_eq (Q : UEdGraphPin) (f : Nat) :
    (!(Q.Id != f && Q.Direction == EGPD_Input)) = (Q.Id == f || Q.Direction == EGPD_Output) := by
  cases hd : Q.Direction <;> cases he : (Q.Id == f) <;> simp only [bne, he] <;> decide

theorem TrySetDefaultText_of_not_text (Pins : List UEdGraphPin) (P : UEdGraphPin)
    (hnd : (Pins.map (fun Q => Q.Id)).Nodup) (hP : P ∈ Pins)
    (ht : P.PinType.PinCategory.Equals PC_Text = false) (Text : String) :
    TrySetDefaultText Pins P Text = Pins := by
  unfold TrySetDefaultText ModifyPin
  conv_rhs => rw [← List.map_id Pins]
  apply List.map_congr_left
  intro Q hQ
  by_cases e : Q.Id = P.Id
  · have := eq_of_mem_of_Id Pins hnd Q P hQ hP e
    subst this
    simp [ht]
  · have e1 : (Q.Id == P.Id) = false := by simpa using e
    simp [e1]

theorem TrySetDefaultText_map_Id (Pins : List UEdGraphPin) (P : UEdGraphPin) (Text : String) :
    (TrySetDefaultText Pins P Text).map (fun Q => Q.Id) = Pins.map (fun Q => Q.Id) := by
  unfold TrySetDefaultText ModifyPin
  rw [List.map_map]
  apply List.map_congr_left
  intro Q _
  simp only [Function.comp]
  split
  · split <;> rfl
  · rfl

/-- `PinConnectionListChanged(Pin)` on a pin `P` of a node whose pins are
different objects returns. When `Pin` is the format pin and its default text
is not empty, afterwards `PinNames` is empty, every input pin left is the
format pin, and `Pins` is the array after `TrySetDefaultText` without the
inputs other than the format pin, in the old order; for a format pin that is
not a text pin this is the old array without those inputs, the format pin
as it was. In every other case `PinNames` is unchanged and `Pins` is the old
array, in which `P`, when it is an input other than the format pin, carries
a type that equals the wildcard type if it has no links and the type of
`LinkedTo[0]` otherwise. -/
theorem PinConnectionListChanged_spec
    (s s0 : Node) (f Pin : Nat) (P : UEdGraphPin)
    (hf : GetFormatPin s = some (f, s0))
    (hP : s.Pins.find? (fun Q => Q.Id == Pin) = some P)
    (hnd : (s.Pins.map (fun Q => Q.Id)).Nodup) :
    ∃ s1 : Node, PinConnectionListChanged s Pin = some s1
      ∧ (Pin = f ∧ P.DefaultTextValue.isEmpty = false →
          s1.PinNames = []
          ∧ (∀ Q ∈ s1.Pins, Q.Direction = EGPD_Input → Q.Id = f)
          ∧ s1.Pins = (TrySetDefaultText s.Pins P "").filter
              (fun Q => Q.Id == f || Q.Direction == EGPD_Output)
          ∧ (P.PinType.PinCategory.Equals PC_Text = false →
              s1.Pins = s.Pins.filter (fun Q => Q.Id == f || Q.Direction == EGPD_Output)
              ∧ s1.Pins.find? (fun Q => Q.Id == f) = some P))
      ∧ (¬ (Pin = f ∧ P.DefaultTextValue.isEmpty = false) →
          s1.PinNames = s.PinNames
          ∧ ∃ T : FEdGraphPinType,
            (s1.Pins = if IsArgumentPin f P = true then SetPinType s.Pins Pin T else s.Pins)
            ∧ (P.LinkedTo = [] →
                T.Equals WildcardPinType = true ∧ (T = WildcardPinType ∨ T = P.PinType))
            ∧ (∀ L rest, P.LinkedTo = L :: rest →
                T.Equals L.PinType = true ∧ (T = L.PinType ∨ T = P.PinType))) := by
  have hs0 := GetFormatPin_spec s s0 f hf
  have hc0 : s0.CachedFormatPin = some f := by rw [hs0]
  have hp0 : s0.Pins = s.Pins := by rw [hs0]
  have hn0 : s0.PinNames = s.PinNames := by rw [hs0]
  have hPid : P.Id = Pin := by simpa using List.find?_some hP
  have hPmem : P ∈ s.Pins := List.mem_of_find?_eq_some hP
  by_cases hclear : Pin = f ∧ P.DefaultTextValue.isEmpty = false
  · obtain ⟨hPf, hE⟩ := hclear
    subst hPf
    -- the pins after `TrySetDefaultText`, and after the loop
    have hnd1 : ((TrySetDefaultText s.Pins P "").map (fun Q => Q.Id)).Nodup := by
      rw [TrySetDefaultText_map_Id]
      exact hnd
    have hL := PinConnectionListChanged_Loop_spec Pin (TrySetDefaultText s.Pins P "") []
      ((TrySetDefaultText s.Pins P "").length + 1) hnd1 (Nat.lt_succ_self _)
    simp only [List.length_nil, Nat.cast_zero, List.nil_append] at hL
    have hR : (TrySetDefaultText s.Pins P "").filter
          (fun Q => !(Q.Id != Pin && Q.Direction == EGPD_Input))
        = (TrySetDefaultText s.Pins P "").filter
            (fun Q => Q.Id == Pin || Q.Direction == EGPD_Output) := by
      apply List.filter_congr
      intro Q _
      exact keep_eq Q Pin
    -- the format pin is still there
    have hmem1 : (if P.PinType.PinCategory.Equals PC_Text = true then
          { P with DefaultTextValue := "", DefaultValue := "" } else P)
        ∈ (TrySetDefaultText s.Pins P "").filter
            (fun Q => Q.Id == Pin || Q.Direction == EGPD_Output) := by
      rw [List.mem_filter]
      constructor
      · unfold TrySetDefaultText ModifyPin
        rw [List.mem_map]
        exact ⟨P, hPmem, by simp⟩
      · have : (if P.PinType.PinCategory.Equals PC_Text = true then
            { P with DefaultTextValue := "", DefaultValue := "" } else P).Id = Pin := by
          split <;> exact hPid
        simp [this]
    obtain ⟨FP1, hFP1⟩ : ∃ FP1, ((TrySetDefaultText s.Pins P "").filter
        (fun Q => Q.Id == Pin || Q.Direction == EGPD_Output)).find? (fun Q => Q.Id == Pin)
        = some FP1 := by
      cases hfd : ((TrySetDefaultText s.Pins P "").filter
          (fun Q => Q.Id == Pin || Q.Direction == EGPD_Output)).find? (fun Q => Q.Id == Pin) with
      | some x => exact ⟨x, rfl⟩
      | none =>
        have := List.find?_eq_none.1 hfd _ hmem1
        have hid : (if P.PinType.PinCategory.Equals PC_Text = true then
            { P with DefaultTextValue := "", DefaultValue := "" } else P).Id = Pin := by
          split <;> exact hPid
        simp [hid] at this
    have hFP1id : FP1.Id = Pin := by simpa using List.find?_some hFP1
    have hS := SynchronizeArgumentPinType_pins
      { s0 with
        Pins := (TrySetDefaultText s.Pins P "").filter
          (fun Q => Q.Id == Pin || Q.Direction == EGPD_Output),
        PinNames := [],
        Blueprint := { s0.Blueprint with
          MarkedAsStructurallyModified := s0.Blueprint.MarkedAsStructurallyModified + 1 } }
      Pin Pin FP1 hc0 hFP1
    obtain ⟨s1, h1, h2, _, h4⟩ := hS
    have hna : IsArgumentPin Pin FP1 = false := by
      simp [IsArgumentPin, hFP1id]
    rw [hna] at h4
    simp only [Bool.false_eq_true, if_false] at h4 h2
    refine ⟨s1, ?_, ?_, ?_⟩
    · simp only [PinConnectionListChanged, hf, bind, Option.bind, beq_self_eq_true, if_true, hp0,
        hP, Option.map_some', hE, Bool.not_false, hL, hR]
      exact h1
    · intro _
      refine ⟨h2, ?_, h4, ?_⟩
      · intro Q hQ hd
        rw [h4] at hQ
        have hk := (List.mem_filter.1 hQ).2
        by_cases e : Q.Id = Pin
        · exact e
        · have e1 : (Q.Id == Pin) = false := by simpa using e
          rw [e1, hd] at hk
          exact absurd hk (by decide)
      · intro ht
        have hsame := TrySetDefaultText_of_not_text s.Pins P hnd hPmem ht ""
        rw [hsame] at h4
        refine ⟨h4, ?_⟩
        rw [h4, List.find?_filter]
        have : (fun a : UEdGraphPin => decide ((a.Id == Pin || a.Direction == EGPD_Output) = true
            ∧ (a.Id == Pin) = true)) = (fun Q : UEdGraphPin => Q.Id == Pin) := by
          funext a
          by_cases e : a.Id = Pin
          · simp [e]
          · simp [e]
        rw [this, hP]
    · intro h
      exact absurd ⟨rfl, hE⟩ h
  · obtain ⟨s1, h1, h2, _, h4⟩ := SynchronizeArgumentPinType_pins s0 f Pin P hc0
      (by rw [hp0]; exact hP)
    rw [hp0] at h4
    rw [hn0] at h2
    obtain ⟨_, hT1, hT2⟩ := SynchronizedPinType_spec P
    refine ⟨s1, ?_, fun h => absurd h hclear,
      fun _ => ⟨h2, (SynchronizedPinType P).1, h4, hT1, hT2⟩⟩
    by_cases e : Pin = f
    · subst e
      have hE : P.DefaultTextValue.isEmpty = true := by
        cases h : P.DefaultTextValue.isEmpty with
        | true => rfl
        | false => exact absurd ⟨rfl, h⟩ hclear
      simp only [PinConnectionListChanged, hf, bind, Option.bind, beq_self_eq_true, if_true, hp0,
        hP, Option.map_some', hE, Bool.not_true, Bool.false_eq_true, if_false]
      exact h1
    · have e1 : (Pin == f) = false := by simpa using e
      simp only [PinConnectionListChanged, hf, bind, Option.bind, e1, Bool.false_eq_true, if_false]
      exact h1

end UK2Node_FormatString

namespace UK2Node_FormatString

/-- C13. `DoPinsMatchForReconstruction(NewPin, OldPin)`: when the two pin
names are equal case-sensitively the result is `ERedirectType_Name` if the
node has a graph with a schema and the schema is not a K2 schema, or
`NewPin` is the self pin, or the old and the new pin type are compatible,
and `ERedirectType_None` otherwise. When the names differ, a result other
than `ERedirectType_None` is the answer of `ShouldRedirectParam`, and the
name that function gave equals the name of `NewPin` case-sensitively. So a
result other than `ERedirectType_None` implies that the name of `NewPin` is
the name of `OldPin` or the redirect target of `OldPin`. -/
theorem C13_DoPinsMatchForReconstruction_names (Host : FReconstructionHost)
    (NewPin OldPin : UEdGraphPin) :
    (NewPin.PinName.ToString = OldPin.PinName.ToString →
      DoPinsMatchForReconstruction Host NewPin OldPin
        = if Host.bHasOuterGraph = true ∧ Host.bGraphHasSchema = true
            ∧ (Host.bSchemaIsK2 = false ∨ Host.IsSelfPin NewPin = true
              ∨ Host.ArePinTypesCompatible OldPin.PinType NewPin.PinType = true)
          then ERedirectType_Name else ERedirectType_None)
    ∧ (NewPin.PinName.ToString ≠ OldPin.PinName.ToString →
      DoPinsMatchForReconstruction Host NewPin OldPin ≠ ERedirectType_None →
        Host.bOwningNodeIsK2Node NewPin = true
        ∧ DoPinsMatchForReconstruction Host NewPin OldPin
            = (Host.ShouldRedirectParam (Host.GetRedirectPinNames OldPin)).1
        ∧ NewPin.PinName.ToString
            = (Host.ShouldRedirectParam (Host.GetRedirectPinNames OldPin)).2.ToString)
    ∧ (DoPinsMatchForReconstruction Host NewPin OldPin ≠ ERedirectType_None →
        NewPin.PinName.ToString = OldPin.PinName.ToString
        ∨ NewPin.PinName.ToString
            = (Host.ShouldRedirectParam (Host.GetRedirectPinNames OldPin)).2.ToString) := by
  have hdiff : NewPin.PinName.ToString ≠ OldPin.PinName.ToString →
      DoPinsMatchForReconstruction Host NewPin OldPin ≠ ERedirectType_None →
        Host.bOwningNodeIsK2Node NewPin = true
        ∧ DoPinsMatchForReconstruction Host NewPin OldPin
            = (Host.ShouldRedirectParam (Host.GetRedirectPinNames OldPin)).1
        ∧ NewPin.PinName.ToString
            = (Host.ShouldRedirectParam (Host.GetRedirectPinNames OldPin)).2.ToString := by
    intro hne hres
    have hne1 : (NewPin.PinName.ToString == OldPin.PinName.ToString) = false := by
      simpa using hne
    unfold DoPinsMatchForReconstruction at hres ⊢
    simp only [hne1, Bool.false_eq_true, if_false] at hres ⊢
    cases hk : Host.bOwningNodeIsK2Node NewPin with
    | false => rw [hk] at hres; exact absurd rfl hres
    | true =>
      rw [hk] at hres
      simp only [if_true] at hres ⊢
      split at hres
      · exact absurd rfl hres
      · rename_i hc
        rw [if_neg hc]
        refine ⟨trivial, rfl, ?_⟩
        have hT : ((Host.ShouldRedirectParam (Host.GetRedirectPinNames OldPin)).1
            != ERedirectType_None) = true := by simpa using hres
        simp only [Bool.and_eq_true, not_and, Bool.not_eq_true', beq_eq_false_iff_ne, ne_eq,
          Decidable.not_not] at hc
        exact hc hT
  refine ⟨?_, hdiff, ?_⟩
  · intro he
    have he1 : (NewPin.PinName.ToString == OldPin.PinName.ToString) = true := by simpa using he
    unfold DoPinsMatchForReconstruction
    simp only [he1, if_true]
    cases Host.bHasOuterGraph <;> cases Host.bGraphHasSchema <;> cases Host.bSchemaIsK2
      <;> cases Host.IsSelfPin NewPin
      <;> cases Host.ArePinTypesCompatible OldPin.PinType NewPin.PinType <;> simp
  · intro hres
    by_cases he : NewPin.PinName.ToString = OldPin.PinName.ToString
    · exact Or.inl he
    · exact Or.inr (hdiff he hres).2.2

/-- C13, at a pin `New` of any type, with an old pin `New`, an old pin
`Old` that is redirected to `New`, and an old pin `Other`. -/
theorem C13_DoPinsMatchForReconstruction_names_witness :
    DoPinsMatchForReconstruction ExampleHost
        { Id := 1, PinName := ⟨"New"⟩, Direction := EGPD_Input, PinType := WildcardPinType }
        { Id := 2, PinName := ⟨"New"⟩, Direction := EGPD_Input, PinType := { PinCategory := PC_Int } }
      = ERedirectType_Name
    ∧ DoPinsMatchForReconstruction ExampleHost
        { Id := 1, PinName := ⟨"New"⟩, Direction := EGPD_Input, PinType := WildcardPinType }
        { Id := 2, PinName := ⟨"Old"⟩, Direction := EGPD_Input, PinType := { PinCategory := PC_Int } }
      = ERedirectType_Name
    ∧ DoPinsMatchForReconstruction ExampleHost
        { Id := 1, PinName := ⟨"New"⟩, Direction := EGPD_Input, PinType := WildcardPinType }
        { Id := 2, PinName := ⟨"Other"⟩, Direction := EGPD_Input, PinType := { PinCategory := PC_Int } }
      = ERedirectType_None := by
  refine ⟨?_, by decide, by decide⟩
  rw [(C13_DoPinsMatchForReconstruction_names ExampleHost _ _).1 (by decide)]
  decide

end UK2Node_FormatString

namespace UK2Node_FormatString

theorem IsArgumentPinNamed_shape (f : Nat) (n : FName) (P Q : UEdGraphPin)
    (h : PinShape P = PinShape Q) : IsArgumentPinNamed f n P = IsArgumentPinNamed f n Q := by
  simp only [PinShape, Prod.mk.injEq] at h
  obtain ⟨h1, h2, h3⟩ := h
  simp only [IsArgumentPinNamed, h1, h2, h3]

theorem exists_of_shape (f : Nat) (n : FName) :
    ∀ (Pins Pins1 : List UEdGraphPin), Pins1.map PinShape = Pins.map PinShape →
      (∃ P ∈ Pins, IsArgumentPinNamed f n P = true) →
      ∃ P ∈ Pins1, IsArgumentPinNamed f n P = true := by
  intro Pins
  induction Pins with
  | nil =>
    intro Pins1 _ h
    obtain ⟨P, hP, _⟩ := h
    simp at hP
  | cons a L ih =>
    intro Pins1 hm h
    cases Pins1 with
    | nil => simp at hm
    | cons b L1 =>
      simp only [List.map_cons, List.cons.injEq] at hm
      obtain ⟨P, hP, hPn⟩ := h
      rcases List.mem_cons.1 hP with rfl | hP
      · exact ⟨b, List.mem_cons_self _ _, by rw [IsArgumentPinNamed_shape f n b P hm.1]; exact hPn⟩
      · obtain ⟨Q, hQ, hQn⟩ := ih L1 hm.2 ⟨P, hP, hPn⟩
        exact ⟨Q, List.mem_cons_of_mem _ hQ, hQn⟩

theorem IsArgumentPinNamed_CreatePin (s : Node) (f : Nat) (n : FName)
    (hc : s.CachedFormatPin = some f) (PinCategory : FName) :
    IsArgumentPinNamed f n (CreatePin s EGPD_Input PinCategory n).1 = true := by
  have := NewPinId_ne_cached s f hc
  simp [IsArgumentPinNamed, CreatePin, this]

theorem AllocateLoop_found (f : Nat) : ∀ (N : List FName) (s : Node),
    s.CachedFormatPin = some f →
    (N.foldl (fun s PinName => (CreatePin s EGPD_Input PC_Wildcard PinName).2) s).CachedFormatPin
        = some f
    ∧ (N.foldl (fun s PinName => (CreatePin s EGPD_Input PC_Wildcard PinName).2) s).PinNames
        = s.PinNames
    ∧ (∀ P ∈ s.Pins,
        P ∈ (N.foldl (fun s PinName => (CreatePin s EGPD_Input PC_Wildcard PinName).2) s).Pins)
    ∧ ∀ n ∈ N, ∃ P ∈ (N.foldl (fun s PinName =>
          (CreatePin s EGPD_Input PC_Wildcard PinName).2) s).Pins,
        IsArgumentPinNamed f n P = true := by
  intro N
  induction N with
  | nil =>
    intro s hc
    exact ⟨hc, rfl, fun P hP => hP, fun n hn => by simp at hn⟩
  | cons a N ih =>
    intro s hc
    have hc1 : (CreatePin s EGPD_Input PC_Wildcard a).2.CachedFormatPin = some f := hc
    obtain ⟨h1, h2, h3, h4⟩ := ih (CreatePin s EGPD_Input PC_Wildcard a).2 hc1
    simp only [List.foldl_cons]
    refine ⟨h1, h2, ?_, ?_⟩
    · intro P hP
      exact h3 P (by simp [CreatePin, hP])
    · intro n hn
      rcases List.mem_cons.1 hn with rfl | hn
      · exact ⟨(CreatePin s EGPD_Input PC_Wildcard n).1, h3 _ (by simp [CreatePin]),
          IsArgumentPinNamed_CreatePin s f n hc PC_Wildcard⟩
      · exact h4 n hn

theorem NamesFound_AllocateDefaultPins (s : Node) : NamesFound (AllocateDefaultPins s) := by
  obtain ⟨h1, h2, _, h4⟩ := AllocateLoop_found (CreatePin s EGPD_Input PC_String ⟨"Format"⟩).1.Id
    s.PinNames
    (CreatePin { (CreatePin s EGPD_Input PC_String ⟨"Format"⟩).2 with
      CachedFormatPin := some (CreatePin s EGPD_Input PC_String ⟨"Format"⟩).1.Id }
      EGPD_Output PC_String ⟨"Result"⟩).2 rfl
  have e : (AllocateDefaultPins s).PinNames = s.PinNames := h2
  have c : (AllocateDefaultPins s).CachedFormatPin
      = some (CreatePin s EGPD_Input PC_String ⟨"Format"⟩).1.Id := h1
  refine ⟨_, c, fun n hn => ?_⟩
  rw [e] at hn
  exact h4 n hn

theorem CreateLoop_found (f : Nat) : ∀ (A : List String) (s : Node),
    s.CachedFormatPin = some f →
    (∀ a ∈ A, FName.FromString a = (⟨a⟩ : FName)) →
    ∃ s1 : Node, PinDefaultValueChanged_CreateLoop s A = some s1
      ∧ s1.CachedFormatPin = some f
      ∧ s1.PinNames = s.PinNames ++ A.map (fun a => (⟨a⟩ : FName))
      ∧ (∀ P ∈ s.Pins, P ∈ s1.Pins)
      ∧ ∀ a ∈ A, ∃ P ∈ s1.Pins, IsArgumentPinNamed f ⟨a⟩ P = true := by
  intro A
  induction A with
  | nil =>
    intro s hc _
    exact ⟨s, rfl, hc, by simp, fun P hP => hP, fun a ha => by simp at ha⟩
  | cons a rest ih =>
    intro s hc hrt
    have hra : FName.FromString a = (⟨a⟩ : FName) := hrt a (List.mem_cons_self _ _)
    have hrt1 : ∀ b ∈ rest, FName.FromString b = (⟨b⟩ : FName) :=
      fun b hb => hrt b (List.mem_cons_of_mem _ hb)
    have hfind : FindArgumentPin s ⟨a⟩ = some (s.Pins.find? (IsArgumentPinNamed f ⟨a⟩), s) := by
      simp [FindArgumentPin, GetFormatPin_cached s f hc]
    cases hF : s.Pins.find? (IsArgumentPinNamed f ⟨a⟩) with
    | some Q =>
      obtain ⟨s1, h1, h2, h3, h4, h5⟩ := ih { s with PinNames := s.PinNames ++ [⟨a⟩] } hc hrt1
      refine ⟨s1, ?_, h2, ?_, h4, ?_⟩
      · simp only [PinDefaultValueChanged_CreateLoop, hra, hfind, hF, Option.isNone_some,
          Bool.false_eq_true, if_false]
        exact h1
      · rw [h3]; simp
      · intro b hb
        rcases List.mem_cons.1 hb with rfl | hb
        · exact ⟨Q, h4 Q (List.mem_of_find?_eq_some hF), List.find?_some hF⟩
        · exact h5 b hb
    | none =>
      have hc1 : (CreatePin s EGPD_Input PC_Wildcard ⟨a⟩).2.CachedFormatPin = some f := hc
      obtain ⟨s1, h1, h2, h3, h4, h5⟩ := ih
        { (CreatePin s EGPD_Input PC_Wildcard ⟨a⟩).2 with
          PinNames := (CreatePin s EGPD_Input PC_Wildcard ⟨a⟩).2.PinNames ++ [⟨a⟩] } hc1 hrt1
      refine ⟨s1, ?_, h2, ?_, ?_, ?_⟩
      · simp only [PinDefaultValueChanged_CreateLoop, hra, hfind, hF, Option.isNone_none, if_true]
        exact h1
      · rw [h3]; simp [CreatePin]
      · intro P hP
        exact h4 P (by simp [CreatePin, hP])
      · intro b hb
        rcases List.mem_cons.1 hb with rfl | hb
        · exact ⟨(CreatePin s EGPD_Input PC_Wildcard ⟨b⟩).1, h4 _ (by simp [CreatePin]),
            IsArgumentPinNamed_CreatePin s f ⟨b⟩ hc PC_Wildcard⟩
        · exact h5 b hb

theorem NamesFound_PinDefaultValueChanged (s s1 : Node) (Pin : Nat) (A : List String)
    (hinv : NamesFound s) (hrt : KeepSpelling A)
    (h : PinDefaultValueChanged s Pin A = some s1) : NamesFound s1 := by
  obtain ⟨f, hc, hn⟩ := hinv
  unfold PinDefaultValueChanged at h
  rw [GetFormatPin_cached s f hc] at h
  simp only at h
  by_cases hp : (Pin == f) = true
  · rw [if_pos hp] at h
    cases hF : s.Pins.find? (fun P => P.Id == f) with
    | none => rw [hF] at h; cases h
    | some FP =>
      rw [hF] at h
      simp only at h
      by_cases hl : (FP.LinkedTo.length == 0) = true
      · rw [if_pos hl] at h
        obtain ⟨s2, h1, h2, h3, _, h5⟩ := CreateLoop_found f A { s with PinNames := [] } hc hrt
        rw [h1] at h
        simp only [Option.some.injEq] at h
        subst h
        refine ⟨f, h2, ?_⟩
        intro n hn1
        simp only [h3, List.nil_append, List.mem_map] at hn1
        obtain ⟨a, ha, rfl⟩ := hn1
        obtain ⟨P, hP, hPn⟩ := h5 a ha
        refine ⟨P, ?_, hPn⟩
        show P ∈ PinDefaultValueChanged_DestroyLoop f A s2.Pins
        rw [DestroyLoop_eq_filter, List.mem_filter]
        refine ⟨hP, ?_⟩
        have : P.PinName.ToString = a := by
          simp only [IsArgumentPinNamed, Bool.and_eq_true, beq_iff_eq] at hPn
          exact hPn.2
        simp [this, ha]
      · rw [if_neg hl] at h
        simp only [Option.some.injEq] at h
        subst h
        exact ⟨f, hc, hn⟩
  · rw [if_neg hp] at h
    simp only [Option.some.injEq] at h
    subst h
    exact ⟨f, hc, hn⟩

theorem SetPinType_shape (Pins : List UEdGraphPin) (Pin : Nat) (T : FEdGraphPinType) :
    (SetPinType Pins Pin T).map PinShape = Pins.map PinShape := by
  unfold SetPinType
  rw [List.map_map]
  apply List.map_congr_left
  intro P _
  simp only [Function.comp]
  split <;> rfl

theorem SynchronizeArgumentPinType_shape (s s1 : Node) (f Pin : Nat)
    (hc : s.CachedFormatPin = some f) (h : SynchronizeArgumentPinType s Pin = some s1) :
    s1.CachedFormatPin = some f ∧ s1.PinNames = s.PinNames
      ∧ s1.Pins.map PinShape = s.Pins.map PinShape := by
  cases hF : s.Pins.find? (fun Q => Q.Id == Pin) with
  | none =>
    unfold SynchronizeArgumentPinType at h
    rw [GetFormatPin_cached s f hc] at h
    simp only [hF] at h
    cases h
  | some P =>
    obtain ⟨s2, h1, h2, h3, h4⟩ := SynchronizeArgumentPinType_pins s f Pin P hc hF
    rw [h1] at h
    simp only [Option.some.injEq] at h
    subst h
    refine ⟨h3, h2, ?_⟩
    rw [h4]
    split
    · exact SetPinType_shape _ _ _
    · rfl

theorem NamesFound_PinConnectionListChanged (s s1 : Node) (Pin : Nat)
    (hinv : NamesFound s) (h : PinConnectionListChanged s Pin = some s1) : NamesFound s1 := by
  obtain ⟨f, hc, hn⟩ := hinv
  simp only [PinConnectionListChanged, GetFormatPin_cached s f hc, bind, Option.bind] at h
  have hsame : SynchronizeArgumentPinType s Pin = some s1 → NamesFound s1 := by
    intro hS
    obtain ⟨h1, h2, h3⟩ := SynchronizeArgumentPinType_shape s s1 f Pin hc hS
    refine ⟨f, h1, fun n hn1 => ?_⟩
    rw [h2] at hn1
    exact exists_of_shape f n s.Pins s1.Pins h3 (hn n hn1)
  by_cases hp : (Pin == f) = true
  · rw [if_pos hp] at h
    cases hF : s.Pins.find? (fun P => P.Id == f) with
    | none => rw [hF] at h; cases h
    | some FP =>
      rw [hF] at h
      simp only [Option.map_some'] at h
      cases hE : FP.DefaultTextValue.isEmpty with
      | true =>
        rw [hE] at h
        simp only [Bool.not_true, Bool.false_eq_true, if_false] at h
        exact hsame h
      | false =>
        rw [hE] at h
        simp only [Bool.not_false, if_true] at h
        cases hL : PinConnectionListChanged_Loop f
            ((TrySetDefaultText s.Pins FP "").length + 1) 0 (TrySetDefaultText s.Pins FP "") with
        | none => rw [hL] at h; cases h
        | some Pins =>
          rw [hL] at h
          simp only at h
          obtain ⟨h1, h2, _⟩ := SynchronizeArgumentPinType_shape _ s1 f Pin (by exact hc) h
          refine ⟨f, h1, fun n hn1 => ?_⟩
          rw [h2] at hn1
          simp at hn1
  · rw [if_neg hp] at h
    simp only [Bool.false_eq_true, if_false] at h
    exact hsame h

theorem NamesFound_of_Reachable (s : Node) (h : Reachable KeepSpelling s) : NamesFound s := by
  induction h with
  | allocate s => exact NamesFound_AllocateDefaultPins s
  | pinDefaultValueChanged s s1 Pin A _ hA h ih =>
    exact NamesFound_PinDefaultValueChanged s s1 Pin A ih hA h
  | pinConnectionListChanged s s1 Pin _ h ih =>
    exact NamesFound_PinConnectionListChanged s s1 Pin ih h
  | edit s Pins _ h ih =>
    obtain ⟨f, hc, hn⟩ := ih
    exact ⟨f, hc, fun n hn1 => exists_of_shape f n s.Pins Pins h (hn n hn1)⟩

/-- In every state a node reaches from `AllocateDefaultPins` by
`PinDefaultValueChanged` and `PinConnectionListChanged` calls (and by the
editor changing what the pins carry), as long as the parsed names keep their
spelling as an `FName`, the format pin is found, and for every name of
`PinNames` the call `FindArgumentPin` returns a pin, not `nullptr`: a pin of
the node that is an input, is not the format pin, and has that name
case-sensitively. -/
theorem FindArgumentPin_finds_every_name (s : Node) (h : Reachable KeepSpelling s) :
    ∃ f, (GetFormatPin s).map Prod.fst = some f
      ∧ ∀ PinName ∈ s.PinNames, ∃ P : UEdGraphPin,
          (FindArgumentPin s PinName).map Prod.fst = some (some P)
          ∧ P ∈ s.Pins ∧ P.Id ≠ f ∧ P.Direction = EGPD_Input
          ∧ P.PinName.ToString = PinName.ToString := by
  obtain ⟨f, hc, hn⟩ := NamesFound_of_Reachable s h
  refine ⟨f, by rw [GetFormatPin_cached s f hc]; rfl, fun n hn1 => ?_⟩
  obtain ⟨Q, hQ, hQn⟩ := hn n hn1
  cases hF : s.Pins.find? (IsArgumentPinNamed f n) with
  | none =>
    have := List.find?_eq_none.1 hF Q hQ
    exact absurd hQn this
  | some P =>
    have hp := List.find?_some hF
    simp only [IsArgumentPinNamed, Bool.and_eq_true, bne_iff_ne, ne_eq, beq_iff_eq] at hp
    refine ⟨P, ?_, List.mem_of_find?_eq_some hF, hp.1.1, ?_, hp.2⟩
    · simp [FindArgumentPin, GetFormatPin_cached s f hc, hF]
    · cases hd : P.Direction with
      | EGPD_Input => rfl
      | EGPD_Output => exact absurd hd hp.1.2

/-- C14, failing input. A new node whose template names the one argument
`_1`: the state after `PinDefaultValueChanged` on the format pin is
reachable, its `PinNames` is `[None]`, `FindArgumentPin` returns `nullptr`
for that name, and `ExpandNode`, which dereferences what `FindArgumentPin`
returns, does not return. With the template that names `a` the pin is found
and `ExpandNode` returns. -/
theorem C14_FindArgumentPin_null_for_number_suffix_name :
    Reachable (fun _ => True)
      ((PinDefaultValueChanged (AllocateDefaultPins {}) 1 ["_1"]).getD {})
    ∧ (PinDefaultValueChanged (AllocateDefaultPins {}) 1 ["_1"]).map
        (fun s => (s.PinNames, PinSummary s.Pins))
      = some ([NAME_None], [(1, "Format"), (2, "Result")])
    ∧ (FindArgumentPin ((PinDefaultValueChanged (AllocateDefaultPins {}) 1 ["_1"]).getD {})
        NAME_None).map Prod.fst = some none
    ∧ (ExpandNode EngineFunctions { NextPinId := 1000 }
        ((PinDefaultValueChanged (AllocateDefaultPins {}) 1 ["_1"]).getD {})).isNone = true
    ∧ ((FindArgumentPin ((PinDefaultValueChanged (AllocateDefaultPins {}) 1 ["a"]).getD {})
        ⟨"a"⟩).map Prod.fst).map (Option.map (fun P => P.Id)) = some (some 3)
    ∧ (ExpandNode EngineFunctions { NextPinId := 1000 }
        ((PinDefaultValueChanged (AllocateDefaultPins {}) 1 ["a"]).getD {})).isSome = true := by
  refine ⟨?_, by decide, by decide, by decide, by decide, by decide⟩
  exact Reachable.pinDefaultValueChanged (AllocateDefaultPins {}) _ 1 ["_1"]
    (Reachable.allocate {}) trivial (by decide)

theorem IsHandledType_of_bIsValidType (Other : UEdGraphPin) (h : bIsValidType Other = true)
    (hw : Other.PinType.PinCategory.Equals PC_Wildcard = false) :
    IsHandledType Other.PinType = true := by
  rw [bIsValidType_iff] at h
  unfold IsHandledType
  rcases h with h | h | h | h | h | h | h | h | h | ⟨h1, h2⟩
  all_goals first
    | (rw [hw] at h; cases h)
    | simp [h]
    | simp [h1, h2]

/-- C15, counterexample. A pin of the category `wildcard` passes the check
of `IsConnectionDisallowed` for the argument pin `a`, and `ExpandNode` on a
node whose argument pin `a` is linked with that type reports
`Pin 'a' has an unexpected type: wildcard`. -/
theorem C15_wildcard_accepted_and_reported :
    (IsConnectionDisallowed ExampleLinkedNode
        { Id := 3, PinName := ⟨"a"⟩, Direction := EGPD_Input, PinType := WildcardPinType }
        (OtherPinOfType PC_Wildcard none) "" (fun r => (false, r))).map Prod.fst
      = some (false, "")
    ∧ bIsValidType (OtherPinOfType PC_Wildcard none) = true
    ∧ (ExpandNode EngineFunctions { NextPinId := 1000 } (ExampleArgumentNode PC_Wildcard none)).map
        (fun r => r.CompilerContext.MessageLog)
      = some ["Pin \x27a\x27 has an unexpected type: wildcard"] := by
  refine ⟨by decide, by decide, by decide⟩

/-- C15, amended. Every pin type that the check of `IsConnectionDisallowed`
accepts and whose category is not `wildcard` is one `ExpandNode` has a
branch for; and when every linked argument pin of the node has such a type,
`ExpandNode`, run to its end, adds no error to the message log. -/
theorem C15_accepted_types_have_a_branch (Functions : List UFunction)
    (C : FKismetCompilerContext) (s : Node) (f : Nat) (FP R : UEdGraphPin)
    (h : ExpandNodePre Functions s f FP R)
    (hacc : ∀ PinName ∈ s.PinNames, ∀ P, s.Pins.find? (IsArgumentPinNamed f PinName) = some P →
      P.LinkedTo ≠ [] →
      bIsValidType P = true ∧ P.PinType.PinCategory.Equals PC_Wildcard = false) :
    (∀ Other : UEdGraphPin, bIsValidType Other = true →
      Other.PinType.PinCategory.Equals PC_Wildcard = false →
      IsHandledType Other.PinType = true ∧ (Other.LinkedTo ≠ [] → HasUnexpectedType Other = false))
    ∧ ∃ r : FExpandResult, ExpandNode Functions C s = some r
        ∧ r.CompilerContext.MessageLog = C.MessageLog := by
  constructor
  · intro Other hv hw
    have := IsHandledType_of_bIsValidType Other hv hw
    exact ⟨this, fun _ => by simp [HasUnexpectedType, this]⟩
  · obtain ⟨r, AO, IP, IA, RV, h1, _, h3, _⟩ := ExpandNode_spec Functions C s f FP R h
    refine ⟨r, h1, ?_⟩
    have hnil : UnexpectedTypeErrors f s.Pins s.PinNames = [] := by
      rw [List.eq_nil_iff_forall_not_mem]
      intro m hm
      obtain ⟨PinName, hn, P, hP, hl, hh, _⟩ :=
        (mem_UnexpectedTypeErrors f s.Pins s.PinNames m).1 hm
      obtain ⟨hv, hw⟩ := hacc PinName hn P hP hl
      rw [IsHandledType_of_bIsValidType P hv hw] at hh
      cases hh
    rw [h3, hnil, List.append_nil]

/-- C15, amended, at a node whose argument `a` is linked to a `bool`
pin. -/
theorem C15_accepted_types_have_a_branch_witness :
    ∃ r : FExpandResult,
      ExpandNode EngineFunctions { NextPinId := 1000 } (ExampleArgumentNode PC_Boolean none) = some r
        ∧ r.CompilerContext.MessageLog = [] :=
  (C15_accepted_types_have_a_branch EngineFunctions { NextPinId := 1000 }
    (ExampleArgumentNode PC_Boolean none) 1
    { Id := 1, PinName := ⟨"Format"⟩, Direction := EGPD_Input, PinType := { PinCategory := PC_String } }
    { Id := 2, PinName := ⟨"Result"⟩, Direction := EGPD_Output, PinType := { PinCategory := PC_String } }
    ⟨by decide, by decide, by decide, by decide, by decide, by decide, by decide, by decide⟩
    (by decide)).2

/-- C16, failing input. `AddConversionNode` looks every name up in
`UKismetStringLibrary`. The names `Conv_BoolToString`, `Conv_NameToString`
and `Conv_ObjectToString` are declared there and found. The name
`Conv_TextToString` is declared in `UKismetTextLibrary`, the lookup gives
`nullptr`, `SetFromFunction` sets no function, and the body of the loop of
`ExpandNode` for an argument linked to a `text` pin fails the check of
`FindPinChecked(TEXT("InText"))`; for an argument linked to a `bool` pin it
returns. -/
theorem C16_AddConversionNode_looks_up_in_string_library :
    (FindFunctionByName EngineFunctions UClass.UKismetStringLibrary ⟨"Conv_BoolToString"⟩).isSome
      = true
    ∧ (FindFunctionByName EngineFunctions UClass.UKismetStringLibrary ⟨"Conv_NameToString"⟩).isSome
      = true
    ∧ (FindFunctionByName EngineFunctions UClass.UKismetStringLibrary
        ⟨"Conv_ObjectToString"⟩).isSome = true
    ∧ (FindFunctionByName EngineFunctions UClass.UKismetTextLibrary ⟨"Conv_TextToString"⟩).isSome
      = true
    ∧ (UK2Node_CallFunction.SetFromFunction {}
        (FindFunctionByName EngineFunctions UClass.UKismetStringLibrary
          ⟨"Conv_TextToString"⟩)).FunctionReference = none
    ∧ (ExpandNode_Argument EngineFunctions 0 ⟨"a"⟩
        { Self := ExampleArgumentNode PC_Text none, CompilerContext := { NextPinId := 1000 },
          MakeArrayNode := (UK2Node_MakeArray.AllocateDefaultPins { NextPinId := 900 } {}).1 }).isNone
      = true
    ∧ (ExpandNode_Argument EngineFunctions 0 ⟨"a"⟩
        { Self := ExampleArgumentNode PC_Boolean none, CompilerContext := { NextPinId := 1000 },
          MakeArrayNode := (UK2Node_MakeArray.AllocateDefaultPins { NextPinId := 900 } {}).1 }).isSome
      = true := by
  refine ⟨by decide, by decide, by decide, by decide, by decide, by decide, by decide⟩

end UK2Node_FormatString

/-- C17. `PinDefaultValueChanged(Pin)` returns and leaves `Pins` and
`PinNames` as they are when `Pin` is not the format pin of the node or the
format pin has at least one link, in `UK2Node_FormatString` (whose format
pin is the cached one) and in `UK2Node_SiriusPrintStringFormatted` (whose
format pin is the input found under the name `In String`), whatever the
parser returns. -/
theorem C17_PinDefaultValueChanged_outside_template_edits
    (s s0 : UK2Node_FormatString.Node) (f Pin : Nat) (A : List String)
    (hf : UK2Node_FormatString.GetFormatPin s = some (f, s0))
    (hcase : Pin ≠ f
      ∨ ∃ FP, s.Pins.find? (fun P => P.Id == f) = some FP ∧ FP.LinkedTo ≠ [])
    (t : UK2Node_SiriusPrintStringFormatted.Node) (FormatPin : UEdGraphPin) (Pin1 : Nat)
    (A1 : List String)
    (hg : UK2Node_SiriusPrintStringFormatted.GetFormatPin t = some FormatPin)
    (hcase1 : Pin1 ≠ FormatPin.Id ∨ FormatPin.LinkedTo ≠ []) :
    (∃ s1, UK2Node_FormatString.PinDefaultValueChanged s Pin A = some s1
      ∧ s1.Pins = s.Pins ∧ s1.PinNames = s.PinNames)
    ∧ (∃ t1, UK2Node_SiriusPrintStringFormatted.PinDefaultValueChanged t Pin1 A1 = some t1
      ∧ t1.Pins = t.Pins ∧ t1.PinNames = t.PinNames) := by
  constructor
  · have hs0 := UK2Node_FormatString.GetFormatPin_spec s s0 f hf
    refine ⟨s0, ?_, by rw [hs0], by rw [hs0]⟩
    unfold UK2Node_FormatString.PinDefaultValueChanged
    rw [hf]
    simp only
    by_cases hp : Pin = f
    · rcases hcase with h | ⟨FP, hFP, hl⟩
      · exact absurd hp h
      · have hp0 : s0.Pins = s.Pins := by rw [hs0]
        have hl1 : (FP.LinkedTo.length == 0) = false := by
          cases hL : FP.LinkedTo with
          | nil => exact absurd hL hl
          | cons a l => rfl
        simp only [hp, beq_self_eq_true, if_true, hp0, hFP, hl1, Bool.false_eq_true, if_false]
    · have hp1 : (Pin == f) = false := by simpa using hp
      simp only [hp1, Bool.false_eq_true, if_false]
  · refine ⟨t, ?_, rfl, rfl⟩
    unfold UK2Node_SiriusPrintStringFormatted.PinDefaultValueChanged
    rw [hg]
    simp only
    have hc : (Pin1 == FormatPin.Id && FormatPin.LinkedTo.length == 0) = false := by
      rcases hcase1 with h | h
      · have : (Pin1 == FormatPin.Id) = false := by simpa using h
        rw [this]; rfl
      · cases hL : FormatPin.LinkedTo with
        | nil => exact absurd hL h
        | cons a l => simp
    simp only [hc, Bool.false_eq_true, if_false]

/-- C17, at the argument pin `a` of `ExampleLinkedNode` and at the
`Duration` pin of a new `UK2Node_SiriusPrintStringFormatted`. -/
theorem C17_PinDefaultValueChanged_outside_template_edits_witness :
    (∃ s1, UK2Node_FormatString.PinDefaultValueChanged UK2Node_FormatString.ExampleLinkedNode 3
        ["x"] = some s1
      ∧ s1.Pins = UK2Node_FormatString.ExampleLinkedNode.Pins
      ∧ s1.PinNames = UK2Node_FormatString.ExampleLinkedNode.PinNames)
    ∧ (∃ t1, UK2Node_SiriusPrintStringFormatted.PinDefaultValueChanged
        UK2Node_SiriusPrintStringFormatted.NewNode 7 ["x"] = some t1
      ∧ t1.Pins = UK2Node_SiriusPrintStringFormatted.NewNode.Pins
      ∧ t1.PinNames = UK2Node_SiriusPrintStringFormatted.NewNode.PinNames) :=
  C17_PinDefaultValueChanged_outside_template_edits UK2Node_FormatString.ExampleLinkedNode
    UK2Node_FormatString.ExampleLinkedNode 1 3 ["x"] (by decide) (Or.inl (by decide))
    UK2Node_SiriusPrintStringFormatted.NewNode
    { Id := 3, PinName := ⟨"In String"⟩, Direction := EGPD_Input,
      PinType := { PinCategory := PC_String }, DefaultValue := "Hello" }
    7 ["x"] (by decide) (Or.inl (by decide))
